import Mathlib

/-!
# Verification of the kubecopy copy pipeline

Shallow embedding of the kubecopy core (sanitizer registry, conflict
detector, copier plan/apply, dependency discoverer) and proofs of the
frozen claims about it.

Kubernetes objects are opaque JSON-shaped trees (`unstructured.Unstructured`
in the Go source).  We model them as an inductive `Value` type; Go's
`map[string]interface{}` becomes an association list with first-occurrence
lookup, matching Go map semantics on the duplicate-free maps that actually
occur at runtime.
-/

namespace KubeCopy

/-- JSON-shaped value tree: the model of `interface{}` values held by
`unstructured.Unstructured`.  Numbers are modelled as integers (the decoder
cases `int64`/`float64` both denote whole ports in the code under test). -/
inductive Value where
  | vstr  (s : String)
  | vnum  (n : Int)
  | vbool (b : Bool)
  | vnull
  | varr  (xs : List Value)
  | vmap  (m : List (String × Value))

/-- The model of `map[string]interface{}`: an association list. -/
abbrev Obj := List (String × Value)

/-- Go map read `m[k]`: first binding of `k`, if any. -/
def mapGet (m : Obj) (k : String) : Option Value :=
  match m with
  | [] => none
  | (k', v) :: rest => if k' = k then some v else mapGet rest k

/-- Go map delete `delete(m, k)`: remove every binding of `k`. -/
def mapDel (m : Obj) (k : String) : Obj :=
  match m with
  | [] => []
  | (k', v) :: rest => if k' = k then mapDel rest k else (k', v) :: mapDel rest k

/-- Go map write `m[k] = v`: replace the first binding of `k`
(appending when absent). -/
def mapSet (m : Obj) (k : String) (v : Value) : Obj :=
  match m with
  | [] => [(k, v)]
  | (k', v') :: rest => if k' = k then (k, v) :: rest else (k', v') :: mapSet rest k v

@[simp] theorem mapGet_nil (k : String) : mapGet [] k = none := rfl

theorem mapGet_cons (k' k : String) (v : Value) (rest : Obj) :
    mapGet ((k', v) :: rest) k = if k' = k then some v else mapGet rest k := rfl

@[simp] theorem mapGet_mapSet_self (m : Obj) (k : String) (v : Value) :
    mapGet (mapSet m k v) k = some v := by
  induction m with
  | nil => simp [mapSet, mapGet]
  | cons p rest ih =>
      obtain ⟨k', v'⟩ := p
      by_cases h : k' = k <;> simp [mapSet, mapGet, h, ih]

theorem mapGet_mapSet_other {k' k : String} (m : Obj) (v : Value) (h : k' ≠ k) :
    mapGet (mapSet m k v) k' = mapGet m k' := by
  induction m with
  | nil => simp [mapSet, mapGet, Ne.symm h]
  | cons p rest ih =>
      obtain ⟨k₀, v₀⟩ := p
      by_cases h₀ : k₀ = k
      · subst h₀
        simp [mapSet, mapGet, Ne.symm h]
      · by_cases h₁ : k₀ = k' <;> simp [mapSet, mapGet, h₀, h₁, h, ih]

@[simp] theorem mapGet_mapDel_self (m : Obj) (k : String) :
    mapGet (mapDel m k) k = none := by
  induction m with
  | nil => simp [mapDel]
  | cons p rest ih =>
      obtain ⟨k₀, v₀⟩ := p
      by_cases h : k₀ = k <;> simp [mapDel, mapGet, h, ih]

theorem mapGet_mapDel_other {k' k : String} (m : Obj) (h : k' ≠ k) :
    mapGet (mapDel m k) k' = mapGet m k' := by
  induction m with
  | nil => simp [mapDel]
  | cons p rest ih =>
      obtain ⟨k₀, v₀⟩ := p
      by_cases h₀ : k₀ = k
      · subst h₀
        simp [mapDel, mapGet, Ne.symm h, ih]
      · by_cases h₁ : k₀ = k' <;> simp [mapDel, mapGet, h₀, h₁, h, ih]

/-- Writing back the value already present leaves the map unchanged. -/
theorem mapSet_get_self {m : Obj} {k : String} {v : Value}
    (h : mapGet m k = some v) : mapSet m k v = m := by
  induction m with
  | nil => simp [mapGet] at h
  | cons p rest ih =>
      obtain ⟨k₀, v₀⟩ := p
      by_cases h₀ : k₀ = k
      · subst h₀
        simp [mapGet] at h
        simp [mapSet, h]
      · simp [mapGet, h₀] at h
        simp [mapSet, h₀, ih h]

/-- Deleting an absent key leaves the map unchanged. -/
theorem mapDel_get_none {m : Obj} {k : String}
    (h : mapGet m k = none) : mapDel m k = m := by
  induction m with
  | nil => simp [mapDel]
  | cons p rest ih =>
      obtain ⟨k₀, v₀⟩ := p
      by_cases h₀ : k₀ = k
      · subst h₀; simp [mapGet] at h
      · simp [mapGet, h₀] at h
        simp [mapDel, h₀, ih h]

/-- Characterization of a left fold of `mapDel` over a list of field names
(the strip loop in `SanitizeCommon`). -/
theorem foldl_mapDel_get (fs : List String) (md : Obj) (k : String) :
    mapGet (fs.foldl mapDel md) k = if k ∈ fs then none else mapGet md k := by
  induction fs generalizing md with
  | nil => simp
  | cons f rest ih =>
      by_cases hk : k = f
      · subst hk
        simp [List.foldl, ih]
      · simp [List.foldl, ih, hk, mapGet_mapDel_other md hk]

/-- Advisory warning produced during sanitization
(`Warning` in pkg/sanitizer/registry.go). -/
structure Warning where
  resource : String
  message  : String
deriving DecidableEq, Repr

/-- `Unstructured.SetNamespace`: an empty namespace removes
`metadata.namespace` (`RemoveNestedField`), otherwise the nested setter
writes it, creating `metadata` when absent and silently failing when
`metadata` is present but not a mapping. -/
def setNamespaceU (o : Obj) (ns : String) : Obj :=
  if ns = "" then
    match mapGet o "metadata" with
    | some (.vmap md) => mapSet o "metadata" (.vmap (mapDel md "namespace"))
    | _ => o
  else
    match mapGet o "metadata" with
    | some (.vmap md) => mapSet o "metadata" (.vmap (mapSet md "namespace" (.vstr ns)))
    | some _ => o
    | none => mapSet o "metadata" (.vmap [("namespace", .vstr ns)])

/-- `Unstructured.SetName`: nested write of `metadata.name`. -/
def setNameU (o : Obj) (name : String) : Obj :=
  match mapGet o "metadata" with
  | some (.vmap md) => mapSet o "metadata" (.vmap (mapSet md "name" (.vstr name)))
  | some _ => o
  | none => mapSet o "metadata" (.vmap [("name", .vstr name)])

/-- The server-set metadata fields stripped by `SanitizeCommon`. -/
def stripMetadataFields : List String :=
  ["uid", "resourceVersion", "creationTimestamp", "generation", "selfLink",
   "managedFields"]

def lastAppliedAnnotation : String :=
  "kubectl.kubernetes.io/last-applied-configuration"

/-- The metadata strip loop of `SanitizeCommon`: the six server-set fields
followed by `ownerReferences`. -/
def stripCommonMeta (md : Obj) : Obj :=
  mapDel (stripMetadataFields.foldl mapDel md) "ownerReferences"

/-- The last-applied-configuration annotation strip of `SanitizeCommon`:
delete the annotation and drop the `annotations` mapping when it becomes
empty.  A missing or non-mapping `annotations` entry is left alone. -/
def stripLastApplied (md : Obj) : Obj :=
  match mapGet md "annotations" with
  | some (.vmap annotations) =>
      let annotations1 := mapDel annotations lastAppliedAnnotation
      if annotations1.isEmpty then mapDel md "annotations"
      else mapSet md "annotations" (.vmap annotations1)
  | _ => md

/-- `SanitizeCommon` (pkg/sanitizer/registry.go): strips server-set metadata,
the last-applied annotation, `ownerReferences` and `status`, rewrites
namespace and (when non-empty) name.  Returns the object unchanged when the
top-level `metadata` entry is not a mapping; never produces warnings. -/
def SanitizeCommon (o : Obj) (targetNamespace targetName : String) : Obj :=
  match mapGet o "metadata" with
  | some (.vmap metadata0) =>
    let metadata := stripLastApplied (stripCommonMeta metadata0)
    let o1 := mapSet o "metadata" (.vmap metadata)
    let o2 := mapDel o1 "status"
    let o3 := setNamespaceU o2 targetNamespace
    if targetName = "" then o3 else setNameU o3 targetName
  | _ => o

theorem stripCommonMeta_get (md : Obj) (k : String) :
    mapGet (stripCommonMeta md) k =
      if k = "ownerReferences" ∨ k ∈ stripMetadataFields then none
      else mapGet md k := by
  unfold stripCommonMeta
  by_cases h : k = "ownerReferences"
  · subst h; simp
  · rw [mapGet_mapDel_other _ h, foldl_mapDel_get]
    simp [h]

theorem stripLastApplied_get_other {k : String} (md : Obj)
    (h : k ≠ "annotations") :
    mapGet (stripLastApplied md) k = mapGet md k := by
  unfold stripLastApplied
  cases hv : mapGet md "annotations" with
  | none => rfl
  | some v =>
      cases v with
      | vmap a =>
          by_cases he : (mapDel a lastAppliedAnnotation).isEmpty <;>
            simp [he, mapGet_mapDel_other _ h, mapGet_mapSet_other _ _ h]
      | vstr s => rfl
      | vnum n => rfl
      | vbool b => rfl
      | vnull => rfl
      | varr xs => rfl


theorem setNamespaceU_of_map {o md : Obj} (t : String)
    (h : mapGet o "metadata" = some (.vmap md)) :
    setNamespaceU o t =
      if t = "" then mapSet o "metadata" (.vmap (mapDel md "namespace"))
      else mapSet o "metadata" (.vmap (mapSet md "namespace" (.vstr t))) := by
  unfold setNamespaceU
  by_cases ht : t = "" <;> simp [ht, h]

theorem setNameU_of_map {o md : Obj} (n : String)
    (h : mapGet o "metadata" = some (.vmap md)) :
    setNameU o n = mapSet o "metadata" (.vmap (mapSet md "name" (.vstr n))) := by
  unfold setNameU
  simp [h]

/-- Explicit form of `SanitizeCommon` on an object whose `metadata` is a
mapping. -/
theorem SanitizeCommon_of_map (o md : Obj) (t n : String)
    (hmd : mapGet o "metadata" = some (.vmap md)) :
    SanitizeCommon o t n =
      (let md3 := stripLastApplied (stripCommonMeta md)
       let o2 := mapDel (mapSet o "metadata" (.vmap md3)) "status"
       let mdNs := if t = "" then mapDel md3 "namespace"
                   else mapSet md3 "namespace" (.vstr t)
       let o3 := mapSet o2 "metadata" (.vmap mdNs)
       if n = "" then o3
       else mapSet o3 "metadata" (.vmap (mapSet mdNs "name" (.vstr n)))) := by
  unfold SanitizeCommon
  rw [hmd]
  dsimp only
  have ho2 : mapGet
      (mapDel (mapSet o "metadata" (.vmap (stripLastApplied (stripCommonMeta md)))) "status")
      "metadata" = some (.vmap (stripLastApplied (stripCommonMeta md))) := by
    rw [mapGet_mapDel_other _ (by decide), mapGet_mapSet_self]
  rw [setNamespaceU_of_map t ho2]
  by_cases ht : t = "" <;> by_cases hn : n = "" <;>
    simp only [ht, hn, if_pos, if_neg, ite_true, ite_false, if_true, if_false] <;>
    first
      | rfl
      | rw [setNameU_of_map n (mapGet_mapSet_self _ _ _)]

/-- C1: for every object whose top-level `metadata` entry is a mapping, after
`SanitizeCommon(obj, T, N)` the metadata mapping contains none of the keys
uid, resourceVersion, creationTimestamp, generation, selfLink, managedFields,
ownerReferences; the top-level `status` key is absent; `metadata.namespace`
equals `T` (the field is absent when `T` is the empty string); and
`metadata.name` equals `N` whenever `N` is non-empty. -/
theorem claim_C1_sanitizeCommon_postconditions
    (o md : Obj) (t n : String)
    (hmd : mapGet o "metadata" = some (.vmap md)) :
    ∃ md', mapGet (SanitizeCommon o t n) "metadata" = some (.vmap md') ∧
      mapGet md' "uid" = none ∧ mapGet md' "resourceVersion" = none ∧
      mapGet md' "creationTimestamp" = none ∧ mapGet md' "generation" = none ∧
      mapGet md' "selfLink" = none ∧ mapGet md' "managedFields" = none ∧
      mapGet md' "ownerReferences" = none ∧
      mapGet (SanitizeCommon o t n) "status" = none ∧
      (t = "" → mapGet md' "namespace" = none) ∧
      (t ≠ "" → mapGet md' "namespace" = some (.vstr t)) ∧
      (n ≠ "" → mapGet md' "name" = some (.vstr n)) := by
  rw [SanitizeCommon_of_map o md t n hmd]
  set md3 := stripLastApplied (stripCommonMeta md) with hmd3
  have hstrip : ∀ k, (k = "ownerReferences" ∨ k ∈ stripMetadataFields) →
      k ≠ "annotations" → mapGet md3 k = none := by
    intro k hk hka
    rw [hmd3, stripLastApplied_get_other _ hka, stripCommonMeta_get]
    simp [hk]
  set mdNs := (if t = "" then mapDel md3 "namespace"
               else mapSet md3 "namespace" (.vstr t)) with hmdNs
  set md' := (if n = "" then mdNs else mapSet mdNs "name" (.vstr n)) with hmd'
  have hNsOther : ∀ k, k ≠ "namespace" → mapGet mdNs k = mapGet md3 k := by
    intro k hk
    rw [hmdNs]
    by_cases ht : t = "" <;>
      simp [ht, mapGet_mapDel_other _ hk, mapGet_mapSet_other _ _ hk]
  have hOther : ∀ k, k ≠ "namespace" → k ≠ "name" → mapGet md' k = mapGet md3 k := by
    intro k hk hkn
    rw [hmd']
    by_cases hn : n = "" <;>
      simp [hn, mapGet_mapSet_other _ _ hkn, hNsOther k hk]
  have hmeta : mapGet
      (if n = "" then
        mapSet (mapDel (mapSet o "metadata" (.vmap md3)) "status") "metadata" (.vmap mdNs)
       else
        mapSet (mapSet (mapDel (mapSet o "metadata" (.vmap md3)) "status") "metadata" (.vmap mdNs))
          "metadata" (.vmap (mapSet mdNs "name" (.vstr n)))) "metadata" =
      some (.vmap md') := by
    rw [hmd']
    by_cases hn : n = "" <;> simp [hn]
  have hstatus : mapGet
      (if n = "" then
        mapSet (mapDel (mapSet o "metadata" (.vmap md3)) "status") "metadata" (.vmap mdNs)
       else
        mapSet (mapSet (mapDel (mapSet o "metadata" (.vmap md3)) "status") "metadata" (.vmap mdNs))
          "metadata" (.vmap (mapSet mdNs "name" (.vstr n)))) "status" = none := by
    by_cases hn : n = "" <;>
      simp [hn, mapGet_mapSet_other _ _ (by decide : ("status" : String) ≠ "metadata")]
  refine ⟨md', hmeta, ?_, ?_, ?_, ?_, ?_, ?_, ?_, hstatus, ?_, ?_, ?_⟩
  · exact (hOther _ (by decide) (by decide)).trans (hstrip _ (by simp [stripMetadataFields]) (by decide))
  · exact (hOther _ (by decide) (by decide)).trans (hstrip _ (by simp [stripMetadataFields]) (by decide))
  · exact (hOther _ (by decide) (by decide)).trans (hstrip _ (by simp [stripMetadataFields]) (by decide))
  · exact (hOther _ (by decide) (by decide)).trans (hstrip _ (by simp [stripMetadataFields]) (by decide))
  · exact (hOther _ (by decide) (by decide)).trans (hstrip _ (by simp [stripMetadataFields]) (by decide))
  · exact (hOther _ (by decide) (by decide)).trans (hstrip _ (by simp [stripMetadataFields]) (by decide))
  · exact (hOther _ (by decide) (by decide)).trans (hstrip _ (by simp [stripMetadataFields]) (by decide))
  · intro ht
    have h1 : mapGet md' "namespace" = mapGet mdNs "namespace" := by
      rw [hmd']
      by_cases hn : n = "" <;>
        simp [hn, mapGet_mapSet_other _ _ (by decide : ("namespace" : String) ≠ "name")]
    rw [h1, hmdNs, if_pos ht, mapGet_mapDel_self]
  · intro ht
    have h1 : mapGet md' "namespace" = mapGet mdNs "namespace" := by
      rw [hmd']
      by_cases hn : n = "" <;>
        simp [hn, mapGet_mapSet_other _ _ (by decide : ("namespace" : String) ≠ "name")]
    rw [h1, hmdNs, if_neg ht, mapGet_mapSet_self]
  · intro hn
    rw [hmd', if_neg hn, mapGet_mapSet_self]

/-- Witness for C1 at a concrete object: a Deployment-shaped object carrying
every stripped field, copied to namespace `ns1` under the name `newname`. -/
theorem claim_C1_witness :
    mapGet [("metadata", Value.vmap [("name", .vstr "old"), ("uid", .vstr "u1"),
              ("ownerReferences", .varr [])]),
            ("status", .vmap [])] "metadata" =
      some (.vmap [("name", .vstr "old"), ("uid", .vstr "u1"),
              ("ownerReferences", .varr [])]) ∧
    (∃ md', mapGet (SanitizeCommon
        [("metadata", Value.vmap [("name", .vstr "old"), ("uid", .vstr "u1"),
              ("ownerReferences", .varr [])]),
         ("status", .vmap [])] "ns1" "newname") "metadata" = some (.vmap md') ∧
      mapGet md' "uid" = none ∧ mapGet md' "resourceVersion" = none ∧
      mapGet md' "creationTimestamp" = none ∧ mapGet md' "generation" = none ∧
      mapGet md' "selfLink" = none ∧ mapGet md' "managedFields" = none ∧
      mapGet md' "ownerReferences" = none ∧
      mapGet (SanitizeCommon
        [("metadata", Value.vmap [("name", .vstr "old"), ("uid", .vstr "u1"),
              ("ownerReferences", .varr [])]),
         ("status", .vmap [])] "ns1" "newname") "status" = none ∧
      (("ns1" : String) = "" → mapGet md' "namespace" = none) ∧
      (("ns1" : String) ≠ "" → mapGet md' "namespace" = some (.vstr "ns1")) ∧
      (("newname" : String) ≠ "" → mapGet md' "name" = some (.vstr "newname"))) :=
  ⟨rfl, claim_C1_sanitizeCommon_postconditions _ _ "ns1" "newname" rfl⟩

/-- `strings.HasPrefix` on character lists. -/
def charsStartWith : List Char → List Char → Bool
  | _, [] => true
  | [], _ :: _ => false
  | a :: as, b :: bs => a == b && charsStartWith as bs

/-- Substring containment, `strings.Contains`, on character lists. -/
def charsContain : List Char → List Char → Bool
  | [], pat => charsStartWith [] pat
  | a :: as, pat => charsStartWith (a :: as) pat || charsContain as pat

/-- `strings.HasPrefix`. -/
def strStartWith (s pat : String) : Bool := charsStartWith s.data pat.data

/-- `strings.Contains`. -/
def strContain (s pat : String) : Bool := charsContain s.data pat.data

/-- Approximate `fmt` `%v` rendering of a scalar, used only inside warning
messages (no claim inspects message text). -/
def scalarShow : Value → String
  | .vstr s => s
  | .vnum n => toString n
  | .vbool b => toString b
  | .vnull => "<nil>"
  | .varr _ => "<slice>"
  | .vmap _ => "<map>"

/-- `Unstructured.GetName`: `metadata.name` when it is a string, else `""`. -/
def getNameU (o : Obj) : String :=
  match mapGet o "metadata" with
  | some (.vmap md) =>
      match mapGet md "name" with
      | some (.vstr s) => s
      | _ => ""
  | _ => ""

/-- `Unstructured.GetKind`: top-level `kind` when it is a string, else `""`. -/
def getKindU (o : Obj) : String :=
  match mapGet o "kind" with
  | some (.vstr s) => s
  | _ => ""

/-- The clusterIP reset of `sanitizeService`. -/
def svcClusterIPStep (identifier : String) (spec : Obj) : Obj × List Warning :=
  match mapGet spec "clusterIP" with
  | some (.vstr clusterIP) =>
      if clusterIP ≠ "" ∧ clusterIP ≠ "None" then
        (mapSet spec "clusterIP" (.vstr ""),
         [⟨identifier,
           "reset clusterIP (was " ++ clusterIP ++ ") to let the cluster assign a new one"⟩])
      else (spec, [])
  | _ => (spec, [])

/-- The clusterIPs reset of `sanitizeService` (headless `["None"]` is kept;
no warnings are emitted). -/
def svcClusterIPsStep (spec : Obj) : Obj :=
  match mapGet spec "clusterIPs" with
  | some (.varr clusterIPs) =>
      if clusterIPs.length > 0 then
        match clusterIPs with
        | [.vstr ip] =>
            if ip = "None" then spec else mapSet spec "clusterIPs" (.varr [])
        | _ => mapSet spec "clusterIPs" (.varr [])
      else spec
  | _ => spec

/-- The per-port nodePort removal loop of `sanitizeService`. -/
def svcPortsClean (identifier : String) : List Value → List Value × List Warning
  | [] => ([], [])
  | p :: rest =>
      let pr := svcPortsClean identifier rest
      match p with
      | .vmap port =>
          match mapGet port "nodePort" with
          | some np =>
              (Value.vmap (mapDel port "nodePort") :: pr.1,
               ⟨identifier,
                "removed nodePort " ++ scalarShow np ++
                  " to let the cluster assign a new one"⟩ :: pr.2)
          | none => (p :: pr.1, pr.2)
      | _ => (p :: pr.1, pr.2)

/-- The ports rewrite of `sanitizeService`. -/
def svcPortsStep (identifier : String) (spec : Obj) : Obj × List Warning :=
  match mapGet spec "ports" with
  | some (.varr ports) =>
      let pr := svcPortsClean identifier ports
      (mapSet spec "ports" (.varr pr.1), pr.2)
  | _ => (spec, [])

/-- The loadBalancerIP warning of `sanitizeService` (no mutation). -/
def svcLBWarnStep (identifier : String) (spec : Obj) : List Warning :=
  match mapGet spec "loadBalancerIP" with
  | some (.vstr lbIP) =>
      if lbIP ≠ "" then
        [⟨identifier,
          "loadBalancerIP is set to " ++ lbIP ++
            " -- this may conflict in the target cluster"⟩]
      else []
  | _ => []

/-- The ExternalName warning of `sanitizeService` (no mutation). -/
def svcTypeWarnStep (identifier : String) (spec : Obj) : List Warning :=
  match mapGet spec "type" with
  | some (.vstr svcType) =>
      if svcType = "ExternalName" then
        [⟨identifier,
          "ExternalName service -- verify the external name is valid in the target"⟩]
      else []
  | _ => []

/-- Kind-specific sanitizer for `Service` (pkg/sanitizer/service.go):
resets `clusterIP`/`clusterIPs`, strips `nodePort`s and
`healthCheckNodePort`, and warns on `loadBalancerIP` and `ExternalName`. -/
def sanitizeService (o : Obj) : Obj × List Warning :=
  let identifier := "Service/" ++ getNameU o
  match mapGet o "spec" with
  | some (.vmap spec0) =>
      let s1 := svcClusterIPStep identifier spec0
      let spec2 := svcClusterIPsStep s1.1
      let s3 := svcPortsStep identifier spec2
      let w4 := svcLBWarnStep identifier s3.1
      let w5 := svcTypeWarnStep identifier s3.1
      let spec4 := mapDel s3.1 "healthCheckNodePort"
      (mapSet o "spec" (.vmap spec4), s1.2 ++ s3.2 ++ w4 ++ w5)
  | _ => (o, [])

/-- The volume scan of `sanitizeSATokenVolumes`: returns the kept volumes,
the removed volume names, and one warning per removal. -/
def podVolumesClean (identifier : String) :
    List Value → List Value × List String × List Warning
  | [] => ([], [], [])
  | v :: rest =>
      let vr := podVolumesClean identifier rest
      match v with
      | .vmap vol =>
          let name :=
            match mapGet vol "name" with
            | some (.vstr s) => s
            | _ => ""
          if strStartWith name "kube-api-access-" then
            (vr.1, name :: vr.2.1,
             ⟨identifier, "removed auto-injected volume " ++ name⟩ :: vr.2.2)
          else (v :: vr.1, vr.2.1, vr.2.2)
      | _ => (v :: vr.1, vr.2.1, vr.2.2)

/-- The volumeMounts filter of `sanitizeSATokenVolumes`: drop mounts whose
`name` is in the removed set; non-mapping entries are kept. -/
def podCleanMounts (removed : List String) (mounts : List Value) : List Value :=
  mounts.filter (fun m =>
    match m with
    | .vmap mount =>
        let mountName :=
          match mapGet mount "name" with
          | some (.vstr s) => s
          | _ => ""
        ¬ mountName ∈ removed
    | _ => true)

/-- One container-list pass of `sanitizeSATokenVolumes`: rewrite
`volumeMounts` of every mapping entry of `spec[fieldName]`. -/
def podCleanContainersField (removed : List String) (spec : Obj)
    (fieldName : String) : Obj :=
  match mapGet spec fieldName with
  | some (.varr containers) =>
      mapSet spec fieldName (.varr (containers.map (fun c =>
        match c with
        | .vmap container =>
            match mapGet container "volumeMounts" with
            | some (.varr mounts) =>
                .vmap (mapSet container "volumeMounts"
                  (.varr (podCleanMounts removed mounts)))
            | _ => c
        | _ => c)))
  | _ => spec

/-- `sanitizeSATokenVolumes` (pkg/sanitizer/pod.go): remove auto-injected
`kube-api-access-*` projected volumes and their volumeMounts. -/
def sanitizeSATokenVolumes (spec : Obj) (identifier : String) :
    Obj × List Warning :=
  match mapGet spec "volumes" with
  | some (.varr volumes) =>
      let vr := podVolumesClean identifier volumes
      if vr.2.1.isEmpty then (spec, vr.2.2)
      else
        let spec1 := mapSet spec "volumes" (.varr vr.1)
        (["containers", "initContainers"].foldl
          (podCleanContainersField vr.2.1) spec1, vr.2.2)
  | _ => (spec, [])

/-- The nodeName removal of `sanitizePod`. -/
def podNodeNameStep (identifier : String) (spec : Obj) : Obj × List Warning :=
  match mapGet spec "nodeName" with
  | some (.vstr nodeName) =>
      if nodeName ≠ "" then
        (mapDel spec "nodeName",
         [⟨identifier,
           "removed nodeName " ++ nodeName ++
             " to allow scheduler to place the pod"⟩])
      else (spec, [])
  | _ => (spec, [])

/-- Kind-specific sanitizer for `Pod` (pkg/sanitizer/pod.go). -/
def sanitizePod (o : Obj) : Obj × List Warning :=
  let identifier := "Pod/" ++ getNameU o
  match mapGet o "spec" with
  | some (.vmap spec0) =>
      let s1 := podNodeNameStep identifier spec0
      let s2 := sanitizeSATokenVolumes s1.1 identifier
      (mapSet o "spec" (.vmap s2.1), s1.2 ++ s2.2)
  | _ => (o, [])

/-- First binding of `k` in a string map. -/
def lookupStr (m : List (String × String)) (k : String) : Option String :=
  match m with
  | [] => none
  | (k', v) :: rest => if k' = k then some v else lookupStr rest k

/-- Delete every binding of `k` in a string map. -/
def delStr (m : List (String × String)) (k : String) : List (String × String) :=
  match m with
  | [] => []
  | (k', v) :: rest => if k' = k then delStr rest k else (k', v) :: delStr rest k

/-- The string-map check of `NestedStringMap`: succeeds only when every
value is a string. -/
def allStrings : Obj → Option (List (String × String))
  | [] => some []
  | (k, .vstr v) :: rest => (allStrings rest).map (fun r => (k, v) :: r)
  | _ => none

/-- `Unstructured.GetAnnotations`: `metadata.annotations` as a string map,
or nothing when absent, non-mapping, or holding a non-string value. -/
def getAnnotationsU (o : Obj) : Option (List (String × String)) :=
  match mapGet o "metadata" with
  | some (.vmap md) =>
      match mapGet md "annotations" with
      | some (.vmap anns) => allStrings anns
      | _ => none
  | _ => none

/-- `Unstructured.SetAnnotations`: an empty map removes
`metadata.annotations`, otherwise the nested setter writes the string map
(creating `metadata` when absent, no-op when `metadata` is not a mapping). -/
def setAnnotationsU (o : Obj) (anns : List (String × String)) : Obj :=
  if anns.isEmpty then
    match mapGet o "metadata" with
    | some (.vmap md) => mapSet o "metadata" (.vmap (mapDel md "annotations"))
    | _ => o
  else
    match mapGet o "metadata" with
    | some (.vmap md) =>
        mapSet o "metadata"
          (.vmap (mapSet md "annotations"
            (.vmap (anns.map (fun p => (p.1, Value.vstr p.2))))))
    | some _ => o
    | none =>
        mapSet o "metadata"
          (.vmap [("annotations", .vmap (anns.map (fun p => (p.1, Value.vstr p.2))))])

/-- The PV binding annotations removed by `sanitizePVC`. -/
def pvAnnotations : List String :=
  ["pv.kubernetes.io/bind-completed", "pv.kubernetes.io/bound-by-controller",
   "volume.beta.kubernetes.io/storage-provisioner",
   "volume.kubernetes.io/storage-provisioner",
   "volume.kubernetes.io/selected-node"]

/-- The volumeName removal of `sanitizePVC`. -/
def pvcVolumeNameStep (identifier : String) (spec : Obj) : Obj × List Warning :=
  match mapGet spec "volumeName" with
  | some (.vstr volumeName) =>
      if volumeName ≠ "" then
        (mapDel spec "volumeName",
         [⟨identifier,
           "removed volumeName " ++ volumeName ++
             " (PV binding) to allow dynamic provisioning"⟩])
      else (spec, [])
  | _ => (spec, [])

/-- The PV-binding annotation removal of `sanitizePVC`, via the
`GetAnnotations`/`SetAnnotations` accessors. -/
def pvcAnnotationsStep (identifier : String) (o : Obj) : Obj × List Warning :=
  match getAnnotationsU o with
  | some annotations =>
      let changed := pvAnnotations.any (fun a => (lookupStr annotations a).isSome)
      let annotations1 := pvAnnotations.foldl delStr annotations
      if changed then
        (setAnnotationsU o annotations1,
         [⟨identifier, "removed PV binding annotations"⟩])
      else (o, [])
  | none => (o, [])

/-- Kind-specific sanitizer for `PersistentVolumeClaim` (the PVC file of
pkg/sanitizer): drops `spec.volumeName` and the PV binding annotations.
Returns early (no annotation pass) when `spec` is not a mapping. -/
def sanitizePVC (o : Obj) : Obj × List Warning :=
  let identifier := "PersistentVolumeClaim/" ++ getNameU o
  match mapGet o "spec" with
  | some (.vmap spec0) =>
      let s1 := pvcVolumeNameStep identifier spec0
      let o1 := mapSet o "spec" (.vmap s1.1)
      let s2 := pvcAnnotationsStep identifier o1
      (s2.1, s1.2 ++ s2.2)
  | _ => (o, [])

/-- The secret-reference filter loops of `sanitizeServiceAccount`: drop
mapping entries whose `name` contains `needle`, warning per removal. -/
def saFilterList (identifier needle msg : String) :
    List Value → List Value × List Warning
  | [] => ([], [])
  | sv :: rest =>
      let sr := saFilterList identifier needle msg rest
      match sv with
      | .vmap secret =>
          let name :=
            match mapGet secret "name" with
            | some (.vstr s) => s
            | _ => ""
          if strContain name needle then
            (sr.1, ⟨identifier, msg ++ name⟩ :: sr.2)
          else (sv :: sr.1, sr.2)
      | _ => (sv :: sr.1, sr.2)

/-- The auto-generated token secret removal of `sanitizeServiceAccount`
(guarded by a non-empty `secrets` sequence). -/
def saSecretsStep (identifier : String) (o : Obj) : Obj × List Warning :=
  match mapGet o "secrets" with
  | some (.varr secrets) =>
      if secrets.length > 0 then
        let fr := saFilterList identifier "-token-"
          "removed auto-generated token secret reference " secrets
        if fr.1.isEmpty then (mapDel o "secrets", fr.2)
        else (mapSet o "secrets" (.varr fr.1), fr.2)
      else (o, [])
  | _ => (o, [])

/-- The auto-generated imagePullSecret removal of `sanitizeServiceAccount`
(no emptiness guard: an empty `imagePullSecrets` sequence is deleted). -/
def saImagePullStep (identifier : String) (o : Obj) : Obj × List Warning :=
  match mapGet o "imagePullSecrets" with
  | some (.varr ips) =>
      let fr := saFilterList identifier "-dockercfg-"
        "removed auto-generated imagePullSecret reference " ips
      if fr.1.isEmpty then (mapDel o "imagePullSecrets", fr.2)
      else (mapSet o "imagePullSecrets" (.varr fr.1), fr.2)
  | _ => (o, [])

/-- Kind-specific sanitizer for `ServiceAccount` (the ServiceAccount file of
pkg/sanitizer): drops auto-generated token secret references and
auto-generated imagePullSecrets, removing either list when it empties. -/
def sanitizeServiceAccount (o : Obj) : Obj × List Warning :=
  let identifier := "ServiceAccount/" ++ getNameU o
  let s1 := saSecretsStep identifier o
  let s2 := saImagePullStep identifier s1.1
  (s2.1, s1.2 ++ s2.2)

/-- Kind-specific sanitizer for `Ingress` (the Ingress file of
pkg/sanitizer): warnings only, no mutation; when `spec.rules` is not a
sequence the function returns early and the TLS section is not scanned. -/
def sanitizeIngress (o : Obj) : Obj × List Warning :=
  let identifier := "Ingress/" ++ getNameU o
  match mapGet o "spec" with
  | some (.vmap spec) =>
      match mapGet spec "rules" with
      | some (.varr rules) =>
          let w1 := rules.foldl (fun acc r =>
            match r with
            | .vmap rule =>
                match mapGet rule "host" with
                | some (.vstr host) =>
                    if host ≠ "" then
                      acc ++ [⟨identifier,
                        "ingress rule has hardcoded host " ++ host ++
                          " -- this may conflict if the same hostname is already used in the target"⟩]
                    else acc
                | _ => acc
            | _ => acc) ([] : List Warning)
          let w2 :=
            match mapGet spec "tls" with
            | some (.varr tls) => tls.foldl (fun acc tl =>
                match tl with
                | .vmap tlsEntry =>
                    match mapGet tlsEntry "hosts" with
                    | some (.varr hosts) => hosts.foldl (fun a h =>
                        match h with
                        | .vstr host =>
                            a ++ [⟨identifier,
                              "TLS entry references host " ++ host ++
                                " -- verify the TLS secret and DNS are valid in the target"⟩]
                        | _ => a) acc
                    | _ => acc
                | _ => acc) ([] : List Warning)
            | _ => []
          (o, w1 ++ w2)
      | _ => (o, [])
  | _ => (o, [])

/-- The process-wide sanitizer registry (pkg/sanitizer/registry.go together
with the five `init` registrations of the sanitizer package). -/
def Registry (kind : String) : Option (Obj → Obj × List Warning) :=
  if kind = "Service" then some sanitizeService
  else if kind = "Pod" then some sanitizePod
  else if kind = "PersistentVolumeClaim" then some sanitizePVC
  else if kind = "ServiceAccount" then some sanitizeServiceAccount
  else if kind = "Ingress" then some sanitizeIngress
  else none

/-- `sanitizer.Run`: the universal sanitizer (which returns no warnings)
followed by the registered kind-specific sanitizer, if any. -/
def Run (o : Obj) (targetNamespace targetName : String) : Obj × List Warning :=
  let o1 := SanitizeCommon o targetNamespace targetName
  match Registry (getKindU o1) with
  | some s => s o1
  | none => (o1, [])

/-! ### Idempotence of the Service sanitizer (tree part) -/

/-- `spec.clusterIP` no longer triggers the clusterIP reset. -/
def ClusterIPClean (spec : Obj) : Prop :=
  ∀ s, mapGet spec "clusterIP" = some (.vstr s) → s = "" ∨ s = "None"

/-- `spec.clusterIPs` no longer triggers the clusterIPs reset. -/
def ClusterIPsClean (spec : Obj) : Prop :=
  ∀ xs, mapGet spec "clusterIPs" = some (.varr xs) → xs = [] ∨ xs = [.vstr "None"]

/-- No port mapping in `spec.ports` still carries a `nodePort`. -/
def PortsClean (spec : Obj) : Prop :=
  ∀ xs, mapGet spec "ports" = some (.varr xs) →
    ∀ port, Value.vmap port ∈ xs → mapGet port "nodePort" = none

theorem svcClusterIPStep_get_other (id : String) (spec : Obj) {k : String}
    (h : k ≠ "clusterIP") :
    mapGet (svcClusterIPStep id spec).1 k = mapGet spec k := by
  unfold svcClusterIPStep
  split
  · split
    · exact mapGet_mapSet_other _ _ h
    · rfl
  · rfl

theorem svcClusterIPStep_clean (id : String) (spec : Obj) :
    ClusterIPClean (svcClusterIPStep id spec).1 := by
  intro s hs
  unfold svcClusterIPStep at hs
  split at hs
  · rename_i ip hip
    split at hs
    · rw [mapGet_mapSet_self] at hs
      cases hs
      exact Or.inl rfl
    · rename_i hcond
      rw [hip] at hs
      cases hs
      rcases not_and_or.mp hcond with h | h
      · exact Or.inl (not_not.mp h)
      · exact Or.inr (not_not.mp h)
  · rename_i hother
    exact absurd rfl (by rw [hs] at hother; exact hother s)

theorem svcClusterIPStep_noop (id : String) (spec : Obj)
    (h : ClusterIPClean spec) : (svcClusterIPStep id spec).1 = spec := by
  unfold svcClusterIPStep
  split
  · rename_i ip hip
    split
    · rename_i hcond
      rcases h ip hip with h1 | h1
      · exact absurd h1 hcond.1
      · exact absurd h1 hcond.2
    · rfl
  · rfl

theorem svcClusterIPsStep_get_other (spec : Obj) {k : String}
    (h : k ≠ "clusterIPs") :
    mapGet (svcClusterIPsStep spec) k = mapGet spec k := by
  unfold svcClusterIPsStep
  split
  · split
    · split
      · split
        · rfl
        · exact mapGet_mapSet_other _ _ h
      · exact mapGet_mapSet_other _ _ h
    · rfl
  · rfl

theorem svcClusterIPsStep_clean (spec : Obj) :
    ClusterIPsClean (svcClusterIPsStep spec) := by
  intro xs hxs
  unfold svcClusterIPsStep at hxs
  split at hxs
  · rename_i ys hys
    split at hxs
    · split at hxs
      · rename_i ip
        split at hxs
        · rename_i hip
          rw [hys] at hxs
          cases hxs
          exact Or.inr (by rw [hip])
        · rw [mapGet_mapSet_self] at hxs
          cases hxs
          exact Or.inl rfl
      · rw [mapGet_mapSet_self] at hxs
        cases hxs
        exact Or.inl rfl
    · rename_i hlen
      rw [hys] at hxs
      cases hxs
      exact Or.inl (List.eq_nil_of_length_eq_zero (by omega))
  · rename_i hother
    exact absurd rfl (by rw [hxs] at hother; exact hother xs)

theorem svcClusterIPsStep_noop (spec : Obj)
    (h : ClusterIPsClean spec) : svcClusterIPsStep spec = spec := by
  unfold svcClusterIPsStep
  split
  · rename_i ys hys
    rcases h ys hys with h1 | h1 <;> subst h1 <;> simp
  · rfl

theorem svcPortsClean_clean (id : String) (ports : List Value) :
    ∀ port, Value.vmap port ∈ (svcPortsClean id ports).1 →
      mapGet port "nodePort" = none := by
  induction ports with
  | nil => intro port h; simp [svcPortsClean] at h
  | cons p rest ih =>
      intro port h
      unfold svcPortsClean at h
      dsimp only at h
      split at h
      · rename_i port' 
        split at h
        · rcases List.mem_cons.mp h with h1 | h1
          · cases h1
            exact mapGet_mapDel_self _ _
          · exact ih port h1
        · rename_i hnp
          rcases List.mem_cons.mp h with h1 | h1
          · cases h1
            exact hnp
          · exact ih port h1
      · rename_i hnm
        rcases List.mem_cons.mp h with h1 | h1
        · exact absurd h1.symm (hnm port)
        · exact ih port h1

theorem svcPortsClean_noop (id : String) (ports : List Value)
    (h : ∀ port, Value.vmap port ∈ ports → mapGet port "nodePort" = none) :
    (svcPortsClean id ports).1 = ports := by
  induction ports with
  | nil => rfl
  | cons p rest ih =>
      have hrest := ih (fun port hp => h port (List.mem_cons_of_mem _ hp))
      unfold svcPortsClean
      dsimp only
      split
      · rename_i port'
        split
        · rename_i np hnp
          rw [h port' (List.mem_cons_self _ _)] at hnp
          cases hnp
        · simpa using hrest
      · simpa using hrest

theorem svcPortsStep_get_other (id : String) (spec : Obj) {k : String}
    (h : k ≠ "ports") :
    mapGet (svcPortsStep id spec).1 k = mapGet spec k := by
  unfold svcPortsStep
  split
  · exact mapGet_mapSet_other _ _ h
  · rfl

theorem svcPortsStep_clean (id : String) (spec : Obj) :
    PortsClean (svcPortsStep id spec).1 := by
  intro xs hxs port hport
  unfold svcPortsStep at hxs
  split at hxs
  · rename_i ys hys
    rw [mapGet_mapSet_self] at hxs
    cases hxs
    exact svcPortsClean_clean id ys port hport
  · rename_i hother
    exact absurd rfl (by rw [hxs] at hother; exact hother xs)

theorem svcPortsStep_noop (id : String) (spec : Obj)
    (h : PortsClean spec) : (svcPortsStep id spec).1 = spec := by
  unfold svcPortsStep
  split
  · rename_i ys hys
    dsimp only
    rw [svcPortsClean_noop id ys (h ys hys)]
    exact mapSet_get_self hys
  · rfl

/-- The tree part of `sanitizeService` changes only the `spec` entry. -/
theorem sanitizeService_fst_get_other (x : Obj) {k : String} (h : k ≠ "spec") :
    mapGet (sanitizeService x).1 k = mapGet x k := by
  unfold sanitizeService
  split
  · exact mapGet_mapSet_other _ _ h
  · rfl

theorem sanitizeService_fst_of_not_map (x : Obj)
    (h : ∀ spec0, mapGet x "spec" ≠ some (.vmap spec0)) :
    (sanitizeService x).1 = x := by
  unfold sanitizeService
  split
  · rename_i spec0 hs
    exact absurd hs (h spec0)
  · rfl

/-- Applying the Service sanitizer twice yields the tree of a single
application. -/
theorem sanitizeService_fst_idem (x : Obj) :
    (sanitizeService (sanitizeService x).1).1 = (sanitizeService x).1 := by
  by_cases hex : ∃ spec0, mapGet x "spec" = some (.vmap spec0)
  · obtain ⟨spec0, hs⟩ := hex
    have hres : (sanitizeService x).1 =
        mapSet x "spec" (.vmap (mapDel
          (svcPortsStep ("Service/" ++ getNameU x)
            (svcClusterIPsStep
              (svcClusterIPStep ("Service/" ++ getNameU x) spec0).1)).1
          "healthCheckNodePort")) := by
      unfold sanitizeService
      rw [hs]
    set idX := "Service/" ++ getNameU x with hidX
    set spec4 := mapDel
        (svcPortsStep idX (svcClusterIPsStep (svcClusterIPStep idX spec0).1)).1
        "healthCheckNodePort" with hspec4
    have hget4 : mapGet (sanitizeService x).1 "spec" = some (.vmap spec4) := by
      rw [hres, mapGet_mapSet_self]
    have hcip : ClusterIPClean spec4 := by
      intro s hs4
      apply svcClusterIPStep_clean idX spec0
      rw [← hs4, hspec4]
      rw [mapGet_mapDel_other _ (by decide),
          svcPortsStep_get_other _ _ (by decide),
          svcClusterIPsStep_get_other _ (by decide)]
    have hcips : ClusterIPsClean spec4 := by
      intro xs hxs
      apply svcClusterIPsStep_clean (svcClusterIPStep idX spec0).1
      rw [← hxs, hspec4]
      rw [mapGet_mapDel_other _ (by decide),
          svcPortsStep_get_other _ _ (by decide)]
    have hports : PortsClean spec4 := by
      intro xs hxs port hport
      refine svcPortsStep_clean idX
          (svcClusterIPsStep (svcClusterIPStep idX spec0).1) xs ?_ port hport
      rw [← hxs, hspec4]
      rw [mapGet_mapDel_other _ (by decide)]
    have hhealth : mapGet spec4 "healthCheckNodePort" = none := by
      rw [hspec4, mapGet_mapDel_self]
    have key : ∀ y : Obj, mapGet y "spec" = some (.vmap spec4) →
        (sanitizeService y).1 = y := by
      intro y hy
      unfold sanitizeService
      rw [hy]
      dsimp only
      rw [svcClusterIPStep_noop _ _ hcip, svcClusterIPsStep_noop _ hcips,
          svcPortsStep_noop _ _ hports, mapDel_get_none hhealth]
      exact mapSet_get_self hy
    exact key _ hget4
  · push_neg at hex
    have hres := sanitizeService_fst_of_not_map x hex
    rw [hres]
    exact hres

/-! ### Idempotence of the Pod sanitizer (tree part) -/

/-- A volume entry that the Pod sanitizer removes: a mapping whose `name`
has the `kube-api-access-` auto-injection marker. -/
def podVolRemovable (v : Value) : Bool :=
  match v with
  | .vmap vol =>
      strStartWith
        (match mapGet vol "name" with
         | some (.vstr s) => s
         | _ => "") "kube-api-access-"
  | _ => false

/-- `spec.nodeName` no longer triggers the nodeName removal. -/
def NodeNameClean (spec : Obj) : Prop :=
  ∀ s, mapGet spec "nodeName" = some (.vstr s) → s = ""

/-- No volume entry of `spec.volumes` is removable. -/
def VolumesClean (spec : Obj) : Prop :=
  ∀ xs, mapGet spec "volumes" = some (.varr xs) →
    ∀ v ∈ xs, podVolRemovable v = false

theorem podNodeNameStep_get_other (id : String) (spec : Obj) {k : String}
    (h : k ≠ "nodeName") :
    mapGet (podNodeNameStep id spec).1 k = mapGet spec k := by
  unfold podNodeNameStep
  split
  · split
    · exact mapGet_mapDel_other _ h
    · rfl
  · rfl

theorem podNodeNameStep_clean (id : String) (spec : Obj) :
    NodeNameClean (podNodeNameStep id spec).1 := by
  intro s hs
  unfold podNodeNameStep at hs
  split at hs
  · rename_i nodeName hnn
    split at hs
    · rw [mapGet_mapDel_self] at hs
      cases hs
    · rename_i hcond
      rw [hnn] at hs
      cases hs
      exact not_not.mp hcond
  · rename_i hother
    exact absurd rfl (by rw [hs] at hother; exact hother s)

theorem podNodeNameStep_noop (id : String) (spec : Obj)
    (h : NodeNameClean spec) : (podNodeNameStep id spec).1 = spec := by
  unfold podNodeNameStep
  split
  · rename_i nodeName hnn
    split
    · rename_i hcond
      exact absurd (h nodeName hnn) hcond
    · rfl
  · rfl

theorem podVolumesClean_kept (id : String) (vols : List Value) :
    ∀ v ∈ (podVolumesClean id vols).1, podVolRemovable v = false := by
  induction vols with
  | nil => intro v h; simp [podVolumesClean] at h
  | cons p rest ih =>
      intro v h
      unfold podVolumesClean at h
      dsimp only at h
      split at h
      · rename_i vol
        split at h
        · exact ih v h
        · rename_i hpre
          rcases List.mem_cons.mp h with h1 | h1
          · subst h1
            simpa [podVolRemovable] using hpre
          · exact ih v h1
      · rename_i hnm
        rcases List.mem_cons.mp h with h1 | h1
        · subst h1
          cases v with
          | vmap vol => exact absurd rfl (hnm vol)
          | vstr a => rfl
          | vnum a => rfl
          | vbool a => rfl
          | vnull => rfl
          | varr a => rfl
        · exact ih v h1

theorem podVolumesClean_of_clean (id : String) (vols : List Value)
    (h : ∀ v ∈ vols, podVolRemovable v = false) :
    (podVolumesClean id vols).1 = vols ∧ (podVolumesClean id vols).2.1 = [] := by
  induction vols with
  | nil => exact ⟨rfl, rfl⟩
  | cons p rest ih =>
      have hrest := ih (fun v hv => h v (List.mem_cons_of_mem _ hv))
      have hp := h p (List.mem_cons_self _ _)
      unfold podVolumesClean
      dsimp only
      split
      · rename_i vol
        split
        · rename_i hpre
          rw [podVolRemovable] at hp
          exact absurd hp (by simp [hpre])
        · exact ⟨by rw [hrest.1], hrest.2⟩
      · exact ⟨by rw [hrest.1], hrest.2⟩

theorem podVolumesClean_clean_of_removed_nil (id : String) (vols : List Value)
    (h : (podVolumesClean id vols).2.1 = []) :
    ∀ v ∈ vols, podVolRemovable v = false := by
  induction vols with
  | nil => intro v hv; simp at hv
  | cons p rest ih =>
      unfold podVolumesClean at h
      dsimp only at h
      intro v hv
      split at h
      · rename_i vol
        split at h
        · cases h
        · rename_i hpre
          rcases List.mem_cons.mp hv with h1 | h1
          · subst h1
            simpa [podVolRemovable] using hpre
          · exact ih h v h1
      · rename_i hnm
        rcases List.mem_cons.mp hv with h1 | h1
        · subst h1
          cases v with
          | vmap vol => exact absurd rfl (hnm vol)
          | vstr a => rfl
          | vnum a => rfl
          | vbool a => rfl
          | vnull => rfl
          | varr a => rfl
        · exact ih h v h1

theorem podCleanContainersField_get_other (rem : List String) (spec : Obj)
    (f : String) {k : String} (h : k ≠ f) :
    mapGet (podCleanContainersField rem spec f) k = mapGet spec k := by
  unfold podCleanContainersField
  split
  · exact mapGet_mapSet_other _ _ h
  · rfl

theorem sanitizeSATokenVolumes_noop (spec : Obj) (id : String)
    (h : VolumesClean spec) : (sanitizeSATokenVolumes spec id).1 = spec := by
  unfold sanitizeSATokenVolumes
  split
  · rename_i xs hxs
    have hc := podVolumesClean_of_clean id xs (h xs hxs)
    simp [hc.2]
  · rfl

theorem sanitizeSATokenVolumes_clean (spec : Obj) (id : String) :
    VolumesClean (sanitizeSATokenVolumes spec id).1 := by
  intro ys hys
  unfold sanitizeSATokenVolumes at hys
  split at hys
  · rename_i xs hxs
    by_cases he : (podVolumesClean id xs).2.1.isEmpty
    · rw [if_pos he] at hys
      dsimp only at hys
      rw [hxs] at hys
      cases hys
      exact podVolumesClean_clean_of_removed_nil id ys
        (List.isEmpty_iff.mp he)
    · rw [if_neg he] at hys
      dsimp only at hys
      rw [show ["containers", "initContainers"].foldl
            (podCleanContainersField (podVolumesClean id xs).2.1)
            (mapSet spec "volumes" (.varr (podVolumesClean id xs).1)) =
          podCleanContainersField (podVolumesClean id xs).2.1
            (podCleanContainersField (podVolumesClean id xs).2.1
              (mapSet spec "volumes" (.varr (podVolumesClean id xs).1))
              "containers") "initContainers" from rfl,
          podCleanContainersField_get_other _ _ _ (by decide),
          podCleanContainersField_get_other _ _ _ (by decide),
          mapGet_mapSet_self] at hys
      cases hys
      exact podVolumesClean_kept id xs
  · rename_i hother
    exact absurd rfl (by rw [hys] at hother; exact hother ys)

theorem sanitizeSATokenVolumes_get_other (spec : Obj) (id : String)
    {k : String} (h1 : k ≠ "volumes") (h2 : k ≠ "containers")
    (h3 : k ≠ "initContainers") :
    mapGet (sanitizeSATokenVolumes spec id).1 k = mapGet spec k := by
  unfold sanitizeSATokenVolumes
  split
  · rename_i xs hxs
    by_cases he : (podVolumesClean id xs).2.1.isEmpty
    · rw [if_pos he]
    · rw [if_neg he]
      dsimp only
      rw [show ["containers", "initContainers"].foldl
            (podCleanContainersField (podVolumesClean id xs).2.1)
            (mapSet spec "volumes" (.varr (podVolumesClean id xs).1)) =
          podCleanContainersField (podVolumesClean id xs).2.1
            (podCleanContainersField (podVolumesClean id xs).2.1
              (mapSet spec "volumes" (.varr (podVolumesClean id xs).1))
              "containers") "initContainers" from rfl,
          podCleanContainersField_get_other _ _ _ h3,
          podCleanContainersField_get_other _ _ _ h2,
          mapGet_mapSet_other _ _ h1]
  · rfl

/-- The tree part of `sanitizePod` changes only the `spec` entry. -/
theorem sanitizePod_fst_get_other (x : Obj) {k : String} (h : k ≠ "spec") :
    mapGet (sanitizePod x).1 k = mapGet x k := by
  unfold sanitizePod
  split
  · exact mapGet_mapSet_other _ _ h
  · rfl

theorem sanitizePod_fst_of_not_map (x : Obj)
    (h : ∀ spec0, mapGet x "spec" ≠ some (.vmap spec0)) :
    (sanitizePod x).1 = x := by
  unfold sanitizePod
  split
  · rename_i spec0 hs
    exact absurd hs (h spec0)
  · rfl

/-- Applying the Pod sanitizer twice yields the tree of a single
application. -/
theorem sanitizePod_fst_idem (x : Obj) :
    (sanitizePod (sanitizePod x).1).1 = (sanitizePod x).1 := by
  by_cases hex : ∃ spec0, mapGet x "spec" = some (.vmap spec0)
  · obtain ⟨spec0, hs⟩ := hex
    have hres : (sanitizePod x).1 =
        mapSet x "spec" (.vmap (sanitizeSATokenVolumes
          (podNodeNameStep ("Pod/" ++ getNameU x) spec0).1
          ("Pod/" ++ getNameU x)).1) := by
      unfold sanitizePod
      rw [hs]
    set idX := "Pod/" ++ getNameU x with hidX
    set spec2 := (sanitizeSATokenVolumes (podNodeNameStep idX spec0).1 idX).1
      with hspec2
    have hget2 : mapGet (sanitizePod x).1 "spec" = some (.vmap spec2) := by
      rw [hres, mapGet_mapSet_self]
    have hnn : NodeNameClean spec2 := by
      intro s hs2
      apply podNodeNameStep_clean idX spec0
      rw [← hs2, hspec2,
          sanitizeSATokenVolumes_get_other _ _ (by decide) (by decide) (by decide)]
    have hvc : VolumesClean spec2 := by
      rw [hspec2]
      exact sanitizeSATokenVolumes_clean _ _
    have key : ∀ y : Obj, mapGet y "spec" = some (.vmap spec2) →
        (sanitizePod y).1 = y := by
      intro y hy
      unfold sanitizePod
      rw [hy]
      dsimp only
      rw [podNodeNameStep_noop _ _ hnn, sanitizeSATokenVolumes_noop _ _ hvc]
      exact mapSet_get_self hy
    exact key _ hget2
  · push_neg at hex
    have hres := sanitizePod_fst_of_not_map x hex
    rw [hres]
    exact hres

/-! ### Idempotence of the ServiceAccount sanitizer (tree part) -/

/-- A secret-reference entry removed by the ServiceAccount sanitizer: a
mapping whose `name` contains `needle`. -/
def saRemovable (needle : String) (v : Value) : Bool :=
  match v with
  | .vmap secret =>
      strContain
        (match mapGet secret "name" with
         | some (.vstr s) => s
         | _ => "") needle
  | _ => false

/-- No entry of `secrets` is removable (an empty list is guarded). -/
def SecretsClean (o : Obj) : Prop :=
  ∀ xs, mapGet o "secrets" = some (.varr xs) →
    ∀ v ∈ xs, saRemovable "-token-" v = false

/-- `imagePullSecrets`, when a sequence, is non-empty with no removable
entry. -/
def IpsClean (o : Obj) : Prop :=
  ∀ xs, mapGet o "imagePullSecrets" = some (.varr xs) →
    xs ≠ [] ∧ ∀ v ∈ xs, saRemovable "-dockercfg-" v = false

theorem saFilterList_kept (id needle msg : String) (l : List Value) :
    ∀ v ∈ (saFilterList id needle msg l).1, saRemovable needle v = false := by
  induction l with
  | nil => intro v h; simp [saFilterList] at h
  | cons p rest ih =>
      intro v h
      unfold saFilterList at h
      dsimp only at h
      split at h
      · rename_i secret
        split at h
        · exact ih v h
        · rename_i hcon
          rcases List.mem_cons.mp h with h1 | h1
          · subst h1
            simpa [saRemovable] using hcon
          · exact ih v h1
      · rename_i hnm
        rcases List.mem_cons.mp h with h1 | h1
        · subst h1
          cases v with
          | vmap secret => exact absurd rfl (hnm secret)
          | vstr a => rfl
          | vnum a => rfl
          | vbool a => rfl
          | vnull => rfl
          | varr a => rfl
        · exact ih v h1

theorem saFilterList_of_clean (id needle msg : String) (l : List Value)
    (h : ∀ v ∈ l, saRemovable needle v = false) :
    (saFilterList id needle msg l).1 = l := by
  induction l with
  | nil => rfl
  | cons p rest ih =>
      have hrest := ih (fun v hv => h v (List.mem_cons_of_mem _ hv))
      have hp := h p (List.mem_cons_self _ _)
      unfold saFilterList
      dsimp only
      split
      · rename_i secret
        split
        · rename_i hcon
          rw [saRemovable] at hp
          exact absurd hp (by simp [hcon])
        · rw [hrest]
      · rw [hrest]

theorem saSecretsStep_get_other (id : String) (o : Obj) {k : String}
    (h : k ≠ "secrets") :
    mapGet (saSecretsStep id o).1 k = mapGet o k := by
  unfold saSecretsStep
  split
  · split
    · dsimp only
      split
      · exact mapGet_mapDel_other _ h
      · exact mapGet_mapSet_other _ _ h
    · rfl
  · rfl

theorem saImagePullStep_get_other (id : String) (o : Obj) {k : String}
    (h : k ≠ "imagePullSecrets") :
    mapGet (saImagePullStep id o).1 k = mapGet o k := by
  unfold saImagePullStep
  split
  · dsimp only
    split
    · exact mapGet_mapDel_other _ h
    · exact mapGet_mapSet_other _ _ h
  · rfl

theorem saSecretsStep_clean (id : String) (o : Obj) :
    SecretsClean (saSecretsStep id o).1 := by
  intro ys hys
  unfold saSecretsStep at hys
  split at hys
  · rename_i xs hxs
    split at hys
    · dsimp only at hys
      split at hys
      · rw [mapGet_mapDel_self] at hys
        cases hys
      · rw [mapGet_mapSet_self] at hys
        cases hys
        exact saFilterList_kept _ _ _ xs
    · rw [hxs] at hys
      rename_i hlen
      cases hys
      intro v hv
      exact absurd (List.length_pos_of_mem hv) (by omega)
  · rename_i hother
    exact absurd rfl (by rw [hys] at hother; exact hother ys)

theorem saSecretsStep_noop (id : String) (o : Obj)
    (h : SecretsClean o) : (saSecretsStep id o).1 = o := by
  unfold saSecretsStep
  split
  · rename_i xs hxs
    split
    · rename_i hlen
      dsimp only
      rw [saFilterList_of_clean _ _ _ xs (h xs hxs)]
      rw [if_neg (by simpa [List.isEmpty_iff] using List.length_pos.mp hlen)]
      exact mapSet_get_self hxs
    · rfl
  · rfl

theorem saImagePullStep_clean (id : String) (o : Obj) :
    IpsClean (saImagePullStep id o).1 := by
  intro ys hys
  unfold saImagePullStep at hys
  split at hys
  · rename_i xs hxs
    dsimp only at hys
    split at hys
    · rw [mapGet_mapDel_self] at hys
      cases hys
    · rename_i hne
      rw [mapGet_mapSet_self] at hys
      cases hys
      refine ⟨?_, saFilterList_kept _ _ _ xs⟩
      intro hnil
      exact hne (by simp [hnil])
  · rename_i hother
    exact absurd rfl (by rw [hys] at hother; exact hother ys)

theorem saImagePullStep_noop (id : String) (o : Obj)
    (h : IpsClean o) : (saImagePullStep id o).1 = o := by
  unfold saImagePullStep
  split
  · rename_i xs hxs
    obtain ⟨hne, hcl⟩ := h xs hxs
    dsimp only
    rw [saFilterList_of_clean _ _ _ xs hcl]
    rw [if_neg (by simpa [List.isEmpty_iff] using hne)]
    exact mapSet_get_self hxs
  · rfl

/-- The tree part of `sanitizeServiceAccount` changes only the `secrets`
and `imagePullSecrets` entries. -/
theorem sanitizeServiceAccount_fst_get_other (x : Obj) {k : String}
    (h1 : k ≠ "secrets") (h2 : k ≠ "imagePullSecrets") :
    mapGet (sanitizeServiceAccount x).1 k = mapGet x k := by
  unfold sanitizeServiceAccount
  dsimp only
  rw [saImagePullStep_get_other _ _ h2, saSecretsStep_get_other _ _ h1]

/-- Applying the ServiceAccount sanitizer twice yields the tree of a single
application. -/
theorem sanitizeServiceAccount_fst_idem (x : Obj) :
    (sanitizeServiceAccount (sanitizeServiceAccount x).1).1 =
      (sanitizeServiceAccount x).1 := by
  have hdef : (sanitizeServiceAccount x).1 =
      (saImagePullStep ("ServiceAccount/" ++ getNameU x)
        (saSecretsStep ("ServiceAccount/" ++ getNameU x) x).1).1 := rfl
  have hsec : SecretsClean (sanitizeServiceAccount x).1 := by
    intro xs hxs
    rw [hdef, saImagePullStep_get_other _ _ (by decide)] at hxs
    exact saSecretsStep_clean _ _ xs hxs
  have hips : IpsClean (sanitizeServiceAccount x).1 := by
    rw [hdef]
    exact saImagePullStep_clean _ _
  have hdef2 : (sanitizeServiceAccount (sanitizeServiceAccount x).1).1 =
      (saImagePullStep ("ServiceAccount/" ++ getNameU (sanitizeServiceAccount x).1)
        (saSecretsStep ("ServiceAccount/" ++ getNameU (sanitizeServiceAccount x).1)
          (sanitizeServiceAccount x).1).1).1 := rfl
  rw [hdef2, saSecretsStep_noop _ _ hsec, saImagePullStep_noop _ _ hips]

/-! ### Idempotence of the PersistentVolumeClaim sanitizer (tree part) -/

/-- `spec.volumeName` no longer triggers the volumeName removal. -/
def VolumeNameClean (spec : Obj) : Prop :=
  ∀ s, mapGet spec "volumeName" = some (.vstr s) → s = ""

/-- The readable annotations carry none of the PV binding keys. -/
def AnnsPVCClean (o : Obj) : Prop :=
  ∀ l, getAnnotationsU o = some l → ∀ a ∈ pvAnnotations, lookupStr l a = none

theorem pvcVolumeNameStep_get_other (id : String) (spec : Obj) {k : String}
    (h : k ≠ "volumeName") :
    mapGet (pvcVolumeNameStep id spec).1 k = mapGet spec k := by
  unfold pvcVolumeNameStep
  split
  · split
    · exact mapGet_mapDel_other _ h
    · rfl
  · rfl

theorem pvcVolumeNameStep_clean (id : String) (spec : Obj) :
    VolumeNameClean (pvcVolumeNameStep id spec).1 := by
  intro s hs
  unfold pvcVolumeNameStep at hs
  split at hs
  · rename_i volumeName hvn
    split at hs
    · rw [mapGet_mapDel_self] at hs
      cases hs
    · rename_i hcond
      rw [hvn] at hs
      cases hs
      exact not_not.mp hcond
  · rename_i hother
    exact absurd rfl (by rw [hs] at hother; exact hother s)

theorem pvcVolumeNameStep_noop (id : String) (spec : Obj)
    (h : VolumeNameClean spec) : (pvcVolumeNameStep id spec).1 = spec := by
  unfold pvcVolumeNameStep
  split
  · rename_i volumeName hvn
    split
    · rename_i hcond
      exact absurd (h volumeName hvn) hcond
    · rfl
  · rfl

theorem lookupStr_delStr_self (m : List (String × String)) (k : String) :
    lookupStr (delStr m k) k = none := by
  induction m with
  | nil => rfl
  | cons p rest ih =>
      obtain ⟨k₀, v₀⟩ := p
      by_cases h : k₀ = k <;> simp [delStr, lookupStr, h, ih]

theorem lookupStr_delStr_other {k' k : String} (m : List (String × String))
    (h : k' ≠ k) : lookupStr (delStr m k) k' = lookupStr m k' := by
  induction m with
  | nil => rfl
  | cons p rest ih =>
      obtain ⟨k₀, v₀⟩ := p
      by_cases h₀ : k₀ = k
      · subst h₀
        simp [delStr, lookupStr, Ne.symm h, ih]
      · by_cases h₁ : k₀ = k' <;> simp [delStr, lookupStr, h₀, h₁, h, ih]

theorem foldl_delStr_lookup (fs : List String) (m : List (String × String))
    (k : String) :
    lookupStr (fs.foldl delStr m) k = if k ∈ fs then none else lookupStr m k := by
  induction fs generalizing m with
  | nil => simp
  | cons f rest ih =>
      by_cases hk : k = f
      · subst hk
        simp [List.foldl, ih, lookupStr_delStr_self]
      · simp [List.foldl, ih, hk, lookupStr_delStr_other m hk]

theorem mapGet_map_vstr (l : List (String × String)) (k : String) :
    mapGet (l.map (fun p => (p.1, Value.vstr p.2))) k =
      (lookupStr l k).map Value.vstr := by
  induction l with
  | nil => rfl
  | cons p rest ih =>
      obtain ⟨k₀, v₀⟩ := p
      by_cases h : k₀ = k <;> simp [mapGet, lookupStr, h, ih]

theorem allStrings_of_map (l : List (String × String)) :
    allStrings (l.map (fun p => (p.1, Value.vstr p.2))) = some l := by
  induction l with
  | nil => rfl
  | cons p rest ih =>
      obtain ⟨k₀, v₀⟩ := p
      simp [allStrings, ih]

theorem setAnnotationsU_get_other (o : Obj) (anns : List (String × String))
    {k : String} (h : k ≠ "metadata") :
    mapGet (setAnnotationsU o anns) k = mapGet o k := by
  unfold setAnnotationsU
  split
  · split
    · exact mapGet_mapSet_other _ _ h
    · rfl
  · split
    · exact mapGet_mapSet_other _ _ h
    · rfl
    · exact mapGet_mapSet_other _ _ h

theorem getAnnotationsU_setAnnotationsU_nil (o : Obj) :
    getAnnotationsU (setAnnotationsU o []) = none := by
  unfold setAnnotationsU
  split
  · split
    · rename_i md hmd
      unfold getAnnotationsU
      rw [mapGet_mapSet_self]
      dsimp only
      rw [mapGet_mapDel_self]
    · rename_i hother
      unfold getAnnotationsU
      cases hmd : mapGet o "metadata" with
      | none => rfl
      | some v =>
          cases v with
          | vmap md => exact absurd hmd (hother md)
          | vstr a => rfl
          | vnum a => rfl
          | vbool a => rfl
          | vnull => rfl
          | varr a => rfl
  · rename_i hfalse
    exact absurd rfl hfalse

theorem getAnnotationsU_setAnnotationsU_cons (o : Obj)
    (anns : List (String × String)) (hne : anns ≠ [])
    {md : Obj} (hmd : mapGet o "metadata" = some (.vmap md)) :
    getAnnotationsU (setAnnotationsU o anns) = some anns := by
  unfold setAnnotationsU
  rw [if_neg (by simpa [List.isEmpty_iff] using hne)]
  rw [hmd]
  unfold getAnnotationsU
  rw [mapGet_mapSet_self]
  dsimp only
  rw [mapGet_mapSet_self]
  exact allStrings_of_map anns

/-- `getAnnotationsU` succeeds only when `metadata` is a mapping. -/
theorem getAnnotationsU_meta {o : Obj} {l : List (String × String)}
    (h : getAnnotationsU o = some l) :
    ∃ md, mapGet o "metadata" = some (.vmap md) := by
  unfold getAnnotationsU at h
  split at h
  · rename_i md hmd
    exact ⟨md, hmd⟩
  · cases h

theorem pvcAnnotationsStep_get_other (id : String) (o : Obj) {k : String}
    (h : k ≠ "metadata") :
    mapGet (pvcAnnotationsStep id o).1 k = mapGet o k := by
  unfold pvcAnnotationsStep
  split
  · dsimp only
    split
    · exact setAnnotationsU_get_other _ _ h
    · rfl
  · rfl

theorem pvcAnnotationsStep_clean (id : String) (o : Obj) :
    AnnsPVCClean (pvcAnnotationsStep id o).1 := by
  intro l hl a ha
  unfold pvcAnnotationsStep at hl
  split at hl
  · rename_i anns hanns
    dsimp only at hl
    split at hl
    · rcases hannil : pvAnnotations.foldl delStr anns with _ | ⟨p, rest⟩
      · rw [hannil, getAnnotationsU_setAnnotationsU_nil] at hl
        cases hl
      · obtain ⟨md, hmd⟩ := getAnnotationsU_meta hanns
        rw [getAnnotationsU_setAnnotationsU_cons o _ (by simp [hannil]) hmd] at hl
        cases hl
        rw [foldl_delStr_lookup]
        simp [ha]
    · rename_i hch
      rw [hanns] at hl
      cases hl
      rcases hx : lookupStr l a with _ | v
      · rfl
      · exact absurd (List.any_eq_true.mpr ⟨a, ha, by rw [hx]; rfl⟩) hch
  · rename_i hnone
    rw [hnone] at hl
    cases hl

theorem pvcAnnotationsStep_noop (id : String) (o : Obj)
    (h : AnnsPVCClean o) : (pvcAnnotationsStep id o).1 = o := by
  unfold pvcAnnotationsStep
  split
  · rename_i anns hanns
    dsimp only
    have hfalse : (pvAnnotations.any fun a => (lookupStr anns a).isSome) = false := by
      rw [List.any_eq_false]
      intro a ha
      simp [h anns hanns a ha]
    rw [hfalse]
    simp
  · rfl

/-- The tree part of `sanitizePVC` changes only `spec` and `metadata`. -/
theorem sanitizePVC_fst_get_other (x : Obj) {k : String}
    (h1 : k ≠ "spec") (h2 : k ≠ "metadata") :
    mapGet (sanitizePVC x).1 k = mapGet x k := by
  unfold sanitizePVC
  split
  · dsimp only
    rw [pvcAnnotationsStep_get_other _ _ h2, mapGet_mapSet_other _ _ h1]
  · rfl

theorem sanitizePVC_fst_of_not_map (x : Obj)
    (h : ∀ spec0, mapGet x "spec" ≠ some (.vmap spec0)) :
    (sanitizePVC x).1 = x := by
  unfold sanitizePVC
  split
  · rename_i spec0 hs
    exact absurd hs (h spec0)
  · rfl

/-- Applying the PersistentVolumeClaim sanitizer twice yields the tree of a
single application. -/
theorem sanitizePVC_fst_idem (x : Obj) :
    (sanitizePVC (sanitizePVC x).1).1 = (sanitizePVC x).1 := by
  by_cases hex : ∃ spec0, mapGet x "spec" = some (.vmap spec0)
  · obtain ⟨spec0, hs⟩ := hex
    have hres : (sanitizePVC x).1 =
        (pvcAnnotationsStep ("PersistentVolumeClaim/" ++ getNameU x)
          (mapSet x "spec"
            (.vmap (pvcVolumeNameStep ("PersistentVolumeClaim/" ++ getNameU x)
              spec0).1))).1 := by
      unfold sanitizePVC
      rw [hs]
    have hspec : mapGet (sanitizePVC x).1 "spec" =
        some (.vmap (pvcVolumeNameStep ("PersistentVolumeClaim/" ++ getNameU x)
          spec0).1) := by
      rw [hres, pvcAnnotationsStep_get_other _ _ (by decide), mapGet_mapSet_self]
    have hvnc : VolumeNameClean
        (pvcVolumeNameStep ("PersistentVolumeClaim/" ++ getNameU x) spec0).1 :=
      pvcVolumeNameStep_clean _ _
    have hann : AnnsPVCClean (sanitizePVC x).1 := by
      rw [hres]
      exact pvcAnnotationsStep_clean _ _
    have key : ∀ y : Obj, mapGet y "spec" =
        some (.vmap (pvcVolumeNameStep ("PersistentVolumeClaim/" ++ getNameU x)
          spec0).1) → AnnsPVCClean y → (sanitizePVC y).1 = y := by
      intro y hy hanny
      unfold sanitizePVC
      rw [hy]
      dsimp only
      rw [pvcVolumeNameStep_noop _ _ hvnc, mapSet_get_self hy,
          pvcAnnotationsStep_noop _ _ hanny]
    exact key _ hspec hann
  · push_neg at hex
    have hres := sanitizePVC_fst_of_not_map x hex
    rw [hres]
    exact hres

/-! ### The universal sanitizer is the identity on its own outputs -/

theorem foldl_mapDel_noop (fs : List String) (md : Obj)
    (h : ∀ f ∈ fs, mapGet md f = none) : fs.foldl mapDel md = md := by
  induction fs with
  | nil => rfl
  | cons f rest ih =>
      rw [List.foldl_cons, mapDel_get_none (h f (List.mem_cons_self _ _))]
      exact ih (fun g hg => h g (List.mem_cons_of_mem _ hg))

theorem allStrings_eq {m : Obj} {l : List (String × String)}
    (h : allStrings m = some l) : m = l.map (fun p => (p.1, Value.vstr p.2)) := by
  induction m generalizing l with
  | nil => cases h; rfl
  | cons p rest ih =>
      obtain ⟨k₀, v₀⟩ := p
      cases v₀ with
      | vstr sv =>
          unfold allStrings at h
          cases hrest : allStrings rest with
          | none => rw [hrest] at h; cases h
          | some lr =>
              rw [hrest] at h
              cases h
              simp [ih hrest]
      | vnum a => cases h
      | vbool a => cases h
      | vnull => cases h
      | varr a => cases h
      | vmap a => cases h

theorem strip_key_ne {k : String}
    (hk : k = "ownerReferences" ∨ k ∈ stripMetadataFields) :
    k ≠ "annotations" ∧ k ≠ "namespace" ∧ k ≠ "name" := by
  rcases hk with rfl | hmem
  · exact ⟨by decide, by decide, by decide⟩
  · simp [stripMetadataFields] at hmem
    rcases hmem with rfl | rfl | rfl | rfl | rfl | rfl <;>
      exact ⟨by decide, by decide, by decide⟩

/-- The `annotations` entry of a metadata map is in post-sanitization shape:
absent, not a mapping, or a non-empty mapping without the last-applied
annotation. -/
def AnnOK : Option Value → Prop
  | some (.vmap anns) => mapGet anns lastAppliedAnnotation = none ∧ anns ≠ []
  | _ => True

/-- An object on which `SanitizeCommon` (with target namespace `t` and
target name `n`) acts as the identity: either `metadata` is not a mapping,
or every universal-sanitizer rewrite has already happened. -/
def CC (t n : String) (x : Obj) : Prop :=
  ∀ md, mapGet x "metadata" = some (.vmap md) →
    (∀ k, (k = "ownerReferences" ∨ k ∈ stripMetadataFields) → mapGet md k = none) ∧
    AnnOK (mapGet md "annotations") ∧
    mapGet x "status" = none ∧
    (if t = "" then mapGet md "namespace" = none
     else mapGet md "namespace" = some (.vstr t)) ∧
    (n ≠ "" → mapGet md "name" = some (.vstr n))

theorem SanitizeCommon_of_not_map (o : Obj) (t n : String)
    (h : ∀ md, mapGet o "metadata" ≠ some (.vmap md)) :
    SanitizeCommon o t n = o := by
  unfold SanitizeCommon
  split
  · rename_i md hmd
    exact absurd hmd (h md)
  · rfl

/-- `SanitizeCommon` is the identity on objects satisfying `CC`. -/
theorem common_fix_of_CC {t n : String} {x : Obj} (h : CC t n x) :
    SanitizeCommon x t n = x := by
  by_cases hex : ∃ md, mapGet x "metadata" = some (.vmap md)
  · obtain ⟨md, hmd⟩ := hex
    obtain ⟨hstrip, hann, hstatus, hns, hname⟩ := h md hmd
    have h1 : stripCommonMeta md = md := by
      unfold stripCommonMeta
      rw [foldl_mapDel_noop _ _ (fun f hf => hstrip f (Or.inr hf)),
          mapDel_get_none (hstrip _ (Or.inl rfl))]
    have h2 : stripLastApplied md = md := by
      unfold stripLastApplied
      split
      · rename_i anns hanns
        rw [hanns] at hann
        obtain ⟨hla, hne⟩ := hann
        rw [mapDel_get_none hla]
        rw [if_neg (by simpa [List.isEmpty_iff] using hne)]
        exact mapSet_get_self hanns
      · rfl
    rw [SanitizeCommon_of_map x md t n hmd]
    dsimp only
    rw [h1, h2, mapSet_get_self hmd, mapDel_get_none hstatus]
    by_cases ht : t = ""
    · rw [if_pos ht] at hns
      rw [if_pos ht, mapDel_get_none hns, mapSet_get_self hmd]
      by_cases hn : n = ""
      · rw [if_pos hn]
      · rw [if_neg hn, mapSet_get_self (hname hn), mapSet_get_self hmd]
    · rw [if_neg ht] at hns
      rw [if_neg ht, mapSet_get_self hns, mapSet_get_self hmd]
      by_cases hn : n = ""
      · rw [if_pos hn]
      · rw [if_neg hn, mapSet_get_self (hname hn), mapSet_get_self hmd]
  · push_neg at hex
    rw [SanitizeCommon_of_not_map x t n hex]

theorem AnnOK_stripLastApplied (m : Obj) :
    AnnOK (mapGet (stripLastApplied m) "annotations") := by
  unfold stripLastApplied
  split
  · rename_i anns hanns
    by_cases he : (mapDel anns lastAppliedAnnotation).isEmpty
    · rw [if_pos he, mapGet_mapDel_self]
      trivial
    · rw [if_neg he, mapGet_mapSet_self]
      exact ⟨mapGet_mapDel_self _ _, by simpa [List.isEmpty_iff] using he⟩
  · rename_i hother
    cases hv : mapGet m "annotations" with
    | none => trivial
    | some v =>
        cases v with
        | vmap anns => exact absurd hv (hother anns)
        | vstr a => trivial
        | vnum a => trivial
        | vbool a => trivial
        | vnull => trivial
        | varr a => trivial

/-- The output of `SanitizeCommon` satisfies `CC`. -/
theorem CC_common (o : Obj) (t n : String) : CC t n (SanitizeCommon o t n) := by
  by_cases hex : ∃ md, mapGet o "metadata" = some (.vmap md)
  · obtain ⟨md, hmd⟩ := hex
    intro md' hmd'
    rw [SanitizeCommon_of_map o md t n hmd] at hmd' ⊢
    dsimp only at hmd' ⊢
    set md3 := stripLastApplied (stripCommonMeta md) with hmd3
    set mdNs := (if t = "" then mapDel md3 "namespace"
                 else mapSet md3 "namespace" (.vstr t)) with hmdNs
    have hNsOther : ∀ k, k ≠ "namespace" → mapGet mdNs k = mapGet md3 k := by
      intro k hk
      rw [hmdNs]
      by_cases ht : t = "" <;>
        simp [ht, mapGet_mapDel_other _ hk, mapGet_mapSet_other _ _ hk]
    have hmdeq : md' = (if n = "" then mdNs else mapSet mdNs "name" (.vstr n)) := by
      by_cases hn : n = ""
      · rw [if_pos hn] at hmd' ⊢
        rw [mapGet_mapSet_self] at hmd'
        exact (Option.some.inj hmd' |> fun h => (Value.vmap.inj h).symm)
      · rw [if_neg hn] at hmd' ⊢
        rw [mapGet_mapSet_self] at hmd'
        exact (Option.some.inj hmd' |> fun h => (Value.vmap.inj h).symm)
    have hOther : ∀ k, k ≠ "namespace" → k ≠ "name" →
        mapGet md' k = mapGet md3 k := by
      intro k hk hkn
      rw [hmdeq]
      by_cases hn : n = "" <;>
        simp [hn, mapGet_mapSet_other _ _ hkn, hNsOther k hk]
    refine ⟨?_, ?_, ?_, ?_, ?_⟩
    · intro k hk
      obtain ⟨hka, hkns, hknm⟩ := strip_key_ne hk
      rw [hOther k hkns hknm, hmd3, stripLastApplied_get_other _ hka,
          stripCommonMeta_get]
      simp [hk]
    · rw [hOther "annotations" (by decide) (by decide), hmd3]
      exact AnnOK_stripLastApplied _
    · by_cases hn : n = "" <;>
        simp [hn, mapGet_mapSet_other _ _
          (by decide : ("status" : String) ≠ "metadata"), mapGet_mapDel_self]
    · have h1 : mapGet md' "namespace" = mapGet mdNs "namespace" := by
        rw [hmdeq]
        by_cases hn : n = "" <;>
          simp [hn, mapGet_mapSet_other _ _
            (by decide : ("namespace" : String) ≠ "name")]
      by_cases ht : t = ""
      · rw [if_pos ht, h1, hmdNs, if_pos ht, mapGet_mapDel_self]
      · rw [if_neg ht, h1, hmdNs, if_neg ht, mapGet_mapSet_self]
    · intro hn
      rw [hmdeq, if_neg hn, mapGet_mapSet_self]
  · push_neg at hex
    rw [SanitizeCommon_of_not_map o t n hex]
    intro md hmd
    exact absurd hmd (hex md)

/-! ### The kind sanitizers preserve the sanitized-common shape -/

theorem CC_of_agree {t n : String} {x y : Obj}
    (hmd : mapGet y "metadata" = mapGet x "metadata")
    (hst : mapGet y "status" = mapGet x "status")
    (h : CC t n x) : CC t n y := by
  intro md h'
  rw [hmd] at h'
  obtain ⟨h1, h2, h3, h4, h5⟩ := h md h'
  rw [hst]
  exact ⟨h1, h2, h3, h4, h5⟩

theorem sanitizeIngress_fst (o : Obj) : (sanitizeIngress o).1 = o := by
  unfold sanitizeIngress
  split
  · split <;> rfl
  · rfl

theorem CC_sanitizeService {t n : String} {x : Obj} (h : CC t n x) :
    CC t n (sanitizeService x).1 :=
  CC_of_agree (sanitizeService_fst_get_other x (by decide))
    (sanitizeService_fst_get_other x (by decide)) h

theorem CC_sanitizePod {t n : String} {x : Obj} (h : CC t n x) :
    CC t n (sanitizePod x).1 :=
  CC_of_agree (sanitizePod_fst_get_other x (by decide))
    (sanitizePod_fst_get_other x (by decide)) h

theorem CC_sanitizeServiceAccount {t n : String} {x : Obj} (h : CC t n x) :
    CC t n (sanitizeServiceAccount x).1 :=
  CC_of_agree (sanitizeServiceAccount_fst_get_other x (by decide) (by decide))
    (sanitizeServiceAccount_fst_get_other x (by decide) (by decide)) h

theorem CC_sanitizeIngress {t n : String} {x : Obj} (h : CC t n x) :
    CC t n (sanitizeIngress x).1 := by
  rw [sanitizeIngress_fst]
  exact h

theorem getAnnotationsU_elim {o : Obj} {anns : List (String × String)}
    (h : getAnnotationsU o = some anns) :
    ∃ md annsV, mapGet o "metadata" = some (.vmap md) ∧
      mapGet md "annotations" = some (.vmap annsV) ∧
      allStrings annsV = some anns := by
  unfold getAnnotationsU at h
  split at h
  · rename_i md hmd
    split at h
    · rename_i annsV hannsV
      exact ⟨md, annsV, hmd, hannsV, h⟩
    · cases h
  · cases h

theorem CC_setAnnotationsU_of_map {t n : String} {o : Obj} {md : Obj}
    (anns1 : List (String × String))
    (hmd : mapGet o "metadata" = some (.vmap md))
    (hla : lookupStr anns1 lastAppliedAnnotation = none)
    (h : CC t n o) : CC t n (setAnnotationsU o anns1) := by
  obtain ⟨h1, h2, h3, h4, h5⟩ := h md hmd
  have hmain : ∀ mdNew : Obj,
      (∀ k, k ≠ "annotations" → mapGet mdNew k = mapGet md k) →
      AnnOK (mapGet mdNew "annotations") →
      CC t n (mapSet o "metadata" (.vmap mdNew)) := by
    intro mdNew hother hann md' hmd'
    rw [mapGet_mapSet_self] at hmd'
    cases hmd'
    refine ⟨?_, hann, ?_, ?_, ?_⟩
    · intro k hk
      obtain ⟨hka, _, _⟩ := strip_key_ne hk
      rw [hother k hka]
      exact h1 k hk
    · rw [mapGet_mapSet_other _ _ (by decide : ("status" : String) ≠ "metadata")]
      exact h3
    · by_cases ht : t = "" <;>
        simp only [ht, ite_true, ite_false] at h4 ⊢ <;>
        rw [hother "namespace" (by decide)] <;> exact h4
    · intro hn
      rw [hother "name" (by decide)]
      exact h5 hn
  unfold setAnnotationsU
  by_cases he : anns1.isEmpty
  · rw [if_pos he, hmd]
    refine hmain (mapDel md "annotations") ?_ ?_
    · intro k hk
      exact mapGet_mapDel_other _ hk
    · rw [mapGet_mapDel_self]
      trivial
  · rw [if_neg he, hmd]
    refine hmain _ ?_ ?_
    · intro k hk
      exact mapGet_mapSet_other _ _ hk
    · rw [mapGet_mapSet_self]
      refine ⟨?_, ?_⟩
      · rw [mapGet_map_vstr, hla]
        rfl
      · simp only [List.isEmpty_iff] at he
        simpa using he
  
theorem CC_pvcAnnotationsStep {t n : String} (id : String) {o : Obj}
    (h : CC t n o) : CC t n (pvcAnnotationsStep id o).1 := by
  unfold pvcAnnotationsStep
  split
  · rename_i anns hanns
    dsimp only
    split
    · obtain ⟨md, annsV, hmd, hannsV, hall⟩ := getAnnotationsU_elim hanns
      have hannOK := (h md hmd).2.1
      rw [hannsV] at hannOK
      have hlaV : mapGet annsV lastAppliedAnnotation = none := hannOK.1
      have heq := allStrings_eq hall
      have hlaAnns : lookupStr anns lastAppliedAnnotation = none := by
        rw [heq, mapGet_map_vstr] at hlaV
        cases hx : lookupStr anns lastAppliedAnnotation with
        | none => rfl
        | some v => rw [hx] at hlaV; cases hlaV
      have hla1 : lookupStr (pvAnnotations.foldl delStr anns)
          lastAppliedAnnotation = none := by
        rw [foldl_delStr_lookup]
        split
        · rfl
        · exact hlaAnns
      exact CC_setAnnotationsU_of_map _ hmd hla1 h
    · exact h
  · exact h

theorem CC_sanitizePVC {t n : String} {x : Obj} (h : CC t n x) :
    CC t n (sanitizePVC x).1 := by
  unfold sanitizePVC
  split
  · rename_i spec0 hs
    dsimp only
    refine CC_pvcAnnotationsStep _ ?_
    refine CC_of_agree ?_ ?_ h <;>
      exact mapGet_mapSet_other _ _ (by decide)
  · exact h

/-! ### Idempotence of `sanitizer.Run` (claim C3) -/

theorem Run_fst_eq (o : Obj) (t n : String) :
    (Run o t n).1 =
      match Registry (getKindU (SanitizeCommon o t n)) with
      | some f => (f (SanitizeCommon o t n)).1
      | none => SanitizeCommon o t n := by
  unfold Run
  dsimp only
  split <;> rfl

theorem setAnnotationsU_meta_vmap {o : Obj} {md : Obj}
    (anns : List (String × String))
    (hmd : mapGet o "metadata" = some (.vmap md)) :
    ∃ md', mapGet (setAnnotationsU o anns) "metadata" = some (.vmap md') := by
  unfold setAnnotationsU
  split
  · rw [hmd]
    exact ⟨_, mapGet_mapSet_self _ _ _⟩
  · rw [hmd]
    exact ⟨_, mapGet_mapSet_self _ _ _⟩

theorem pvcAnnotationsStep_meta_vmap (id : String) {o : Obj} {md : Obj}
    (hmd : mapGet o "metadata" = some (.vmap md)) :
    ∃ md', mapGet (pvcAnnotationsStep id o).1 "metadata" = some (.vmap md') := by
  unfold pvcAnnotationsStep
  split
  · dsimp only
    split
    · exact setAnnotationsU_meta_vmap _ hmd
    · exact ⟨md, hmd⟩
  · exact ⟨md, hmd⟩

theorem sanitizePVC_meta_vmap {x : Obj} {md : Obj}
    (hmd : mapGet x "metadata" = some (.vmap md)) :
    ∃ md', mapGet (sanitizePVC x).1 "metadata" = some (.vmap md') := by
  unfold sanitizePVC
  split
  · dsimp only
    refine @pvcAnnotationsStep_meta_vmap _ _ md ?_
    rw [mapGet_mapSet_other _ _ (by decide)]
    exact hmd
  · exact ⟨md, hmd⟩

theorem Registry_props {k : String} {f : Obj → Obj × List Warning}
    (h : Registry k = some f) :
    (∀ x, (f (f x).1).1 = (f x).1) ∧
    (∀ x, getKindU (f x).1 = getKindU x) ∧
    (∀ t n x, CC t n x → CC t n (f x).1) ∧
    (∀ x md, mapGet x "metadata" = some (.vmap md) →
      ∃ md', mapGet (f x).1 "metadata" = some (.vmap md')) := by
  unfold Registry at h
  split_ifs at h
  · cases h
    exact ⟨sanitizeService_fst_idem,
      fun x => by unfold getKindU; rw [sanitizeService_fst_get_other x (by decide)],
      fun t n x hx => CC_sanitizeService hx,
      fun x md hmd => ⟨md, by rw [sanitizeService_fst_get_other x (by decide)]; exact hmd⟩⟩
  · cases h
    exact ⟨sanitizePod_fst_idem,
      fun x => by unfold getKindU; rw [sanitizePod_fst_get_other x (by decide)],
      fun t n x hx => CC_sanitizePod hx,
      fun x md hmd => ⟨md, by rw [sanitizePod_fst_get_other x (by decide)]; exact hmd⟩⟩
  · cases h
    exact ⟨sanitizePVC_fst_idem,
      fun x => by
        unfold getKindU
        rw [sanitizePVC_fst_get_other x (by decide) (by decide)],
      fun t n x hx => CC_sanitizePVC hx,
      fun x md hmd => sanitizePVC_meta_vmap hmd⟩
  · cases h
    exact ⟨sanitizeServiceAccount_fst_idem,
      fun x => by
        unfold getKindU
        rw [sanitizeServiceAccount_fst_get_other x (by decide) (by decide)],
      fun t n x hx => CC_sanitizeServiceAccount hx,
      fun x md hmd => ⟨md, by
        rw [sanitizeServiceAccount_fst_get_other x (by decide) (by decide)]
        exact hmd⟩⟩
  · cases h
    exact ⟨fun x => by rw [sanitizeIngress_fst, sanitizeIngress_fst],
      fun x => by rw [sanitizeIngress_fst],
      fun t n x hx => CC_sanitizeIngress hx,
      fun x md hmd => ⟨md, by rw [sanitizeIngress_fst]; exact hmd⟩⟩

/-- C3: sanitization is idempotent on the object tree: for every object `o`,
target namespace `T` and target name `N`, a second `sanitizer.Run` with the
same `T` and `N` leaves the object produced by the first `Run` unchanged,
with every registered kind-specific sanitizer taken into account. -/
theorem claim_C3_run_idempotent (o : Obj) (t n : String) :
    (Run (Run o t n).1 t n).1 = (Run o t n).1 := by
  have hfe := Run_fst_eq o t n
  cases hreg : Registry (getKindU (SanitizeCommon o t n)) with
  | none =>
      rw [hreg] at hfe
      rw [Run_fst_eq (Run o t n).1 t n, hfe]
      rw [common_fix_of_CC (CC_common o t n)]
      rw [hreg]
  | some f =>
      rw [hreg] at hfe
      obtain ⟨hidem, hkind, hcc, _⟩ := Registry_props hreg
      have hccb : CC t n (f (SanitizeCommon o t n)).1 :=
        hcc t n _ (CC_common o t n)
      rw [Run_fst_eq (Run o t n).1 t n, hfe]
      rw [common_fix_of_CC hccb, hkind, hreg]
      exact hidem _

/-! ### Reference extractor (pkg/discovery/references.go; the conflict
package carries behaviorally identical private copies of these functions,
so the single embedding below serves both). -/

/-- Ordered, deduplicating name accumulation (`seen` map + `names` slice). -/
def addName (acc : List String) (name : String) : List String :=
  if name ∈ acc then acc else acc ++ [name]

def getPodSpecFromTemplateMap (spec : Obj) : Option Obj :=
  match mapGet spec "template" with
  | some (.vmap template) =>
      match mapGet template "spec" with
      | some (.vmap podSpec) => some podSpec
      | _ => none
  | _ => none

def getPodSpecFromTemplate (objMap : Obj) : Option Obj :=
  match mapGet objMap "spec" with
  | some (.vmap spec) => getPodSpecFromTemplateMap spec
  | _ => none

/-- `extractPodSpec`: navigate to the pod spec of workload kinds. -/
def extractPodSpec (o : Obj) : Option Obj :=
  match getKindU o with
  | "Pod" =>
      match mapGet o "spec" with
      | some (.vmap spec) => some spec
      | _ => none
  | "Deployment" | "StatefulSet" | "DaemonSet" | "ReplicaSet" =>
      getPodSpecFromTemplate o
  | "Job" => getPodSpecFromTemplate o
  | "CronJob" =>
      match mapGet o "spec" with
      | some (.vmap spec) =>
          match mapGet spec "jobTemplate" with
          | some (.vmap jobTemplate) => getPodSpecFromTemplateMap jobTemplate
          | _ => none
      | _ => none
  | _ => none

/-- `extractFromProjected`: names under `projected.sources[*].<sourceKey>`. -/
def extractFromProjected (vol : Obj) (sourceKey nameKey : String)
    (names : List String) : List String :=
  match mapGet vol "projected" with
  | some (.vmap projected) =>
      match mapGet projected "sources" with
      | some (.varr sources) =>
          sources.foldl (fun acc sv =>
            match sv with
            | .vmap src =>
                match mapGet src sourceKey with
                | some (.vmap ref) =>
                    match mapGet ref nameKey with
                    | some (.vstr name) => addName acc name
                    | _ => acc
                | _ => acc
            | _ => acc) names
      | _ => names
  | _ => names

/-- `extractFromContainerEnv`: names from `envFrom` and `env[].valueFrom`
of containers and initContainers. -/
def extractFromContainerEnv (podSpec : Obj)
    (envFromRefKey envFromNameKey envVarRefKey envVarNameKey : String)
    (names : List String) : List String :=
  ["containers", "initContainers"].foldl (fun acc field =>
    match mapGet podSpec field with
    | some (.varr containers) =>
        containers.foldl (fun acc2 c =>
          match c with
          | .vmap container =>
              let acc3 :=
                match mapGet container "envFrom" with
                | some (.varr envFrom) =>
                    envFrom.foldl (fun a ef =>
                      match ef with
                      | .vmap entry =>
                          match mapGet entry envFromRefKey with
                          | some (.vmap ref) =>
                              match mapGet ref envFromNameKey with
                              | some (.vstr name) => addName a name
                              | _ => a
                          | _ => a
                      | _ => a) acc2
                | _ => acc2
              match mapGet container "env" with
              | some (.varr envVars) =>
                  envVars.foldl (fun a ev =>
                    match ev with
                    | .vmap envVar =>
                        match mapGet envVar "valueFrom" with
                        | some (.vmap vf) =>
                            match mapGet vf envVarRefKey with
                            | some (.vmap ref) =>
                                match mapGet ref envVarNameKey with
                                | some (.vstr name) => addName a name
                                | _ => a
                            | _ => a
                        | _ => a
                    | _ => a) acc3
              | _ => acc3
          | _ => acc2) acc
    | _ => acc) names

/-- `extractConfigMapNames` (= the conflict package's `extractConfigMapRefs`). -/
def extractConfigMapNames (podSpec : Obj) : List String :=
  let names :=
    match mapGet podSpec "volumes" with
    | some (.varr volumes) =>
        volumes.foldl (fun acc v =>
          match v with
          | .vmap vol =>
              let acc1 :=
                match mapGet vol "configMap" with
                | some (.vmap cm) =>
                    match mapGet cm "name" with
                    | some (.vstr name) => addName acc name
                    | _ => acc
                | _ => acc
              extractFromProjected vol "configMap" "name" acc1
          | _ => acc) []
    | _ => []
  extractFromContainerEnv podSpec "configMapRef" "name" "configMapKeyRef" "name" names

/-- `extractSecretNames` (= the conflict package's `extractSecretRefs`). -/
def extractSecretNames (podSpec : Obj) : List String :=
  let names :=
    match mapGet podSpec "volumes" with
    | some (.varr volumes) =>
        volumes.foldl (fun acc v =>
          match v with
          | .vmap vol =>
              let acc1 :=
                match mapGet vol "secret" with
                | some (.vmap secret) =>
                    match mapGet secret "secretName" with
                    | some (.vstr name) => addName acc name
                    | _ => acc
                | _ => acc
              extractFromProjected vol "secret" "name" acc1
          | _ => acc) []
    | _ => []
  extractFromContainerEnv podSpec "secretRef" "name" "secretKeyRef" "name" names

/-- `extractPVCNames` (= the conflict package's `extractPVCRefs`). -/
def extractPVCNames (podSpec : Obj) : List String :=
  match mapGet podSpec "volumes" with
  | some (.varr volumes) =>
      volumes.foldl (fun acc v =>
        match v with
        | .vmap vol =>
            match mapGet vol "persistentVolumeClaim" with
            | some (.vmap pvc) =>
                match mapGet pvc "claimName" with
                | some (.vstr name) => addName acc name
                | _ => acc
            | _ => acc
        | _ => acc) []
  | _ => []

/-- `extractServiceAccountName` (= `extractServiceAccountRef`):
`serviceAccountName` wins over the legacy `serviceAccount`. -/
def extractServiceAccountName (podSpec : Obj) : String :=
  match mapGet podSpec "serviceAccountName" with
  | some (.vstr sa) => sa
  | _ =>
      match mapGet podSpec "serviceAccount" with
      | some (.vstr sa) => sa
      | _ => ""

/-- `Unstructured.GetLabels`: `metadata.labels` as a string map; nothing on
absence, a non-mapping value, or any non-string label. -/
def getLabelsU (o : Obj) : List (String × String) :=
  match mapGet o "metadata" with
  | some (.vmap md) =>
      match mapGet md "labels" with
      | some (.vmap labels) => (allStrings labels).getD []
      | _ => []
  | _ => []

/-- The common tail of `extractPodTemplateLabels`: the template's
`metadata.labels`, keeping only string-valued entries. -/
def templateLabelsOf (template : Obj) : List (String × String) :=
  match mapGet template "metadata" with
  | some (.vmap meta) =>
      match mapGet meta "labels" with
      | some (.vmap labelsRaw) =>
          labelsRaw.filterMap (fun p =>
            match p.2 with
            | .vstr sv => some (p.1, sv)
            | _ => none)
      | _ => []
  | _ => []

/-- `extractPodTemplateLabels`: the pod template labels of workloads (the
object's own labels for a `Pod`). -/
def extractPodTemplateLabels (o : Obj) : List (String × String) :=
  match getKindU o with
  | "Pod" => getLabelsU o
  | "Deployment" | "StatefulSet" | "DaemonSet" | "ReplicaSet" | "Job" =>
      match mapGet o "spec" with
      | some (.vmap spec) =>
          match mapGet spec "template" with
          | some (.vmap template) => templateLabelsOf template
          | _ => []
      | _ => []
  | "CronJob" =>
      match mapGet o "spec" with
      | some (.vmap spec) =>
          match mapGet spec "jobTemplate" with
          | some (.vmap jobTemplate) =>
              match mapGet jobTemplate "spec" with
              | some (.vmap jobSpec) =>
                  match mapGet jobSpec "template" with
                  | some (.vmap template) => templateLabelsOf template
                  | _ => []
              | _ => []
          | _ => []
      | _ => []
  | _ => []

/-! ### Conflict detector (pkg/conflict) and copier (pkg/copier) -/

/-- `schema.GroupVersionResource`. -/
structure GVR where
  group : String
  version : String
  resource : String
deriving DecidableEq, Repr

/-- `copier.ResourceRef` (`ns` models the Go `Namespace` field). -/
structure ResourceRef where
  gvr : GVR
  kind : String
  name : String
  ns : String
  namespaced : Bool
deriving DecidableEq, Repr

/-- `ResourceRef.DisplayName`. -/
def DisplayName (r : ResourceRef) : String :=
  if r.kind ≠ "" then r.kind ++ "/" ++ r.name
  else r.gvr.resource ++ "/" ++ r.name

/-- `conflict.Type`. -/
inductive ConflictType where
  | existence
  | address
  | reference
deriving DecidableEq, Repr, BEq

/-- `conflict.Conflict`. -/
structure Conflict where
  ctype : ConflictType
  resource : String
  message : String
deriving DecidableEq, Repr

/-- A dynamic read-only client for one cluster: `get` and `list` as consumed
by the conflict detector and the discoverer.  Errors carry the message their
Go counterpart would format. -/
structure Cluster where
  getObj : GVR → String → String → Except String Obj
  listObjs : GVR → String → Except String (List Obj)

/-- `toInt64` of the conflict package: the decoder's numeric cases collapse
onto the single numeric constructor of `Value`. -/
def toInt64 (v : Value) : Option Int :=
  match v with
  | .vnum nv => some nv
  | _ => none

/-- `detectServiceAddressConflicts`. -/
def detectServiceAddressConflicts (obj : Obj) : List Conflict :=
  let identifier := "Service/" ++ getNameU obj
  match mapGet obj "spec" with
  | some (.vmap spec) =>
      let c1 :=
        match mapGet spec "clusterIP" with
        | some (.vstr clusterIP) =>
            if clusterIP ≠ "" ∧ clusterIP ≠ "None" then
              [⟨.address, identifier,
                "Service has hardcoded clusterIP " ++ clusterIP ++ " that may conflict"⟩]
            else []
        | _ => []
      let c2 :=
        match mapGet spec "ports" with
        | some (.varr ports) =>
            ports.foldl (fun acc p =>
              match p with
              | .vmap port =>
                  match mapGet port "nodePort" with
                  | some np =>
                      match toInt64 np with
                      | some npVal =>
                          if npVal > 0 then
                            acc ++ [⟨.address, identifier,
                              "Service has hardcoded nodePort " ++ toString npVal ++
                                " that may conflict"⟩]
                          else acc
                      | none => acc
                  | none => acc
              | _ => acc) ([] : List Conflict)
        | _ => []
      let c3 :=
        match mapGet spec "loadBalancerIP" with
        | some (.vstr lbIP) =>
            if lbIP ≠ "" then
              [⟨.address, identifier,
                "Service has hardcoded loadBalancerIP " ++ lbIP ++ " that may conflict"⟩]
            else []
        | _ => []
      c1 ++ c2 ++ c3
  | _ => []

/-- `detectAddressConflicts`. -/
def detectAddressConflicts (obj : Obj) : List Conflict :=
  match getKindU obj with
  | "Service" => detectServiceAddressConflicts obj
  | _ => []

/-- `resourceExists`: a successful GET on the target. -/
def resourceExists (client : Cluster) (gvr : GVR) (name nspace : String) : Bool :=
  match client.getObj gvr nspace name with
  | .ok _ => true
  | .error _ => false

/-- `detectReferenceConflicts`. -/
def detectReferenceConflicts (targetClient : Cluster) (obj : Obj)
    (targetNS : String) : List Conflict :=
  let identifier := getKindU obj ++ "/" ++ getNameU obj
  match extractPodSpec obj with
  | some podSpec =>
      let c1 := (extractConfigMapNames podSpec).foldl (fun acc cmName =>
        if resourceExists targetClient ⟨"", "v1", "configmaps"⟩ cmName targetNS
        then acc
        else acc ++ [⟨.reference, identifier,
          "references ConfigMap " ++ cmName ++
            " which does not exist in target namespace " ++ targetNS ++
            " (consider --recursive)"⟩]) ([] : List Conflict)
      let c2 := (extractSecretNames podSpec).foldl (fun acc secretName =>
        if resourceExists targetClient ⟨"", "v1", "secrets"⟩ secretName targetNS
        then acc
        else acc ++ [⟨.reference, identifier,
          "references Secret " ++ secretName ++
            " which does not exist in target namespace " ++ targetNS ++
            " (consider --recursive)"⟩]) c1
      let c3 := (extractPVCNames podSpec).foldl (fun acc pvcName =>
        if resourceExists targetClient ⟨"", "v1", "persistentvolumeclaims"⟩
            pvcName targetNS
        then acc
        else acc ++ [⟨.reference, identifier,
          "references PVC " ++ pvcName ++
            " which does not exist in target namespace " ++ targetNS ++
            " (consider --recursive)"⟩]) c2
      let saName := extractServiceAccountName podSpec
      if saName ≠ "" ∧ saName ≠ "default" then
        if resourceExists targetClient ⟨"", "v1", "serviceaccounts"⟩ saName targetNS
        then c3
        else c3 ++ [⟨.reference, identifier,
          "references ServiceAccount " ++ saName ++
            " which does not exist in target namespace " ++ targetNS ++
            " (consider --recursive)"⟩]
      else c3
  | none => []

/-- `conflict.Detect`: existence, address and reference checks, in order. -/
def Detect (targetClient : Cluster) (gvr : GVR) (obj : Obj)
    (targetNS : String) : List Conflict :=
  let name := getNameU obj
  let identifier := getKindU obj ++ "/" ++ name
  let c1 :=
    match targetClient.getObj gvr targetNS name with
    | .ok _ =>
        [⟨.existence, identifier,
          identifier ++ " already exists in namespace " ++ targetNS⟩]
    | .error _ => []
  c1 ++ detectAddressConflicts obj ++ detectReferenceConflicts targetClient obj targetNS

/-- `copier.CopyResult` (mutable Go fields become a record updated by
`Plan`/`Apply`; `error` holds the formatted message). -/
structure CopyResult where
  source : ResourceRef
  targetName : String
  targetNS : String
  action : String
  warnings : List Warning
  conflicts : List Conflict
  error : Option String
  sanitized : Option Obj

/-- `conflictHasType`. -/
def conflictHasType (conflicts : List Conflict) (t : ConflictType) : Bool :=
  conflicts.any (fun c => c.ctype == t)

/-- `FormatFetchError` (message taxonomy by substring checks). -/
def FormatFetchError (err : String) (ref : ResourceRef) : String :=
  if strContain err "the server could not find the requested resource" then
    DisplayName ref ++ ": resource type not recognized by the cluster API server."
  else if strContain err "not found" then
    DisplayName ref ++ " not found in namespace " ++ ref.ns ++ "."
  else if strContain err "Unauthorized" ∨ strContain err "forbidden" then
    DisplayName ref ++ ": permission denied in namespace " ++ ref.ns ++ "."
  else if strContain err "dial tcp" ∨ strContain err "connection refused" ∨
      strContain err "no such host" then
    "cannot reach cluster: " ++ err
  else
    "fetch " ++ DisplayName ref ++ " in " ++ ref.ns ++ ": " ++ err

/-- `FormatCreateError`. -/
def FormatCreateError (err : String) (ref : ResourceRef) (targetNS : String) :
    String :=
  if strContain err "already exists" then
    DisplayName ref ++ " already exists in namespace " ++ targetNS ++ "."
  else if strContain err "Unauthorized" ∨ strContain err "forbidden" then
    DisplayName ref ++ ": permission denied creating in namespace " ++ targetNS ++ "."
  else
    "create " ++ DisplayName ref ++ " in " ++ targetNS ++ ": " ++ err

/-- `copier.Copier` (the progress sink has no observable effect on the data
flow and is omitted). -/
structure Copier where
  sourceClient : Cluster
  targetClient : Cluster
  onConflict : String

/-- `Copier.Plan`: fetch, sanitize, detect, decide the planned action.
Cluster-scoped refs fetch with an empty namespace; the detector and the
sanitizer receive the caller-supplied target namespace unchanged. -/
def Plan (c : Copier) (ref : ResourceRef) (targetNS targetName0 : String) :
    CopyResult :=
  let targetName := if targetName0 = "" then ref.name else targetName0
  let srcNS := if ¬ref.namespaced then "" else ref.ns
  match c.sourceClient.getObj ref.gvr srcNS ref.name with
  | .error err =>
      { source := ref, targetName := targetName, targetNS := targetNS,
        action := "", warnings := [], conflicts := [],
        error := some (FormatFetchError err ref), sanitized := none }
  | .ok obj =>
      let rw := Run obj targetNS targetName
      let conflicts := Detect c.targetClient ref.gvr rw.1 targetNS
      let action :=
        if conflictHasType conflicts .existence then
          match c.onConflict with
          | "skip" => "skip"
          | "warn" => "overwrite"
          | "overwrite" => "overwrite"
          | _ => ""
        else "create"
      { source := ref, targetName := targetName, targetNS := targetNS,
        action := action, warnings := rw.2, conflicts := conflicts,
        error := none, sanitized := some rw.1 }

/-- `Copier.PlanAll`: the first ref is the primary and alone receives the
caller-supplied name override. -/
def PlanAll (c : Copier) (refs : List ResourceRef)
    (targetNS primaryTargetName : String) : List CopyResult :=
  match refs with
  | [] => []
  | r0 :: rest =>
      Plan c r0 targetNS
          (if primaryTargetName ≠ "" then primaryTargetName else r0.name) ::
        rest.map (fun r => Plan c r targetNS r.name)

/-- The target cluster's write surface consumed by `Apply`, over an abstract
cluster state `σ`; `create` receives the posted object (`nil` pointer when
the plan carried none). -/
structure TargetClient (σ : Type) where
  delete : σ → GVR → String → String → σ × Option String
  create : σ → GVR → String → Option Obj → σ × Option String

/-- `Copier.Apply`: finalize skips and errors without touching the target;
otherwise delete-then-create for `overwrite` (delete error ignored) or plain
create, the executed action being set before the create error is examined. -/
def Apply {σ : Type} (tc : TargetClient σ) (st : σ) (planned : CopyResult) :
    σ × CopyResult :=
  if planned.error.isSome ∨ planned.action = "skip" then
    (st, if planned.action = "skip" then { planned with action := "skipped" }
         else planned)
  else
    let ref := planned.source
    let targetNS := if ¬ref.namespaced then "" else planned.targetNS
    let targetName := planned.targetName
    if planned.action = "overwrite" then
      let d := tc.delete st ref.gvr targetNS targetName
      let cr := tc.create d.1 ref.gvr targetNS planned.sanitized
      let planned1 := { planned with action := "overwritten" }
      (cr.1, match cr.2 with
             | some err =>
                 { planned1 with error := some (FormatCreateError err ref targetNS) }
             | none => planned1)
    else
      let cr := tc.create st ref.gvr targetNS planned.sanitized
      let planned1 := { planned with action := "created" }
      (cr.1, match cr.2 with
             | some err =>
                 { planned1 with error := some (FormatCreateError err ref targetNS) }
             | none => planned1)

/-- `Copier.ApplyAll`: a straight fold in list order. -/
def ApplyAll {σ : Type} (tc : TargetClient σ) (st : σ)
    (planned : List CopyResult) : σ × List CopyResult :=
  match planned with
  | [] => (st, [])
  | p :: rest =>
      let r := Apply tc st p
      let rs := ApplyAll tc r.1 rest
      (rs.1, r.2 :: rs.2)

/-! ### Claims about Plan's action decision and Apply (C2, C5, C6) -/

/-- A target client with constant call outcomes and no state. -/
def constTC (delErr createErr : Option String) : TargetClient Unit :=
  ⟨fun _ _ _ _ => ((), delErr), fun _ _ _ _ => ((), createErr)⟩

/-- C2 counterexample: when the source fetch fails, Plan returns with no
detected conflicts and an empty planned action — not `create` — refuting
"`create` exactly when no existence conflict was detected" as universally
stated. -/
theorem claim_C2_counterexample :
    conflictHasType (Plan
      ⟨⟨fun _ _ _ => .error "boom", fun _ _ => .error "boom"⟩,
       ⟨fun _ _ _ => .error "boom", fun _ _ => .error "boom"⟩, "skip"⟩
      ⟨⟨"apps", "v1", "deployments"⟩, "Deployment", "web", "ns-a", true⟩
      "ns-b" "").conflicts .existence = false ∧
    (Plan
      ⟨⟨fun _ _ _ => .error "boom", fun _ _ => .error "boom"⟩,
       ⟨fun _ _ _ => .error "boom", fun _ _ => .error "boom"⟩, "skip"⟩
      ⟨⟨"apps", "v1", "deployments"⟩, "Deployment", "web", "ns-a", true⟩
      "ns-b" "").action ≠ "create" := by
  exact ⟨rfl, by decide⟩

/-- C2 (amended with a successful source fetch): for every conflict policy
in {skip, warn, overwrite}, the planned action is `skip` exactly when an
existence conflict was detected and the policy is `skip`; `overwrite`
exactly when an existence conflict was detected and the policy is `warn` or
`overwrite`; and `create` exactly when no existence conflict was detected. -/
theorem claim_C2_plan_action (c : Copier) (ref : ResourceRef) (t n : String)
    (obj : Obj)
    (hpol : c.onConflict = "skip" ∨ c.onConflict = "warn" ∨
      c.onConflict = "overwrite")
    (hfetch : c.sourceClient.getObj ref.gvr
      (if ¬ref.namespaced then "" else ref.ns) ref.name = .ok obj) :
    ((Plan c ref t n).action = "skip" ↔
      conflictHasType (Plan c ref t n).conflicts .existence = true ∧
        c.onConflict = "skip") ∧
    ((Plan c ref t n).action = "overwrite" ↔
      conflictHasType (Plan c ref t n).conflicts .existence = true ∧
        (c.onConflict = "warn" ∨ c.onConflict = "overwrite")) ∧
    ((Plan c ref t n).action = "create" ↔
      conflictHasType (Plan c ref t n).conflicts .existence = false) := by
  unfold Plan
  dsimp only
  rw [hfetch]
  dsimp only
  cases hex : conflictHasType
      (Detect c.targetClient ref.gvr
        (Run obj t (if n = "" then ref.name else n)).1 t) .existence with
  | true =>
      rcases hpol with hp | hp | hp <;> rw [hp] <;> simp [hex]
  | false =>
      simp [hex]

/-- C2 witness: an existence conflict in the target with policy `skip`
plans `skip`. -/
theorem claim_C2_witness :
    ((("skip" : String) = "skip" ∨ ("skip" : String) = "warn" ∨
        ("skip" : String) = "overwrite") ∧
      (Cluster.mk (fun _ _ _ => .ok ([] : Obj)) (fun _ _ => .error "")).getObj
        ⟨"apps", "v1", "deployments"⟩
        (if ¬true then "" else "ns-a") "web" = .ok ([] : Obj)) ∧
    ((Plan
        ⟨⟨fun _ _ _ => .ok ([] : Obj), fun _ _ => .error ""⟩,
         ⟨fun _ _ _ => .ok ([] : Obj), fun _ _ => .error ""⟩, "skip"⟩
        ⟨⟨"apps", "v1", "deployments"⟩, "Deployment", "web", "ns-a", true⟩
        "ns-b" "").action = "skip" ↔
      conflictHasType (Plan
        ⟨⟨fun _ _ _ => .ok ([] : Obj), fun _ _ => .error ""⟩,
         ⟨fun _ _ _ => .ok ([] : Obj), fun _ _ => .error ""⟩, "skip"⟩
        ⟨⟨"apps", "v1", "deployments"⟩, "Deployment", "web", "ns-a", true⟩
        "ns-b" "").conflicts .existence = true ∧ ("skip" : String) = "skip") :=
  ⟨⟨Or.inl rfl, rfl⟩,
    (claim_C2_plan_action
      ⟨⟨fun _ _ _ => .ok ([] : Obj), fun _ _ => .error ""⟩,
       ⟨fun _ _ _ => .ok ([] : Obj), fun _ _ => .error ""⟩, "skip"⟩
      ⟨⟨"apps", "v1", "deployments"⟩, "Deployment", "web", "ns-a", true⟩
      "ns-b" "" [] (Or.inl rfl) rfl).1⟩

/-- C6 counterexample: a planned result carrying an error with an empty
planned action (exactly what `Plan` produces on a fetch failure) is NOT
relabelled `skipped` by Apply — its action stays empty. -/
theorem claim_C6_counterexample :
    (Apply (constTC none none) ()
      { source := ⟨⟨"apps", "v1", "deployments"⟩, "Deployment", "web", "ns-a", true⟩,
        targetName := "web", targetNS := "ns-b", action := "",
        warnings := [], conflicts := [], error := some "fetch failed",
        sanitized := none }).2.action ≠ "skipped" ∧
    (Apply (constTC none none) ()
      { source := ⟨⟨"apps", "v1", "deployments"⟩, "Deployment", "web", "ns-a", true⟩,
        targetName := "web", targetNS := "ns-b", action := "",
        warnings := [], conflicts := [], error := some "fetch failed",
        sanitized := none }).2.action = "" := by
  exact ⟨by decide, rfl⟩

/-- C6 (amended): for every planned result that carries an error or whose
planned action is `skip`, Apply issues no target call (the abstract state is
returned untouched for every client) and leaves every field unchanged,
except that the action becomes `skipped` exactly when the planned action was
`skip`. -/
theorem claim_C6_apply_skips {σ : Type} (tc : TargetClient σ) (st : σ)
    (planned : CopyResult)
    (h : planned.error.isSome ∨ planned.action = "skip") :
    Apply tc st planned =
      (st, { planned with
              action := if planned.action = "skip" then "skipped"
                        else planned.action }) := by
  unfold Apply
  rw [if_pos h]
  by_cases ha : planned.action = "skip" <;> simp [ha]

/-- C6 witness. -/
theorem claim_C6_witness :
    ((some "fetch failed" : Option String).isSome = true ∨
      ("" : String) = "skip") ∧
    Apply (constTC none none) ()
      { source := ⟨⟨"apps", "v1", "deployments"⟩, "Deployment", "web", "ns-a", true⟩,
        targetName := "web", targetNS := "ns-b", action := "",
        warnings := [], conflicts := [], error := some "fetch failed",
        sanitized := none } =
      ((), { source := ⟨⟨"apps", "v1", "deployments"⟩, "Deployment", "web", "ns-a", true⟩,
             targetName := "web", targetNS := "ns-b",
             action := if ("" : String) = "skip" then "skipped" else "",
             warnings := [], conflicts := [], error := some "fetch failed",
             sanitized := none }) :=
  ⟨Or.inl rfl,
    claim_C6_apply_skips (constTC none none) ()
      { source := ⟨⟨"apps", "v1", "deployments"⟩, "Deployment", "web", "ns-a", true⟩,
        targetName := "web", targetNS := "ns-b", action := "",
        warnings := [], conflicts := [], error := some "fetch failed",
        sanitized := none } (Or.inl rfl)⟩

/-- C5 counterexample: a failing create still leaves the executed action at
`created` (the code sets the action before inspecting the create error), so
"executed action is set if and only if the create succeeds" is false. -/
theorem claim_C5_counterexample :
    (Apply (constTC none (some "boom")) ()
      { source := ⟨⟨"apps", "v1", "deployments"⟩, "Deployment", "web", "ns-a", true⟩,
        targetName := "web", targetNS := "ns-b", action := "create",
        warnings := [], conflicts := [], error := none,
        sanitized := some [] }).2.action = "created" ∧
    (Apply (constTC none (some "boom")) ()
      { source := ⟨⟨"apps", "v1", "deployments"⟩, "Deployment", "web", "ns-a", true⟩,
        targetName := "web", targetNS := "ns-b", action := "create",
        warnings := [], conflicts := [], error := none,
        sanitized := some [] }).2.error.isSome = true := by
  exact ⟨rfl, rfl⟩

/-- C5 (amended): for every planned result with no pre-existing error and
planned action not `skip`, Apply always sets the executed action —
`overwritten` for a planned `overwrite`, `created` otherwise — and sets
`result.error` exactly when the create call fails. -/
theorem claim_C5_apply_outcome (delErr createErr : Option String)
    (planned : CopyResult)
    (herr : planned.error = none) (hact : planned.action ≠ "skip") :
    (Apply (constTC delErr createErr) () planned).2.action =
      (if planned.action = "overwrite" then "overwritten" else "created") ∧
    ((Apply (constTC delErr createErr) () planned).2.error.isSome ↔
      createErr.isSome) := by
  unfold Apply
  rw [if_neg (by simp [herr, hact])]
  by_cases hov : planned.action = "overwrite" <;>
    cases createErr <;> simp [hov, constTC, herr]

/-- C5 witness. -/
theorem claim_C5_witness :
    ((none : Option String) = none ∧ ("create" : String) ≠ "skip") ∧
    ((Apply (constTC none (some "boom")) ()
      { source := ⟨⟨"apps", "v1", "deployments"⟩, "Deployment", "web", "ns-a", true⟩,
        targetName := "web", targetNS := "ns-b", action := "create",
        warnings := [], conflicts := [], error := none,
        sanitized := some [] }).2.action =
        (if ("create" : String) = "overwrite" then "overwritten" else "created") ∧
      ((Apply (constTC none (some "boom")) ()
        { source := ⟨⟨"apps", "v1", "deployments"⟩, "Deployment", "web", "ns-a", true⟩,
          targetName := "web", targetNS := "ns-b", action := "create",
          warnings := [], conflicts := [], error := none,
          sanitized := some [] }).2.error.isSome ↔
        (some "boom" : Option String).isSome)) :=
  ⟨⟨rfl, by decide⟩,
    claim_C5_apply_outcome none (some "boom")
      { source := ⟨⟨"apps", "v1", "deployments"⟩, "Deployment", "web", "ns-a", true⟩,
        targetName := "web", targetNS := "ns-b", action := "create",
        warnings := [], conflicts := [], error := none,
        sanitized := some [] } rfl (by decide)⟩

/-! ### The namespace carried by Plan's sanitized object (C9) -/

theorem SanitizeCommon_meta_vmap {o md : Obj} (t n : String)
    (hmd : mapGet o "metadata" = some (.vmap md)) :
    ∃ md', mapGet (SanitizeCommon o t n) "metadata" = some (.vmap md') := by
  rw [SanitizeCommon_of_map o md t n hmd]
  dsimp only
  by_cases hn : n = "" <;> simp [hn]

theorem Run_meta_vmap {o md : Obj} (t n : String)
    (hmd : mapGet o "metadata" = some (.vmap md)) :
    ∃ md', mapGet (Run o t n).1 "metadata" = some (.vmap md') := by
  rw [Run_fst_eq]
  cases hreg : Registry (getKindU (SanitizeCommon o t n)) with
  | none => exact SanitizeCommon_meta_vmap t n hmd
  | some f =>
      obtain ⟨md1, hmd1⟩ := @SanitizeCommon_meta_vmap o md t n hmd
      exact (Registry_props hreg).2.2.2 _ md1 hmd1

theorem CC_Run (o : Obj) (t n : String) : CC t n (Run o t n).1 := by
  rw [Run_fst_eq]
  cases hreg : Registry (getKindU (SanitizeCommon o t n)) with
  | none => exact CC_common o t n
  | some f => exact (Registry_props hreg).2.2.1 t n _ (CC_common o t n)

/-- C9 counterexample: a cluster-scoped reference planned with target
namespace `prod` gets a sanitized object whose `metadata.namespace` is
`prod` — not empty — because `Plan` hands the caller-supplied namespace to
the sanitizer unconditionally; only the Apply-phase API call clamps it. -/
theorem claim_C9_counterexample :
    (Plan
      ⟨⟨fun _ _ _ => .ok [("metadata", .vmap [("name", .vstr "x")])],
        fun _ _ => .error ""⟩,
       ⟨fun _ _ _ => .error "nf", fun _ _ => .error ""⟩, "skip"⟩
      ⟨⟨"", "v1", "nodes"⟩, "Node", "x", "", false⟩ "prod" "").source.namespaced
      = false ∧
    (Plan
      ⟨⟨fun _ _ _ => .ok [("metadata", .vmap [("name", .vstr "x")])],
        fun _ _ => .error ""⟩,
       ⟨fun _ _ _ => .error "nf", fun _ _ => .error ""⟩, "skip"⟩
      ⟨⟨"", "v1", "nodes"⟩, "Node", "x", "", false⟩ "prod" "").sanitized =
      some [("metadata", .vmap [("name", .vstr "x"), ("namespace", .vstr "prod")])] :=
  ⟨rfl, rfl⟩

/-- C9 (amended): for every resource processed by Plan whose source fetch
succeeds and whose object carries a metadata mapping, the sanitized object
attached to the result has `metadata.namespace` equal to the caller-supplied
target namespace whenever that namespace is non-empty, and no
`metadata.namespace` when it is empty — for namespaced and cluster-scoped
refs alike; the namespace is forced empty only on the Apply-phase API call. -/
theorem claim_C9_sanitized_namespace (c : Copier) (ref : ResourceRef)
    (t n : String) (obj md : Obj)
    (hfetch : c.sourceClient.getObj ref.gvr
      (if ¬ref.namespaced then "" else ref.ns) ref.name = .ok obj)
    (hmd : mapGet obj "metadata" = some (.vmap md)) :
    ∃ s md', (Plan c ref t n).sanitized = some s ∧
      mapGet s "metadata" = some (.vmap md') ∧
      (t = "" → mapGet md' "namespace" = none) ∧
      (t ≠ "" → mapGet md' "namespace" = some (.vstr t)) := by
  unfold Plan
  dsimp only
  rw [hfetch]
  dsimp only
  refine ⟨(Run obj t (if n = "" then ref.name else n)).1, ?_⟩
  obtain ⟨md', hmd'⟩ := Run_meta_vmap t (if n = "" then ref.name else n) hmd
  have hcc := CC_Run obj t (if n = "" then ref.name else n) md' hmd'
  refine ⟨md', rfl, hmd', ?_, ?_⟩
  · intro ht
    have := hcc.2.2.2.1
    rwa [if_pos ht] at this
  · intro ht
    have := hcc.2.2.2.1
    rwa [if_neg ht] at this

/-- C9 witness: a namespaced ref planned into namespace `ns-b`. -/
theorem claim_C9_witness :
    ((Cluster.mk (fun _ _ _ => .ok [("metadata", .vmap [("name", .vstr "x")])])
        (fun _ _ => .error "")).getObj ⟨"apps", "v1", "deployments"⟩
        (if ¬true then "" else "ns-a") "x" =
      .ok [("metadata", .vmap [("name", .vstr "x")])] ∧
      mapGet [("metadata", Value.vmap [("name", .vstr "x")])] "metadata" =
        some (.vmap [("name", .vstr "x")])) ∧
    (∃ s md', (Plan
      ⟨⟨fun _ _ _ => .ok [("metadata", .vmap [("name", .vstr "x")])],
        fun _ _ => .error ""⟩,
       ⟨fun _ _ _ => .error "nf", fun _ _ => .error ""⟩, "skip"⟩
      ⟨⟨"apps", "v1", "deployments"⟩, "Deployment", "x", "ns-a", true⟩
      "ns-b" "").sanitized = some s ∧
      mapGet s "metadata" = some (.vmap md') ∧
      (("ns-b" : String) = "" → mapGet md' "namespace" = none) ∧
      (("ns-b" : String) ≠ "" → mapGet md' "namespace" = some (.vstr "ns-b"))) :=
  ⟨⟨rfl, rfl⟩,
    claim_C9_sanitized_namespace
      ⟨⟨fun _ _ _ => .ok [("metadata", .vmap [("name", .vstr "x")])],
        fun _ _ => .error ""⟩,
       ⟨fun _ _ _ => .error "nf", fun _ _ => .error ""⟩, "skip"⟩
      ⟨⟨"apps", "v1", "deployments"⟩, "Deployment", "x", "ns-a", true⟩
      "ns-b" "" _ _ rfl rfl⟩

/-! ### The Service round-trip law (C10) -/

theorem SanitizeCommon_get_other (o : Obj) (t n : String) {k : String}
    (h1 : k ≠ "metadata") (h2 : k ≠ "status") :
    mapGet (SanitizeCommon o t n) k = mapGet o k := by
  by_cases hex : ∃ md, mapGet o "metadata" = some (.vmap md)
  · obtain ⟨md, hmd⟩ := hex
    rw [SanitizeCommon_of_map o md t n hmd]
    dsimp only
    by_cases hn : n = "" <;>
      simp [hn, mapGet_mapSet_other _ _ h1, mapGet_mapDel_other _ h2]
  · push_neg at hex
    rw [SanitizeCommon_of_not_map o t n hex]

theorem getKindU_SanitizeCommon (o : Obj) (t n : String) :
    getKindU (SanitizeCommon o t n) = getKindU o := by
  unfold getKindU
  rw [SanitizeCommon_get_other o t n (by decide) (by decide)]

/-- C10 counterexample: a Service whose spec contains the claimed
`clusterIP`/`ports` entries plus a `loadBalancerIP` satisfies the claim's
hypothesis but `Run` returns three warnings, not two. -/
theorem claim_C10_counterexample :
    mapGet [("clusterIP", Value.vstr "10.0.0.1"),
            ("ports", .varr [.vmap [("nodePort", .vnum 31000)]]),
            ("loadBalancerIP", .vstr "1.2.3.4")] "clusterIP" =
      some (.vstr "10.0.0.1") ∧
    mapGet [("clusterIP", Value.vstr "10.0.0.1"),
            ("ports", .varr [.vmap [("nodePort", .vnum 31000)]]),
            ("loadBalancerIP", .vstr "1.2.3.4")] "ports" =
      some (.varr [.vmap [("nodePort", .vnum 31000)]]) ∧
    (Run [("kind", .vstr "Service"),
          ("metadata", .vmap [("name", .vstr "s")]),
          ("spec", .vmap [("clusterIP", Value.vstr "10.0.0.1"),
            ("ports", .varr [.vmap [("nodePort", .vnum 31000)]]),
            ("loadBalancerIP", .vstr "1.2.3.4")])] "default" "s").2.length = 3 :=
  ⟨rfl, rfl, rfl⟩

/-- C10 (amended): for every Service object whose spec contains clusterIP
`10.0.0.1` and ports `[{nodePort: 31000}]`, `sanitizer.Run` produces an
object with `spec.clusterIP` the empty string and the first (only) port
entry lacking `nodePort`; the warnings are exactly two provided the spec has
no other warning-producing field (a non-empty `loadBalancerIP` or type
`ExternalName`). -/
theorem claim_C10_service_roundtrip (o sp : Obj) (t n : String)
    (hkind : getKindU o = "Service")
    (hspec : mapGet o "spec" = some (.vmap sp))
    (hcip : mapGet sp "clusterIP" = some (.vstr "10.0.0.1"))
    (hports : mapGet sp "ports" = some (.varr [.vmap [("nodePort", .vnum 31000)]]))
    (hlb : ∀ u, mapGet sp "loadBalancerIP" = some (.vstr u) → u = "")
    (htype : ∀ u, mapGet sp "type" = some (.vstr u) → u ≠ "ExternalName") :
    ∃ sp', mapGet (Run o t n).1 "spec" = some (.vmap sp') ∧
      mapGet sp' "clusterIP" = some (.vstr "") ∧
      mapGet sp' "ports" = some (.varr [.vmap []]) ∧
      (Run o t n).2.length = 2 := by
  have hkindc : Registry (getKindU (SanitizeCommon o t n)) = some sanitizeService := by
    rw [getKindU_SanitizeCommon, hkind]
    rfl
  have hrun : Run o t n = sanitizeService (SanitizeCommon o t n) := by
    unfold Run
    dsimp only
    rw [hkindc]
  have hxspec : mapGet (SanitizeCommon o t n) "spec" = some (.vmap sp) := by
    rw [SanitizeCommon_get_other o t n (by decide) (by decide)]
    exact hspec
  have hsvc : ∀ y : Obj, mapGet y "spec" = some (.vmap sp) →
      ∃ sp', mapGet (sanitizeService y).1 "spec" = some (.vmap sp') ∧
        mapGet sp' "clusterIP" = some (.vstr "") ∧
        mapGet sp' "ports" = some (.varr [.vmap []]) ∧
        (sanitizeService y).2.length = 2 := by
    intro y hy
    have hs1 : ∀ idX, svcClusterIPStep idX sp =
        (mapSet sp "clusterIP" (.vstr ""),
         [⟨idX, "reset clusterIP (was 10.0.0.1) to let the cluster assign a new one"⟩]) := by
      intro idX
      unfold svcClusterIPStep
      rw [hcip]
      dsimp only
      rw [if_pos ⟨by decide, by decide⟩]
      rfl
    have hports2 : mapGet (svcClusterIPsStep (mapSet sp "clusterIP" (.vstr ""))) "ports" =
        some (.varr [.vmap [("nodePort", .vnum 31000)]]) := by
      rw [svcClusterIPsStep_get_other _ (by decide),
          mapGet_mapSet_other _ _ (by decide)]
      exact hports
    have hs3 : ∀ idX, svcPortsStep idX (svcClusterIPsStep (mapSet sp "clusterIP" (.vstr ""))) =
        (mapSet (svcClusterIPsStep (mapSet sp "clusterIP" (.vstr ""))) "ports"
          (.varr [.vmap []]),
         [⟨idX, "removed nodePort 31000 to let the cluster assign a new one"⟩]) := by
      intro idX
      unfold svcPortsStep
      rw [hports2]
      rfl
    have hlbv : mapGet (mapSet (svcClusterIPsStep (mapSet sp "clusterIP" (.vstr "")))
        "ports" (.varr [.vmap []])) "loadBalancerIP" = mapGet sp "loadBalancerIP" := by
      rw [mapGet_mapSet_other _ _ (by decide),
          svcClusterIPsStep_get_other _ (by decide),
          mapGet_mapSet_other _ _ (by decide)]
    have htypev : mapGet (mapSet (svcClusterIPsStep (mapSet sp "clusterIP" (.vstr "")))
        "ports" (.varr [.vmap []])) "type" = mapGet sp "type" := by
      rw [mapGet_mapSet_other _ _ (by decide),
          svcClusterIPsStep_get_other _ (by decide),
          mapGet_mapSet_other _ _ (by decide)]
    have hw4 : ∀ idX, svcLBWarnStep idX (mapSet (svcClusterIPsStep
        (mapSet sp "clusterIP" (.vstr ""))) "ports" (.varr [.vmap []])) = [] := by
      intro idX
      unfold svcLBWarnStep
      rw [hlbv]
      cases hv : mapGet sp "loadBalancerIP" with
      | none => rfl
      | some v =>
          cases v with
          | vstr u =>
              have hu := hlb u hv
              subst hu
              rfl
          | vnum a => rfl
          | vbool a => rfl
          | vnull => rfl
          | varr a => rfl
          | vmap a => rfl
    have hw5 : ∀ idX, svcTypeWarnStep idX (mapSet (svcClusterIPsStep
        (mapSet sp "clusterIP" (.vstr ""))) "ports" (.varr [.vmap []])) = [] := by
      intro idX
      unfold svcTypeWarnStep
      rw [htypev]
      cases hv : mapGet sp "type" with
      | none => rfl
      | some v =>
          cases v with
          | vstr u =>
              dsimp only
              rw [if_neg (htype u hv)]
          | vnum a => rfl
          | vbool a => rfl
          | vnull => rfl
          | varr a => rfl
          | vmap a => rfl
    unfold sanitizeService
    rw [hy]
    dsimp only
    rw [hs1, hs3]
    dsimp only
    rw [hw4, hw5]
    refine ⟨_, mapGet_mapSet_self _ _ _, ?_, ?_, by simp⟩
    · rw [mapGet_mapDel_other _ (by decide), mapGet_mapSet_other _ _ (by decide),
          svcClusterIPsStep_get_other _ (by decide), mapGet_mapSet_self]
    · rw [mapGet_mapDel_other _ (by decide), mapGet_mapSet_self]
  rw [hrun]
  exact hsvc _ hxspec

/-- C10 witness: the literal Service of the spec's round-trip law. -/
theorem claim_C10_witness :
    (getKindU [("kind", Value.vstr "Service"),
        ("metadata", .vmap [("name", .vstr "s")]),
        ("spec", .vmap [("clusterIP", Value.vstr "10.0.0.1"),
          ("ports", .varr [.vmap [("nodePort", .vnum 31000)]])])] = "Service") ∧
    (∃ sp', mapGet (Run [("kind", Value.vstr "Service"),
        ("metadata", .vmap [("name", .vstr "s")]),
        ("spec", .vmap [("clusterIP", Value.vstr "10.0.0.1"),
          ("ports", .varr [.vmap [("nodePort", .vnum 31000)]])])]
        "default" "s2").1 "spec" = some (.vmap sp') ∧
      mapGet sp' "clusterIP" = some (.vstr "") ∧
      mapGet sp' "ports" = some (.varr [.vmap []]) ∧
      (Run [("kind", Value.vstr "Service"),
        ("metadata", .vmap [("name", .vstr "s")]),
        ("spec", .vmap [("clusterIP", Value.vstr "10.0.0.1"),
          ("ports", .varr [.vmap [("nodePort", .vnum 31000)]])])]
        "default" "s2").2.length = 2) :=
  ⟨rfl, claim_C10_service_roundtrip _ _ "default" "s2" rfl rfl rfl rfl
    (fun u hu => by cases hu) (fun u hu => by cases hu)⟩

/-! ### Apply-phase operation traces (C4) -/

/-- The identity of a target object: `(gvr, namespace, name)`. -/
structure KeyT where
  gvr : GVR
  ns : String
  name : String
deriving DecidableEq, Repr

/-- One API write against the target, recorded with the set of objects
existing just before it. -/
inductive OpEvent where
  | del (k : KeyT) (pre : List KeyT)
  | create (k : KeyT) (pre : List KeyT)
deriving DecidableEq, Repr

/-- The target-cluster state threaded through `Apply`: the existing object
keys plus the log of issued writes. -/
structure TraceState where
  existing : List KeyT
  events : List OpEvent

/-- A create is safe when no same-named object of the same resource type
still existed in the target namespace as it was attempted. -/
def createSafe : OpEvent → Prop
  | .create k pre => k ∉ pre
  | .del _ _ => True

/-- The instrumented target client: delete removes the key (never failing,
like the ignored delete of an overwrite); create is keyed by the posted
object's `metadata.name` and fails when the key already exists. -/
def traceTC : TargetClient TraceState where
  delete := fun st gvr nsp name =>
    ({ existing := st.existing.filter (fun k' => k' ≠ ⟨gvr, nsp, name⟩),
       events := st.events ++ [.del ⟨gvr, nsp, name⟩ st.existing] }, none)
  create := fun st gvr nsp obj? =>
    if (⟨gvr, nsp, getNameU (obj?.getD [])⟩ : KeyT) ∈ st.existing then
      ({ st with
          events := st.events ++ [.create ⟨gvr, nsp, getNameU (obj?.getD [])⟩ st.existing] },
       some "already exists")
    else
      ({ existing := st.existing ++ [⟨gvr, nsp, getNameU (obj?.getD [])⟩],
         events := st.events ++ [.create ⟨gvr, nsp, getNameU (obj?.getD [])⟩ st.existing] },
       none)

/-- The read-only view of a target holding exactly the given keys. -/
def clusterOfKeys (keys : List KeyT) : Cluster where
  getObj := fun gvr nsp name =>
    if (⟨gvr, nsp, name⟩ : KeyT) ∈ keys then .ok [] else .error "not found"
  listObjs := fun _ _ => .ok []

/-- The key `Apply` creates for a planned result: clamped namespace and the
posted object's name. -/
def akey (p : CopyResult) : KeyT :=
  ⟨p.source.gvr, if ¬p.source.namespaced then "" else p.targetNS,
   getNameU (p.sanitized.getD [])⟩

theorem detectAddressConflicts_types (obj : Obj) :
    ∀ c ∈ detectAddressConflicts obj, c.ctype = .address := by
  unfold detectAddressConflicts
  split
  · unfold detectServiceAddressConflicts
    split
    · dsimp only
      rename_i spec _
      have hports : ∀ (ports : List Value) (init : List Conflict),
          (∀ c ∈ init, c.ctype = ConflictType.address) →
          ∀ c ∈ ports.foldl (fun acc p =>
            match p with
            | .vmap port =>
                match mapGet port "nodePort" with
                | some np =>
                    match toInt64 np with
                    | some npVal =>
                        if npVal > 0 then
                          acc ++ [⟨.address, "Service/" ++ getNameU obj,
                            "Service has hardcoded nodePort " ++ toString npVal ++
                              " that may conflict"⟩]
                        else acc
                    | none => acc
                | none => acc
            | _ => acc) init, c.ctype = ConflictType.address := by
        intro ports
        induction ports with
        | nil => intro init hinit; exact hinit
        | cons p rest ih =>
            intro init hinit
            rw [List.foldl_cons]
            refine ih _ ?_
            intro c hc
            split at hc
            · split at hc
              · split at hc
                · split at hc
                  · rcases List.mem_append.mp hc with h | h
                    · exact hinit c h
                    · rw [List.mem_singleton.mp h]
                  · exact hinit c hc
                · exact hinit c hc
              · exact hinit c hc
            · exact hinit c hc
      intro c hc
      rcases List.mem_append.mp hc with hc | hc
      · rcases List.mem_append.mp hc with hc | hc
        · split at hc
          · split at hc
            · rw [List.mem_singleton.mp hc]
            · cases hc
          · cases hc
        · split at hc
          · exact hports _ _ (by intro c h; cases h) c hc
          · cases hc
      · split at hc
        · split at hc
          · rw [List.mem_singleton.mp hc]
          · cases hc
        · cases hc
    · intro c hc
      cases hc
  · intro c hc
    cases hc

theorem detectReferenceConflicts_types (tc : Cluster) (obj : Obj)
    (tns : String) :
    ∀ c ∈ detectReferenceConflicts tc obj tns, c.ctype = .reference := by
  unfold detectReferenceConflicts
  split
  · dsimp only
    rename_i podSpec _
    have gen : ∀ (gvr : GVR) (names : List String) (mkMsg : String → String)
        (init : List Conflict),
        (∀ c ∈ init, c.ctype = ConflictType.reference) →
        ∀ c ∈ names.foldl (fun acc nm =>
          if resourceExists tc gvr nm tns then acc
          else acc ++ [⟨.reference, getKindU obj ++ "/" ++ getNameU obj,
            mkMsg nm⟩]) init,
        c.ctype = ConflictType.reference := by
      intro gvr names mkMsg
      induction names with
      | nil => intro init hinit; exact hinit
      | cons nm rest ih =>
          intro init hinit
          rw [List.foldl_cons]
          refine ih _ ?_
          intro c hc
          by_cases hre : resourceExists tc gvr nm tns
          · rw [if_pos hre] at hc
            exact hinit c hc
          · rw [if_neg hre] at hc
            rcases List.mem_append.mp hc with h | h
            · exact hinit c h
            · rw [List.mem_singleton.mp h]
    have h1 := gen ⟨"", "v1", "configmaps"⟩ (extractConfigMapNames podSpec)
      (fun nm => "references ConfigMap " ++ nm ++
        " which does not exist in target namespace " ++ tns ++
        " (consider --recursive)") [] (by intro c h; cases h)
    have h2 := gen ⟨"", "v1", "secrets"⟩ (extractSecretNames podSpec)
      (fun nm => "references Secret " ++ nm ++
        " which does not exist in target namespace " ++ tns ++
        " (consider --recursive)") _ h1
    have h3 := gen ⟨"", "v1", "persistentvolumeclaims"⟩ (extractPVCNames podSpec)
      (fun nm => "references PVC " ++ nm ++
        " which does not exist in target namespace " ++ tns ++
        " (consider --recursive)") _ h2
    intro c hc
    split at hc
    · split at hc
      · exact h3 c hc
      · rcases List.mem_append.mp hc with h | h
        · exact h3 c h
        · rw [List.mem_singleton.mp h]
    · exact h3 c hc
  · intro c hc
    cases hc


theorem getNameU_Run {o md : Obj} (t n : String)
    (hmd : mapGet o "metadata" = some (.vmap md)) (hn : n ≠ "") :
    getNameU (Run o t n).1 = n := by
  obtain ⟨md', hmd'⟩ := Run_meta_vmap t n hmd
  have h := (CC_Run o t n md' hmd').2.2.2.2 hn
  unfold getNameU
  rw [hmd']
  dsimp only
  rw [h]

theorem Detect_existence (tcl : Cluster) (gvr : GVR) (obj : Obj)
    (tns : String) :
    conflictHasType (Detect tcl gvr obj tns) .existence =
      resourceExists tcl gvr (getNameU obj) tns := by
  unfold Detect conflictHasType resourceExists
  dsimp only
  rw [List.any_append, List.any_append]
  have ha : (detectAddressConflicts obj).any
      (fun c => c.ctype == ConflictType.existence) = false := by
    rw [List.any_eq_false]
    intro c hc
    rw [detectAddressConflicts_types obj c hc]
    decide
  have hr : (detectReferenceConflicts tcl obj tns).any
      (fun c => c.ctype == ConflictType.existence) = false := by
    rw [List.any_eq_false]
    intro c hc
    rw [detectReferenceConflicts_types tcl obj tns c hc]
    decide
  rw [ha, hr]
  cases h : tcl.getObj gvr tns (getNameU obj) with
  | ok v => rfl
  | error e => rfl

theorem resourceExists_clusterOfKeys (keys : List KeyT) (gvr : GVR)
    (name tns : String) :
    resourceExists (clusterOfKeys keys) gvr name tns =
      decide ((⟨gvr, tns, name⟩ : KeyT) ∈ keys) := by
  unfold resourceExists clusterOfKeys
  dsimp only
  by_cases h : (⟨gvr, tns, name⟩ : KeyT) ∈ keys
  · rw [if_pos h]
    simp [h]
  · rw [if_neg h]
    simp [h]

theorem Apply_trace_skip (st : TraceState) (q : CopyResult)
    (h : q.error.isSome ∨ q.action = "skip") :
    (Apply traceTC st q).1 = st := by
  unfold Apply
  rw [if_pos h]

theorem Apply_trace_create (st : TraceState) (q : CopyResult)
    (herr : q.error = none) (hskip : q.action ≠ "skip")
    (hov : q.action ≠ "overwrite") (hmem : akey q ∉ st.existing) :
    (Apply traceTC st q).1 =
      ⟨st.existing ++ [akey q], st.events ++ [.create (akey q) st.existing]⟩ := by
  unfold Apply
  rw [if_neg (by simp [herr, hskip])]
  dsimp only
  rw [if_neg hov]
  unfold traceTC
  dsimp only
  have hkey : (⟨q.source.gvr, if ¬q.source.namespaced then "" else q.targetNS,
      getNameU (q.sanitized.getD [])⟩ : KeyT) = akey q := rfl
  rw [hkey, if_neg hmem]

theorem Apply_trace_overwrite (st : TraceState) (q : CopyResult)
    (herr : q.error = none) (hov : q.action = "overwrite")
    (hname : getNameU (q.sanitized.getD []) = q.targetName) :
    (Apply traceTC st q).1 =
      ⟨st.existing.filter (fun k' => k' ≠ akey q) ++ [akey q],
       st.events ++ [.del (akey q) st.existing] ++
         [.create (akey q) (st.existing.filter (fun k' => k' ≠ akey q))]⟩ := by
  unfold Apply
  rw [if_neg (by simp [herr, hov])]
  dsimp only
  rw [if_pos hov]
  unfold traceTC
  dsimp only
  have hkey : (⟨q.source.gvr, if ¬q.source.namespaced then "" else q.targetNS,
      getNameU (q.sanitized.getD [])⟩ : KeyT) = akey q := rfl
  have hkey2 : (⟨q.source.gvr, if ¬q.source.namespaced then "" else q.targetNS,
      q.targetName⟩ : KeyT) = akey q := by
    rw [← hkey, hname]
  rw [hkey, hkey2]
  split
  · rename_i hm
    exact absurd rfl (of_decide_eq_true (List.mem_filter.mp hm).2)
  · rfl


/-- A planned result in the shape `Plan` leaves on a successful fetch under
a valid conflict policy: one of the three planned actions, and a sanitized
object carrying the result's own target name. -/
def GoodR (p : CopyResult) : Prop :=
  p.error = none →
    (p.action = "skip" ∨ p.action = "overwrite" ∨ p.action = "create") ∧
    getNameU (p.sanitized.getD []) = p.targetName

theorem ApplyAll_safe_aux :
    ∀ (ps : List CopyResult) (E : List KeyT) (evs : List OpEvent),
      (∀ p ∈ ps, GoodR p) →
      (ps.map akey).Nodup →
      (∀ p ∈ ps, p.error = none → p.action = "create" → akey p ∉ E) →
      (∀ e ∈ evs, createSafe e) →
      ∀ e ∈ (ApplyAll traceTC ⟨E, evs⟩ ps).1.events, createSafe e := by
  intro ps
  induction ps with
  | nil =>
      intro E evs _ _ _ hevs e he
      exact hevs e he
  | cons q rest ih =>
      intro E evs hgood hnodup hE hevs
      rw [List.map_cons] at hnodup
      have hnd := List.nodup_cons.mp hnodup
      have hgq := hgood q (List.mem_cons_self q rest)
      have hgrest : ∀ p ∈ rest, GoodR p :=
        fun p hp => hgood p (List.mem_cons_of_mem q hp)
      have key : ∀ st' : TraceState,
          (Apply traceTC ⟨E, evs⟩ q).1 = st' →
          (∀ p ∈ rest, p.error = none → p.action = "create" →
            akey p ∉ st'.existing) →
          (∀ e ∈ st'.events, createSafe e) →
          ∀ e ∈ (ApplyAll traceTC ⟨E, evs⟩ (q :: rest)).1.events,
            createSafe e := by
        intro st' hst hE' hevs'
        unfold ApplyAll
        dsimp only
        rw [hst]
        exact ih st'.existing st'.events hgrest hnd.2 hE' hevs'
      cases herrc : q.error with
      | some err =>
          refine key ⟨E, evs⟩ ?_ ?_ hevs
          · exact Apply_trace_skip ⟨E, evs⟩ q (Or.inl (by rw [herrc]; rfl))
          · exact fun p hp hpe hpa => hE p (List.mem_cons_of_mem q hp) hpe hpa
      | none =>
          by_cases hskip : q.action = "skip"
          · refine key ⟨E, evs⟩ ?_ ?_ hevs
            · exact Apply_trace_skip ⟨E, evs⟩ q (Or.inr hskip)
            · exact fun p hp hpe hpa => hE p (List.mem_cons_of_mem q hp) hpe hpa
          · have hgq2 := hgq herrc
            by_cases hov : q.action = "overwrite"
            · refine key ⟨E.filter (fun k' => k' ≠ akey q) ++ [akey q],
                  evs ++ [.del (akey q) E] ++
                    [.create (akey q) (E.filter (fun k' => k' ≠ akey q))]⟩
                  ?_ ?_ ?_
              · exact Apply_trace_overwrite ⟨E, evs⟩ q herrc hov hgq2.2
              · intro p hp hpe hpa
                have h1 : akey p ∉ E :=
                  hE p (List.mem_cons_of_mem q hp) hpe hpa
                have h2 : akey p ≠ akey q := fun hcon =>
                  hnd.1 (hcon ▸ List.mem_map_of_mem akey hp)
                intro hmem
                rcases List.mem_append.mp hmem with h | h
                · exact h1 (List.mem_of_mem_filter h)
                · exact h2 (List.mem_singleton.mp h)
              · intro e he
                rcases List.mem_append.mp he with h | h
                · rcases List.mem_append.mp h with h' | h'
                  · exact hevs e h'
                  · rw [List.mem_singleton.mp h']
                    trivial
                · rw [List.mem_singleton.mp h]
                  intro hmem
                  exact absurd rfl
                    (of_decide_eq_true (List.mem_filter.mp hmem).2)
            · have hcr : q.action = "create" := by
                rcases hgq2.1 with h | h | h
                · exact absurd h hskip
                · exact absurd h hov
                · exact h
              have hnotmem : akey q ∉ E :=
                hE q (List.mem_cons_self q rest) herrc hcr
              refine key ⟨E ++ [akey q], evs ++ [.create (akey q) E]⟩ ?_ ?_ ?_
              · exact Apply_trace_create ⟨E, evs⟩ q herrc hskip hov hnotmem
              · intro p hp hpe hpa
                have h1 : akey p ∉ E :=
                  hE p (List.mem_cons_of_mem q hp) hpe hpa
                have h2 : akey p ≠ akey q := fun hcon =>
                  hnd.1 (hcon ▸ List.mem_map_of_mem akey hp)
                intro hmem
                rcases List.mem_append.mp hmem with h | h
                · exact h1 h
                · exact h2 (List.mem_singleton.mp h)
              · intro e he
                rcases List.mem_append.mp he with h | h
                · exact hevs e h
                · rw [List.mem_singleton.mp h]
                  exact hnotmem


theorem Plan_good (src : Cluster) (keys0 : List KeyT) (pol : String)
    (hpol : pol = "skip" ∨ pol = "warn" ∨ pol = "overwrite")
    (r : ResourceRef) (t nm : String) (hns : r.namespaced = true)
    (obj md : Obj)
    (hfetch : src.getObj r.gvr (if ¬r.namespaced then "" else r.ns) r.name =
      .ok obj)
    (hmd : mapGet obj "metadata" = some (.vmap md))
    (htn : (if nm = "" then r.name else nm) ≠ "") :
    GoodR (Plan ⟨src, clusterOfKeys keys0, pol⟩ r t nm) ∧
    ((Plan ⟨src, clusterOfKeys keys0, pol⟩ r t nm).error = none →
      (Plan ⟨src, clusterOfKeys keys0, pol⟩ r t nm).action = "create" →
      akey (Plan ⟨src, clusterOfKeys keys0, pol⟩ r t nm) ∉ keys0) := by
  unfold GoodR Plan
  dsimp only
  rw [hfetch]
  dsimp only
  refine ⟨?_, ?_⟩
  · intro _
    refine ⟨?_, ?_⟩
    · cases hex : conflictHasType (Detect (clusterOfKeys keys0) r.gvr
          (Run obj t (if nm = "" then r.name else nm)).1 t)
          ConflictType.existence with
      | true =>
          rcases hpol with hp | hp | hp <;> rw [hp] <;> simp
      | false => simp
    · exact getNameU_Run t (if nm = "" then r.name else nm) hmd htn
  · cases hex : conflictHasType (Detect (clusterOfKeys keys0) r.gvr
        (Run obj t (if nm = "" then r.name else nm)).1 t)
        ConflictType.existence with
    | true =>
        intro _ hact
        exfalso
        rcases hpol with hp | hp | hp <;> rw [hp] at hact <;> simp at hact
    | false =>
        intro _ _
        have h1 := Detect_existence (clusterOfKeys keys0) r.gvr
          (Run obj t (if nm = "" then r.name else nm)).1 t
        rw [hex, resourceExists_clusterOfKeys] at h1
        have h2 : (⟨r.gvr, t,
            getNameU ((Run obj t (if nm = "" then r.name else nm)).1)⟩ : KeyT)
            ∉ keys0 := of_decide_eq_false h1.symm
        unfold akey
        dsimp only
        rw [hns]
        simpa using h2


/-- C4 counterexample: a single cluster-scoped resource planned with target
namespace `prod`.  Plan's existence probe looks the object up in namespace
`prod`, but Apply clamps the namespace to the empty string for the create
call, where a same-named object still exists — so the run issues a create
while a same-named object of the same resource type still exists there. -/
theorem claim_C4_counterexample :
    (ApplyAll traceTC ⟨[⟨⟨"", "v1", "nodes"⟩, "", "x"⟩], []⟩
        (PlanAll
          ⟨⟨fun _ _ _ =>
              .ok [("metadata", Value.vmap [("name", Value.vstr "x")])],
            fun _ _ => .ok []⟩,
           clusterOfKeys [⟨⟨"", "v1", "nodes"⟩, "", "x"⟩], "skip"⟩
          [⟨⟨"", "v1", "nodes"⟩, "Node", "x", "", false⟩]
          "prod" "")).1.events =
      [.create ⟨⟨"", "v1", "nodes"⟩, "", "x"⟩
        [⟨⟨"", "v1", "nodes"⟩, "", "x"⟩]] ∧
    ¬ createSafe (.create (⟨⟨"", "v1", "nodes"⟩, "", "x"⟩ : KeyT)
        [⟨⟨"", "v1", "nodes"⟩, "", "x"⟩]) := by
  refine ⟨rfl, fun h => h ?_⟩
  exact List.mem_singleton.mpr rfl

/-- C4 (amended): over a run on namespaced resources whose source fetches
succeed with map-shaped metadata and non-empty names, with a conflict
policy in {skip, warn, overwrite} and no two planned results aimed at the
same target key, every create that ApplyAll issues against the target is
safe: at the moment it is attempted, no same-named object of the same
resource type exists in the target namespace (an overwrite's delete has
already removed it, and a plain create was planned only because the
existence probe found nothing). -/
theorem claim_C4_no_unsafe_create
    (keys0 : List KeyT) (refs : List ResourceRef) (src : Cluster)
    (pol t pn : String)
    (hpol : pol = "skip" ∨ pol = "warn" ∨ pol = "overwrite")
    (hns : ∀ r ∈ refs, r.namespaced = true)
    (hfetch : ∀ r ∈ refs, ∃ obj md, src.getObj r.gvr r.ns r.name = .ok obj ∧
      mapGet obj "metadata" = some (.vmap md))
    (hname : ∀ r ∈ refs, r.name ≠ "")
    (hnodup :
      ((PlanAll ⟨src, clusterOfKeys keys0, pol⟩ refs t pn).map akey).Nodup) :
    ∀ e ∈ (ApplyAll traceTC ⟨keys0, []⟩
        (PlanAll ⟨src, clusterOfKeys keys0, pol⟩ refs t pn)).1.events,
      createSafe e := by
  have hmem : ∀ p ∈ PlanAll ⟨src, clusterOfKeys keys0, pol⟩ refs t pn,
      ∃ r nm, r ∈ refs ∧ (if nm = "" then r.name else nm) ≠ "" ∧
        p = Plan ⟨src, clusterOfKeys keys0, pol⟩ r t nm := by
    cases refs with
    | nil => intro p hp; cases hp
    | cons r0 rest =>
        intro p hp
        unfold PlanAll at hp
        dsimp only at hp
        rcases List.mem_cons.mp hp with h | h
        · refine ⟨r0, if pn ≠ "" then pn else r0.name,
            List.mem_cons_self r0 rest, ?_, h⟩
          have h0 := hname r0 (List.mem_cons_self r0 rest)
          by_cases hpn : pn = ""
          · have hin : (if pn ≠ "" then pn else r0.name) = r0.name :=
              if_neg (fun hcon => hcon hpn)
            rw [hin, ite_self]
            exact h0
          · have hin : (if pn ≠ "" then pn else r0.name) = pn := if_pos hpn
            rw [hin, if_neg hpn]
            exact hpn
        · obtain ⟨r, hr, rfl⟩ := List.mem_map.mp h
          refine ⟨r, r.name, List.mem_cons_of_mem r0 hr, ?_, rfl⟩
          rw [ite_self]
          exact hname r (List.mem_cons_of_mem r0 hr)
  refine ApplyAll_safe_aux (PlanAll ⟨src, clusterOfKeys keys0, pol⟩ refs t pn)
      keys0 [] ?_ hnodup ?_ ?_
  · intro p hp
    obtain ⟨r, nm, hr, htn, rfl⟩ := hmem p hp
    obtain ⟨obj, md, hget, hmd⟩ := hfetch r hr
    have hget' : src.getObj r.gvr (if ¬r.namespaced then "" else r.ns)
        r.name = .ok obj := by
      rw [hns r hr]
      simpa using hget
    exact (Plan_good src keys0 pol hpol r t nm (hns r hr) obj md hget' hmd
      htn).1
  · intro p hp hpe hpa
    obtain ⟨r, nm, hr, htn, rfl⟩ := hmem p hp
    obtain ⟨obj, md, hget, hmd⟩ := hfetch r hr
    have hget' : src.getObj r.gvr (if ¬r.namespaced then "" else r.ns)
        r.name = .ok obj := by
      rw [hns r hr]
      simpa using hget
    exact (Plan_good src keys0 pol hpol r t nm (hns r hr) obj md hget' hmd
      htn).2 hpe hpa
  · intro e he
    cases he

/-- C4 witness: one namespaced ConfigMap copied into an empty target emits
only safe writes. -/
theorem claim_C4_witness :
    (∀ r ∈ [(⟨⟨"", "v1", "configmaps"⟩, "ConfigMap", "cm1", "ns-a",
        true⟩ : ResourceRef)], r.namespaced = true) ∧
    (∀ e ∈ (ApplyAll traceTC ⟨[], []⟩
        (PlanAll
          ⟨⟨fun _ _ _ =>
              .ok [("metadata", Value.vmap [("name", Value.vstr "cm1")])],
            fun _ _ => .ok []⟩,
           clusterOfKeys [], "skip"⟩
          [⟨⟨"", "v1", "configmaps"⟩, "ConfigMap", "cm1", "ns-a", true⟩]
          "ns-b" "")).1.events,
      createSafe e) :=
  ⟨fun r hr => by rw [List.mem_singleton.mp hr],
   claim_C4_no_unsafe_create [] _ _ "skip" "ns-b" ""
    (Or.inl rfl)
    (fun r hr => by rw [List.mem_singleton.mp hr])
    (fun r hr =>
      ⟨[("metadata", Value.vmap [("name", Value.vstr "cm1")])],
       [("name", Value.vstr "cm1")], rfl, rfl⟩)
    (fun r hr => by
      rw [List.mem_singleton.mp hr]
      decide)
    (by decide)⟩


/-! ### Reverse Service discovery (C8) -/

/-- `discovery.findMatchingServices`: list the Services of the namespace
and keep those whose non-empty map-shaped `spec.selector` matches the
given pod labels, each selector value compared against Go's zero-valued
map lookup `podLabels[k]`. -/
def findMatchingServices (client : Cluster) (nspace : String)
    (podLabels : List (String × String)) :
    List ResourceRef × List Obj :=
  match client.listObjs ⟨"", "v1", "services"⟩ nspace with
  | .error _ => ([], [])
  | .ok items =>
      items.foldl (fun acc svc =>
        match mapGet svc "spec" with
        | some (.vmap spec) =>
            match mapGet spec "selector" with
            | some (.vmap selectorRaw) =>
                if selectorRaw.isEmpty then acc
                else if selectorRaw.all (fun kv =>
                    match kv.2 with
                    | .vstr sv => (lookupStr podLabels kv.1).getD "" == sv
                    | _ => false) then
                  (acc.1 ++ [⟨⟨"", "v1", "services"⟩, "", getNameU svc,
                    nspace, false⟩],
                   acc.2 ++ [svc])
                else acc
            | _ => acc
        | _ => acc) ([], [])

/-- The per-Service matching test of `findMatchingServices`: a non-empty
map-shaped `spec.selector` whose every entry is a string equal to the
zero-valued lookup of its key in the pod labels. -/
def svcSelectorMatch (podLabels : List (String × String)) (svc : Obj) :
    Bool :=
  match mapGet svc "spec" with
  | some (.vmap spec) =>
      match mapGet spec "selector" with
      | some (.vmap selectorRaw) =>
          !selectorRaw.isEmpty && selectorRaw.all (fun kv =>
            match kv.2 with
            | .vstr sv => (lookupStr podLabels kv.1).getD "" == sv
            | _ => false)
      | _ => false
  | _ => false

/-- The selector-match relation as the spec words it (set-inclusion): every
selector entry is a string equal to the entry carried under the same key by
the pod-template labels — so that key must be present — and the selector is
non-empty.  Written from the spec, to be compared with `svcSelectorMatch`. -/
def specSelectorMatchP (podLabels : List (String × String)) (svc : Obj) :
    Prop :=
  ∃ spec selector, mapGet svc "spec" = some (.vmap spec) ∧
    mapGet spec "selector" = some (.vmap selector) ∧ selector ≠ [] ∧
    ∀ kv ∈ selector, ∃ sv, kv.2 = Value.vstr sv ∧
      lookupStr podLabels kv.1 = some sv

theorem findMS_step (nspace : String) (podLabels : List (String × String))
    (acc : List ResourceRef × List Obj) (svc : Obj) :
    (match mapGet svc "spec" with
     | some (.vmap spec) =>
         match mapGet spec "selector" with
         | some (.vmap selectorRaw) =>
             if selectorRaw.isEmpty then acc
             else if selectorRaw.all (fun kv =>
                 match kv.2 with
                 | .vstr sv => (lookupStr podLabels kv.1).getD "" == sv
                 | _ => false) then
               (acc.1 ++ [⟨⟨"", "v1", "services"⟩, "", getNameU svc,
                 nspace, false⟩],
                acc.2 ++ [svc])
             else acc
         | _ => acc
     | _ => acc) =
    (if svcSelectorMatch podLabels svc then
      (acc.1 ++ [⟨⟨"", "v1", "services"⟩, "", getNameU svc, nspace, false⟩],
       acc.2 ++ [svc])
     else acc) := by
  unfold svcSelectorMatch
  cases hspec : mapGet svc "spec" with
  | none => rfl
  | some v =>
      cases v with
      | vstr a => rfl
      | vnum a => rfl
      | vbool a => rfl
      | vnull => rfl
      | varr a => rfl
      | vmap spec =>
          dsimp only
          cases hsel : mapGet spec "selector" with
          | none => rfl
          | some w =>
              cases w with
              | vstr a => rfl
              | vnum a => rfl
              | vbool a => rfl
              | vnull => rfl
              | varr a => rfl
              | vmap selectorRaw =>
                  cases hemp : selectorRaw.isEmpty <;>
                    cases hall : selectorRaw.all (fun kv =>
                      match kv.2 with
                      | .vstr sv =>
                          (lookupStr podLabels kv.1).getD "" == sv
                      | _ => false) <;>
                    simp [hemp, hall]

theorem findMS_fold (nspace : String) (podLabels : List (String × String)) :
    ∀ (its : List Obj) (acc : List ResourceRef × List Obj),
      its.foldl (fun acc svc =>
        match mapGet svc "spec" with
        | some (.vmap spec) =>
            match mapGet spec "selector" with
            | some (.vmap selectorRaw) =>
                if selectorRaw.isEmpty then acc
                else if selectorRaw.all (fun kv =>
                    match kv.2 with
                    | .vstr sv => (lookupStr podLabels kv.1).getD "" == sv
                    | _ => false) then
                  (acc.1 ++ [⟨⟨"", "v1", "services"⟩, "", getNameU svc,
                    nspace, false⟩],
                   acc.2 ++ [svc])
                else acc
            | _ => acc
        | _ => acc) acc =
      (acc.1 ++ (its.filter (svcSelectorMatch podLabels)).map
        (fun svc => (⟨⟨"", "v1", "services"⟩, "", getNameU svc, nspace,
          false⟩ : ResourceRef)),
       acc.2 ++ its.filter (svcSelectorMatch podLabels)) := by
  intro its
  induction its with
  | nil =>
      intro acc
      simp
  | cons svc rest ih =>
      intro acc
      rw [List.foldl_cons, List.filter_cons]
      rw [findMS_step nspace podLabels acc svc]
      by_cases hm : svcSelectorMatch podLabels svc
      · rw [if_pos hm, if_pos hm, ih, List.map_cons]
        simp [List.append_assoc]
      · rw [if_neg hm, if_neg hm, ih]

/-- C8 counterexample: a Service whose selector maps `a` to the empty
string is emitted for a workload whose pod labels lack the key `a`
entirely — Go's zero-valued lookup `podLabels["a"]` returns the empty
string — while the claim's set-inclusion reading (the selector value equals
an entry actually present in the labels) rejects the match. -/
theorem claim_C8_counterexample :
    (findMatchingServices
      ⟨fun _ _ _ => .error "no get",
       fun _ _ => .ok [[("metadata", Value.vmap [("name", Value.vstr "svc1")]),
         ("spec", Value.vmap [("selector",
           Value.vmap [("a", Value.vstr "")])])]]⟩
      "ns-a" [("b", "x")]).1 =
      [⟨⟨"", "v1", "services"⟩, "", "svc1", "ns-a", false⟩] ∧
    ¬ specSelectorMatchP [("b", "x")]
      [("metadata", Value.vmap [("name", Value.vstr "svc1")]),
       ("spec", Value.vmap [("selector", Value.vmap [("a", Value.vstr "")])])] := by
  constructor
  · rfl
  · rintro ⟨spec, sel, h1, h2, hne, hall⟩
    obtain rfl : spec = [("selector", Value.vmap [("a", Value.vstr "")])] :=
      (Value.vmap.inj (Option.some.inj h1)).symm
    obtain rfl : sel = [("a", Value.vstr "")] :=
      (Value.vmap.inj (Option.some.inj h2)).symm
    obtain ⟨sv, hv, hl⟩ := hall ("a", Value.vstr "")
      (List.mem_singleton.mpr rfl)
    have hnone : (none : Option String) = some sv := hl
    exact Option.noConfusion hnone

/-- C8 (amended): for every pod-label map and Service listing of the
namespace, `findMatchingServices` returns exactly the Services passing
`svcSelectorMatch` — a non-empty map-shaped `spec.selector` whose every
entry is a string equal to the zero-valued lookup of its key in the pod
labels (so a selector entry with the empty-string value also matches a
workload lacking that label key entirely); a Service with an empty or
non-map selector is never matched. -/
theorem claim_C8_selector_filter (client : Cluster) (nspace : String)
    (podLabels : List (String × String)) (items : List Obj)
    (hlist : client.listObjs ⟨"", "v1", "services"⟩ nspace = .ok items) :
    findMatchingServices client nspace podLabels =
      ((items.filter (svcSelectorMatch podLabels)).map
        (fun svc => (⟨⟨"", "v1", "services"⟩, "", getNameU svc, nspace,
          false⟩ : ResourceRef)),
       items.filter (svcSelectorMatch podLabels)) := by
  unfold findMatchingServices
  rw [hlist]
  dsimp only
  rw [findMS_fold nspace podLabels items ([], [])]
  simp

/-- C8 witness: one matching and one non-matching Service. -/
theorem claim_C8_witness :
    ((⟨fun _ _ _ => .error "no get",
       fun _ _ => .ok [[("metadata", Value.vmap [("name", Value.vstr "s1")]),
           ("spec", Value.vmap [("selector",
             Value.vmap [("app", Value.vstr "web")])])],
         [("metadata", Value.vmap [("name", Value.vstr "s2")]),
           ("spec", Value.vmap [("selector",
             Value.vmap [("app", Value.vstr "db")])])]]⟩ : Cluster).listObjs
        ⟨"", "v1", "services"⟩ "ns-a" =
      .ok [[("metadata", Value.vmap [("name", Value.vstr "s1")]),
           ("spec", Value.vmap [("selector",
             Value.vmap [("app", Value.vstr "web")])])],
         [("metadata", Value.vmap [("name", Value.vstr "s2")]),
           ("spec", Value.vmap [("selector",
             Value.vmap [("app", Value.vstr "db")])])]]) ∧
    findMatchingServices
      ⟨fun _ _ _ => .error "no get",
       fun _ _ => .ok [[("metadata", Value.vmap [("name", Value.vstr "s1")]),
           ("spec", Value.vmap [("selector",
             Value.vmap [("app", Value.vstr "web")])])],
         [("metadata", Value.vmap [("name", Value.vstr "s2")]),
           ("spec", Value.vmap [("selector",
             Value.vmap [("app", Value.vstr "db")])])]]⟩
      "ns-a" [("app", "web")] =
      (([[("metadata", Value.vmap [("name", Value.vstr "s1")]),
           ("spec", Value.vmap [("selector",
             Value.vmap [("app", Value.vstr "web")])])],
         [("metadata", Value.vmap [("name", Value.vstr "s2")]),
           ("spec", Value.vmap [("selector",
             Value.vmap [("app", Value.vstr "db")])])]].filter
          (svcSelectorMatch [("app", "web")])).map
        (fun svc => (⟨⟨"", "v1", "services"⟩, "", getNameU svc, "ns-a",
          false⟩ : ResourceRef)),
       [[("metadata", Value.vmap [("name", Value.vstr "s1")]),
           ("spec", Value.vmap [("selector",
             Value.vmap [("app", Value.vstr "web")])])],
         [("metadata", Value.vmap [("name", Value.vstr "s2")]),
           ("spec", Value.vmap [("selector",
             Value.vmap [("app", Value.vstr "db")])])]].filter
          (svcSelectorMatch [("app", "web")])) :=
  ⟨rfl, claim_C8_selector_filter _ "ns-a" [("app", "web")] _ rfl⟩

/-! ### Dependency discovery (C7) -/

/-- `discovery.refKey`: the cycle-detection key `(resource, name, namespace)`. -/
structure RefKey where
  resource : String
  name : String
  ns : String
deriving DecidableEq, Repr

/-- The key of a `ResourceRef`. -/
def keyOf (r : ResourceRef) : RefKey :=
  ⟨r.gvr.resource, r.name, r.ns⟩

/-- `discovery.extractForwardRefs`: ConfigMaps, Secrets, PVCs and a
non-default ServiceAccount of the object's pod spec, in that order. -/
def extractForwardRefs (obj : Obj) (nspace : String) : List ResourceRef :=
  match extractPodSpec obj with
  | none => []
  | some podSpec =>
      (extractConfigMapNames podSpec).map (fun nm =>
        (⟨⟨"", "v1", "configmaps"⟩, "", nm, nspace, false⟩ : ResourceRef)) ++
      (extractSecretNames podSpec).map (fun nm =>
        (⟨⟨"", "v1", "secrets"⟩, "", nm, nspace, false⟩ : ResourceRef)) ++
      (extractPVCNames podSpec).map (fun nm =>
        (⟨⟨"", "v1", "persistentvolumeclaims"⟩, "", nm, nspace,
          false⟩ : ResourceRef)) ++
      (let sa := extractServiceAccountName podSpec
       if sa ≠ "" ∧ sa ≠ "default" then
         [⟨⟨"", "v1", "serviceaccounts"⟩, "", sa, nspace, false⟩]
       else [])

/-- `discovery.ingressReferencesService`: any backend of the Ingress —
default backend first, then every rule's HTTP paths — names the Service. -/
def ingressReferencesService (ing : Obj) (serviceName : String) : Bool :=
  match mapGet ing "spec" with
  | some (.vmap spec) =>
      let db :=
        match mapGet spec "defaultBackend" with
        | some (.vmap db) =>
            match mapGet db "service" with
            | some (.vmap svc) =>
                match mapGet svc "name" with
                | some (.vstr nm) => nm == serviceName
                | _ => false
            | _ => false
        | _ => false
      if db then true
      else
        match mapGet spec "rules" with
        | some (.varr rules) =>
            rules.any (fun r =>
              match r with
              | .vmap rule =>
                  match mapGet rule "http" with
                  | some (.vmap http) =>
                      match mapGet http "paths" with
                      | some (.varr paths) =>
                          paths.any (fun p =>
                            match p with
                            | .vmap path =>
                                match mapGet path "backend" with
                                | some (.vmap backend) =>
                                    match mapGet backend "service" with
                                    | some (.vmap svc) =>
                                        match mapGet svc "name" with
                                        | some (.vstr nm) =>
                                            nm == serviceName
                                        | _ => false
                                    | _ => false
                                | _ => false
                            | _ => false)
                      | _ => false
                  | _ => false
              | _ => false)
        | _ => false
  | _ => false

/-- `discovery.findIngressesForService`. -/
def findIngressesForService (client : Cluster) (nspace serviceName : String) :
    List ResourceRef × List Obj :=
  match client.listObjs ⟨"networking.k8s.io", "v1", "ingresses"⟩ nspace with
  | .error _ => ([], [])
  | .ok items =>
      items.foldl (fun acc ing =>
        if ingressReferencesService ing serviceName then
          (acc.1 ++ [⟨⟨"networking.k8s.io", "v1", "ingresses"⟩, "",
            getNameU ing, nspace, false⟩],
           acc.2 ++ [ing])
        else acc) ([], [])

/-- `discovery.findHPAsForResource`: list `autoscaling/v2` HPAs, falling
back to `autoscaling/v1`, and keep those whose `spec.scaleTargetRef` names
the given kind and name (non-string fields read as Go's zero value). -/
def findHPAsForResource (client : Cluster) (nspace kind name : String) :
    List ResourceRef × List Obj :=
  let collect := fun (hpaGVR : GVR) (items : List Obj) =>
    items.foldl (fun acc hpa =>
      match mapGet hpa "spec" with
      | some (.vmap spec) =>
          match mapGet spec "scaleTargetRef" with
          | some (.vmap scaleRef) =>
              let refKind :=
                match mapGet scaleRef "kind" with
                | some (.vstr s) => s
                | _ => ""
              let refName :=
                match mapGet scaleRef "name" with
                | some (.vstr s) => s
                | _ => ""
              if refKind == kind && refName == name then
                (acc.1 ++ [⟨hpaGVR, "", getNameU hpa, nspace, false⟩],
                 acc.2 ++ [hpa])
              else acc
          | _ => acc
      | _ => acc) (([], []) : List ResourceRef × List Obj)
  match client.listObjs ⟨"autoscaling", "v2", "horizontalpodautoscalers"⟩
      nspace with
  | .ok items => collect ⟨"autoscaling", "v2", "horizontalpodautoscalers"⟩ items
  | .error _ =>
      match client.listObjs ⟨"autoscaling", "v1", "horizontalpodautoscalers"⟩
          nspace with
      | .ok items =>
          collect ⟨"autoscaling", "v1", "horizontalpodautoscalers"⟩ items
      | .error _ => ([], [])

/-- `discovery.discoverReverseRefs`: matching Services for workloads,
Ingresses for a Service, HPAs for scalable workloads, concatenated. -/
def discoverReverseRefs (client : Cluster) (obj : Obj) (nspace : String) :
    List ResourceRef × List Obj :=
  let kind := getKindU obj
  let svcPart :=
    if kind = "Deployment" ∨ kind = "StatefulSet" ∨ kind = "DaemonSet" ∨
        kind = "ReplicaSet" ∨ kind = "Pod" then
      let podLabels := extractPodTemplateLabels obj
      if podLabels.length > 0 then findMatchingServices client nspace podLabels
      else ([], [])
    else ([], [])
  let ingPart :=
    if kind = "Service" then
      findIngressesForService client nspace (getNameU obj)
    else ([], [])
  let hpaPart :=
    if kind = "Deployment" ∨ kind = "StatefulSet" ∨ kind = "ReplicaSet" then
      findHPAsForResource client nspace kind (getNameU obj)
    else ([], [])
  (svcPart.1 ++ ingPart.1 ++ hpaPart.1, svcPart.2 ++ ingPart.2 ++ hpaPart.2)

/-- The mutable state of `Discover`'s BFS: the visited key set, the result
list, and the work queue of fetched objects with their refs. -/
structure DiscState where
  visited : List RefKey
  result : List ResourceRef
  queue : List (Obj × ResourceRef)

/-- The forward-reference pass of one BFS iteration: each unvisited ref is
marked visited, then GET-verified; only refs that exist are emitted and
enqueued. -/
def forwardStep (client : Cluster) (nspace : String) (cur : Obj)
    (st : DiscState) : DiscState :=
  (extractForwardRefs cur nspace).foldl (fun st ref =>
    if keyOf ref ∈ st.visited then st
    else
      match client.getObj ref.gvr ref.ns ref.name with
      | .error _ => { st with visited := st.visited ++ [keyOf ref] }
      | .ok obj =>
          { visited := st.visited ++ [keyOf ref],
            result := st.result ++ [ref],
            queue := st.queue ++ [(obj, ref)] }) st

/-- The reverse-reference pass of one BFS iteration: each unvisited ref is
marked, emitted and enqueued with its already-fetched object. -/
def reverseStep (client : Cluster) (nspace : String) (cur : Obj)
    (st : DiscState) : DiscState :=
  let rr := discoverReverseRefs client cur nspace
  (rr.1.zip rr.2).foldl (fun st p =>
    if keyOf p.1 ∈ st.visited then st
    else
      { visited := st.visited ++ [keyOf p.1],
        result := st.result ++ [p.1],
        queue := st.queue ++ [(p.2, p.1)] }) st

/-- The BFS loop of `Discover`, unrolled on fuel: dequeue the head, run the
forward then the reverse pass, repeat while fuel and queue last. -/
def discoverLoop (client : Cluster) (nspace : String) :
    Nat → DiscState → DiscState
  | 0, st => st
  | fuel + 1, st =>
      match st.queue with
      | [] => st
      | cur :: rest =>
          discoverLoop client nspace fuel
            (reverseStep client nspace cur.1
              (forwardStep client nspace cur.1
                { st with queue := rest }))

/-- `discovery.Discover`: mark the primary visited, fetch it, and run the
BFS from the primary; the additional refs found, in emission order. -/
def Discover (client : Cluster) (gvr : GVR) (name nspace : String)
    (fuel : Nat) : Except String (List ResourceRef) :=
  match client.getObj gvr nspace name with
  | .error err =>
      .error ("fetching primary resource " ++ gvr.resource ++ "/" ++ name ++
        ": " ++ err)
  | .ok primaryObj =>
      .ok (discoverLoop client nspace fuel
        { visited := [⟨gvr.resource, name, nspace⟩],
          result := [],
          queue := [(primaryObj, ⟨gvr, "", name, nspace, false⟩)] }).result

/-- `DiscState` with a ghost BFS depth on every queue entry and every
emitted ref; erasing the depths recovers `Discover`'s state exactly. -/
structure DiscStateD where
  visited : List RefKey
  resultD : List (ResourceRef × Nat)
  queueD : List (Obj × ResourceRef × Nat)

/-- `forwardStep`, tagging children of a depth-`d` node with `d + 1`. -/
def forwardStepD (client : Cluster) (nspace : String) (cur : Obj) (d : Nat)
    (st : DiscStateD) : DiscStateD :=
  (extractForwardRefs cur nspace).foldl (fun st ref =>
    if keyOf ref ∈ st.visited then st
    else
      match client.getObj ref.gvr ref.ns ref.name with
      | .error _ => { st with visited := st.visited ++ [keyOf ref] }
      | .ok obj =>
          { visited := st.visited ++ [keyOf ref],
            resultD := st.resultD ++ [(ref, d + 1)],
            queueD := st.queueD ++ [(obj, ref, d + 1)] }) st

/-- `reverseStep`, tagging children of a depth-`d` node with `d + 1`. -/
def reverseStepD (client : Cluster) (nspace : String) (cur : Obj) (d : Nat)
    (st : DiscStateD) : DiscStateD :=
  let rr := discoverReverseRefs client cur nspace
  (rr.1.zip rr.2).foldl (fun st p =>
    if keyOf p.1 ∈ st.visited then st
    else
      { visited := st.visited ++ [keyOf p.1],
        resultD := st.resultD ++ [(p.1, d + 1)],
        queueD := st.queueD ++ [(p.2, p.1, d + 1)] }) st

/-- `discoverLoop` over depth-tagged states. -/
def discoverLoopD (client : Cluster) (nspace : String) :
    Nat → DiscStateD → DiscStateD
  | 0, st => st
  | fuel + 1, st =>
      match st.queueD with
      | [] => st
      | cur :: rest =>
          discoverLoopD client nspace fuel
            (reverseStepD client nspace cur.1 cur.2.2
              (forwardStepD client nspace cur.1 cur.2.2
                { st with queueD := rest }))

/-- `Discover` with ghost depths: the primary starts at depth `0`. -/
def DiscoverD (client : Cluster) (gvr : GVR) (name nspace : String)
    (fuel : Nat) : Except String (List (ResourceRef × Nat)) :=
  match client.getObj gvr nspace name with
  | .error err =>
      .error ("fetching primary resource " ++ gvr.resource ++ "/" ++ name ++
        ": " ++ err)
  | .ok primaryObj =>
      .ok (discoverLoopD client nspace fuel
        { visited := [⟨gvr.resource, name, nspace⟩],
          resultD := [],
          queueD := [(primaryObj, ⟨gvr, "", name, nspace, false⟩, 0)] }).resultD

/-- Depth erasure. -/
def eraseD (st : DiscStateD) : DiscState :=
  ⟨st.visited, st.resultD.map Prod.fst, st.queueD.map (fun x => (x.1, x.2.1))⟩

theorem forwardStepD_erase (client : Cluster) (nspace : String) (cur : Obj)
    (d : Nat) :
    ∀ (refs : List ResourceRef) (st : DiscStateD),
      eraseD (refs.foldl (fun st ref =>
        if keyOf ref ∈ st.visited then st
        else
          match client.getObj ref.gvr ref.ns ref.name with
          | .error _ => { st with visited := st.visited ++ [keyOf ref] }
          | .ok obj =>
              { visited := st.visited ++ [keyOf ref],
                resultD := st.resultD ++ [(ref, d + 1)],
                queueD := st.queueD ++ [(obj, ref, d + 1)] }) st) =
      refs.foldl (fun st ref =>
        if keyOf ref ∈ st.visited then st
        else
          match client.getObj ref.gvr ref.ns ref.name with
          | .error _ => { st with visited := st.visited ++ [keyOf ref] }
          | .ok obj =>
              { visited := st.visited ++ [keyOf ref],
                result := st.result ++ [ref],
                queue := st.queue ++ [(obj, ref)] }) (eraseD st) := by
  intro refs
  induction refs with
  | nil => intro st; rfl
  | cons ref rest ih =>
      intro st
      rw [List.foldl_cons, List.foldl_cons, ih]
      congr 1
      have hv2 : (keyOf ref ∈ (eraseD st).visited) = (keyOf ref ∈ st.visited) :=
        rfl
      by_cases hv : keyOf ref ∈ st.visited
      · rw [if_pos hv, if_pos (hv2 ▸ hv)]
      · rw [if_neg hv, if_neg (hv2 ▸ hv)]
        cases hg : client.getObj ref.gvr ref.ns ref.name with
        | error e => rfl
        | ok obj => simp [eraseD]

theorem reverseStepD_erase (client : Cluster) (d : Nat) :
    ∀ (ps : List (ResourceRef × Obj)) (st : DiscStateD),
      eraseD (ps.foldl (fun st p =>
        if keyOf p.1 ∈ st.visited then st
        else
          { visited := st.visited ++ [keyOf p.1],
            resultD := st.resultD ++ [(p.1, d + 1)],
            queueD := st.queueD ++ [(p.2, p.1, d + 1)] }) st) =
      ps.foldl (fun st p =>
        if keyOf p.1 ∈ st.visited then st
        else
          { visited := st.visited ++ [keyOf p.1],
            result := st.result ++ [p.1],
            queue := st.queue ++ [(p.2, p.1)] }) (eraseD st) := by
  intro ps
  induction ps with
  | nil => intro st; rfl
  | cons p rest ih =>
      intro st
      rw [List.foldl_cons, List.foldl_cons, ih]
      congr 1
      have hv2 : (keyOf p.1 ∈ (eraseD st).visited) = (keyOf p.1 ∈ st.visited) :=
        rfl
      by_cases hv : keyOf p.1 ∈ st.visited
      · rw [if_pos hv, if_pos (hv2 ▸ hv)]
      · rw [if_neg hv, if_neg (hv2 ▸ hv)]
        simp [eraseD]

theorem discoverLoopD_erase (client : Cluster) (nspace : String) :
    ∀ (fuel : Nat) (st : DiscStateD),
      eraseD (discoverLoopD client nspace fuel st) =
        discoverLoop client nspace fuel (eraseD st) := by
  intro fuel
  induction fuel with
  | zero => intro st; rfl
  | succ n ih =>
      intro st
      unfold discoverLoopD discoverLoop
      cases hq : st.queueD with
      | nil =>
          have : (eraseD st).queue = [] := by
            unfold eraseD
            rw [hq]
            rfl
          rw [this]
      | cons cur rest =>
          have : (eraseD st).queue =
              (cur.1, cur.2.1) :: rest.map (fun x => (x.1, x.2.1)) := by
            unfold eraseD
            rw [hq]
            rfl
          rw [this]
          dsimp only
          rw [ih]
          congr 1
          unfold reverseStep reverseStepD
          dsimp only
          rw [reverseStepD_erase client cur.2.2]
          congr 1
          unfold forwardStep forwardStepD
          rw [forwardStepD_erase client nspace cur.1 cur.2.2]
          congr 1

theorem DiscoverD_erase (client : Cluster) (gvr : GVR)
    (name nspace : String) (fuel : Nat) :
    Discover client gvr name nspace fuel =
      (DiscoverD client gvr name nspace fuel).map (List.map Prod.fst) := by
  unfold Discover DiscoverD
  cases hget : client.getObj gvr nspace name with
  | error e => rfl
  | ok primaryObj =>
      dsimp only [Except.map]
      have h := discoverLoopD_erase client nspace fuel
        ⟨[⟨gvr.resource, name, nspace⟩], [],
         [(primaryObj, ⟨gvr, "", name, nspace, false⟩, 0)]⟩
      have h2 : (eraseD (discoverLoopD client nspace fuel
          ⟨[⟨gvr.resource, name, nspace⟩], [],
           [(primaryObj, ⟨gvr, "", name, nspace, false⟩, 0)]⟩)).result =
          (discoverLoop client nspace fuel
            ⟨[⟨gvr.resource, name, nspace⟩], [],
             [(primaryObj, ⟨gvr, "", name, nspace, false⟩)]⟩).result := by
        rw [h]
        rfl
      rw [← h2]
      rfl

/-- The visited-set invariant of `Discover`'s loop: every emitted key is
visited, the emitted keys are distinct, and the primary key is visited but
never emitted. -/
def DInv (pk : RefKey) (st : DiscState) : Prop :=
  (∀ r ∈ st.result, keyOf r ∈ st.visited) ∧
  (st.result.map keyOf).Nodup ∧
  pk ∈ st.visited ∧
  pk ∉ st.result.map keyOf

theorem DInv_grow (pk : RefKey) (V K : List RefKey) (R : List ResourceRef)
    (Q Q' : List (Obj × ResourceRef)) (h : DInv pk ⟨V, R, Q⟩) :
    DInv pk ⟨V ++ K, R, Q'⟩ := by
  refine ⟨?_, h.2.1, List.mem_append_left K h.2.2.1, h.2.2.2⟩
  intro r hr
  exact List.mem_append_left K (h.1 r hr)

theorem DInv_insert (pk : RefKey) (V : List RefKey) (R : List ResourceRef)
    (Q Q' : List (Obj × ResourceRef)) (ref : ResourceRef)
    (h : DInv pk ⟨V, R, Q⟩) (hv : keyOf ref ∉ V) :
    DInv pk ⟨V ++ [keyOf ref], R ++ [ref], Q'⟩ := by
  refine ⟨?_, ?_, List.mem_append_left _ h.2.2.1, ?_⟩
  · intro r hr
    rcases List.mem_append.mp hr with h' | h'
    · exact List.mem_append_left _ (h.1 r h')
    · rw [List.mem_singleton.mp h']
      exact List.mem_append_right _ (List.mem_singleton.mpr rfl)
  · rw [List.map_append]
    refine List.Nodup.append h.2.1 (List.nodup_singleton _) ?_
    intro a ha hb
    have hb' : a = keyOf ref := by simpa using hb
    obtain ⟨r, hrR, hkr⟩ := List.mem_map.mp ha
    apply hv
    rw [← hb', ← hkr]
    exact h.1 r hrR
  · rw [List.map_append]
    intro hmem
    rcases List.mem_append.mp hmem with h' | h'
    · exact h.2.2.2 h'
    · have hpe : pk = keyOf ref := by simpa using h'
      exact hv (hpe ▸ h.2.2.1)

theorem DInv_forward_fold (client : Cluster) (pk : RefKey) :
    ∀ (refs : List ResourceRef) (st : DiscState), DInv pk st →
      DInv pk (refs.foldl (fun st ref =>
        if keyOf ref ∈ st.visited then st
        else
          match client.getObj ref.gvr ref.ns ref.name with
          | .error _ => { st with visited := st.visited ++ [keyOf ref] }
          | .ok obj =>
              { visited := st.visited ++ [keyOf ref],
                result := st.result ++ [ref],
                queue := st.queue ++ [(obj, ref)] }) st) := by
  intro refs
  induction refs with
  | nil => intro st h; exact h
  | cons ref rest ih =>
      intro st h
      rw [List.foldl_cons]
      apply ih
      by_cases hv : keyOf ref ∈ st.visited
      · rw [if_pos hv]
        exact h
      · rw [if_neg hv]
        cases hg : client.getObj ref.gvr ref.ns ref.name with
        | error e =>
            exact DInv_grow pk st.visited [keyOf ref] st.result st.queue
              st.queue h
        | ok obj =>
            exact DInv_insert pk st.visited st.result st.queue
              (st.queue ++ [(obj, ref)]) ref h hv

theorem DInv_reverse_fold (pk : RefKey) :
    ∀ (ps : List (ResourceRef × Obj)) (st : DiscState), DInv pk st →
      DInv pk (ps.foldl (fun st p =>
        if keyOf p.1 ∈ st.visited then st
        else
          { visited := st.visited ++ [keyOf p.1],
            result := st.result ++ [p.1],
            queue := st.queue ++ [(p.2, p.1)] }) st) := by
  intro ps
  induction ps with
  | nil => intro st h; exact h
  | cons p rest ih =>
      intro ps h
      rw [List.foldl_cons]
      apply ih
      by_cases hv : keyOf p.1 ∈ ps.visited
      · rw [if_pos hv]
        exact h
      · rw [if_neg hv]
        exact DInv_insert pk ps.visited ps.result ps.queue
          (ps.queue ++ [(p.2, p.1)]) p.1 h hv

theorem DInv_loop (client : Cluster) (nspace : String) (pk : RefKey) :
    ∀ (fuel : Nat) (st : DiscState), DInv pk st →
      DInv pk (discoverLoop client nspace fuel st) := by
  intro fuel
  induction fuel with
  | zero => intro st h; exact h
  | succ n ih =>
      intro st h
      unfold discoverLoop
      cases hq : st.queue with
      | nil => exact h
      | cons cur rest =>
          apply ih
          unfold reverseStep
          dsimp only
          apply DInv_reverse_fold
          unfold forwardStep
          apply DInv_forward_fold
          exact ⟨h.1, h.2.1, h.2.2.1, h.2.2.2⟩

/-- The emission depths of a depth-tagged state. -/
def rDepths (st : DiscStateD) : List Nat := st.resultD.map Prod.snd

/-- The queue depths of a depth-tagged state. -/
def qDepths (st : DiscStateD) : List Nat := st.queueD.map (fun x => x.2.2)

/-- One BFS iteration working at depth `d` only appends depth-`d + 1`
entries to the result and the queue. -/
def extendsD (d : Nat) (st st' : DiscStateD) : Prop :=
  ∃ R Q, st'.resultD = st.resultD ++ R ∧ st'.queueD = st.queueD ++ Q ∧
    (∀ x ∈ R, x.2 = d + 1) ∧ (∀ x ∈ Q, x.2.2 = d + 1)

theorem extendsD_self (d : Nat) (st : DiscStateD) : extendsD d st st :=
  ⟨[], [], by simp, by simp,
   fun x hx => absurd hx (List.not_mem_nil x),
   fun x hx => absurd hx (List.not_mem_nil x)⟩

theorem extendsD_trans {d : Nat} {st1 st2 st3 : DiscStateD}
    (h1 : extendsD d st1 st2) (h2 : extendsD d st2 st3) :
    extendsD d st1 st3 := by
  obtain ⟨R1, Q1, hr1, hq1, hdr1, hdq1⟩ := h1
  obtain ⟨R2, Q2, hr2, hq2, hdr2, hdq2⟩ := h2
  refine ⟨R1 ++ R2, Q1 ++ Q2, ?_, ?_, ?_, ?_⟩
  · rw [hr2, hr1, List.append_assoc]
  · rw [hq2, hq1, List.append_assoc]
  · intro x hx
    rcases List.mem_append.mp hx with h | h
    · exact hdr1 x h
    · exact hdr2 x h
  · intro x hx
    rcases List.mem_append.mp hx with h | h
    · exact hdq1 x h
    · exact hdq2 x h

theorem extendsD_forward_fold (client : Cluster) (d : Nat) :
    ∀ (refs : List ResourceRef) (st : DiscStateD),
      extendsD d st (refs.foldl (fun st ref =>
        if keyOf ref ∈ st.visited then st
        else
          match client.getObj ref.gvr ref.ns ref.name with
          | .error _ => { st with visited := st.visited ++ [keyOf ref] }
          | .ok obj =>
              { visited := st.visited ++ [keyOf ref],
                resultD := st.resultD ++ [(ref, d + 1)],
                queueD := st.queueD ++ [(obj, ref, d + 1)] }) st) := by
  intro refs
  induction refs with
  | nil => intro st; exact extendsD_self d st
  | cons ref rest ih =>
      intro st
      rw [List.foldl_cons]
      refine extendsD_trans ?_ (ih _)
      by_cases hv : keyOf ref ∈ st.visited
      · rw [if_pos hv]
        exact extendsD_self d st
      · rw [if_neg hv]
        cases hg : client.getObj ref.gvr ref.ns ref.name with
        | error e =>
            exact ⟨[], [], by simp, by simp,
              fun x hx => absurd hx (List.not_mem_nil x),
              fun x hx => absurd hx (List.not_mem_nil x)⟩
        | ok obj =>
            refine ⟨[(ref, d + 1)], [(obj, ref, d + 1)], rfl, rfl, ?_, ?_⟩
            · intro x hx
              rw [List.mem_singleton.mp hx]
            · intro x hx
              rw [List.mem_singleton.mp hx]

theorem extendsD_reverse_fold (d : Nat) :
    ∀ (ps : List (ResourceRef × Obj)) (st : DiscStateD),
      extendsD d st (ps.foldl (fun st p =>
        if keyOf p.1 ∈ st.visited then st
        else
          { visited := st.visited ++ [keyOf p.1],
            resultD := st.resultD ++ [(p.1, d + 1)],
            queueD := st.queueD ++ [(p.2, p.1, d + 1)] }) st) := by
  intro ps
  induction ps with
  | nil => intro st; exact extendsD_self d st
  | cons p rest ih =>
      intro st
      rw [List.foldl_cons]
      refine extendsD_trans ?_ (ih _)
      by_cases hv : keyOf p.1 ∈ st.visited
      · rw [if_pos hv]
        exact extendsD_self d st
      · rw [if_neg hv]
        refine ⟨[(p.1, d + 1)], [(p.2, p.1, d + 1)], rfl, rfl, ?_, ?_⟩
        · intro x hx
          rw [List.mem_singleton.mp hx]
        · intro x hx
          rw [List.mem_singleton.mp hx]

/-- A constant list is sorted. -/
theorem pairwise_of_const {l : List Nat} {c : Nat} (h : ∀ x ∈ l, x = c) :
    l.Pairwise (fun a b => a ≤ b) := by
  induction l with
  | nil => exact List.Pairwise.nil
  | cons a l ih =>
      refine List.Pairwise.cons ?_ (ih ?_)
      · intro b hb
        rw [h a (List.mem_cons_self a l), h b (List.mem_cons_of_mem a hb)]
      · intro x hx
        exact h x (List.mem_cons_of_mem a hx)

/-- The BFS-order invariant: emission and queue depths are non-decreasing,
and no depth anywhere exceeds the queue head's depth plus one. -/
def OrdInv (st : DiscStateD) : Prop :=
  (rDepths st).Pairwise (fun a b => a ≤ b) ∧
  (qDepths st).Pairwise (fun a b => a ≤ b) ∧
  ∀ d0, (qDepths st).head? = some d0 →
    (∀ d ∈ qDepths st, d ≤ d0 + 1) ∧ (∀ d ∈ rDepths st, d ≤ d0 + 1)

theorem OrdInv_step (client : Cluster) (nspace : String) (st : DiscStateD)
    (cur : Obj × ResourceRef × Nat) (rest : List (Obj × ResourceRef × Nat))
    (hq : st.queueD = cur :: rest) (h : OrdInv st) :
    OrdInv (reverseStepD client nspace cur.1 cur.2.2
      (forwardStepD client nspace cur.1 cur.2.2
        { st with queueD := rest })) := by
  have hf : extendsD cur.2.2 { st with queueD := rest }
      (forwardStepD client nspace cur.1 cur.2.2 { st with queueD := rest }) := by
    unfold forwardStepD
    exact extendsD_forward_fold client cur.2.2 _ _
  have hrv : extendsD cur.2.2
      (forwardStepD client nspace cur.1 cur.2.2 { st with queueD := rest })
      (reverseStepD client nspace cur.1 cur.2.2
        (forwardStepD client nspace cur.1 cur.2.2
          { st with queueD := rest })) := by
    unfold reverseStepD
    dsimp only
    exact extendsD_reverse_fold cur.2.2 _ _
  obtain ⟨R, Q, hr, hq2, hdR, hdQ⟩ := extendsD_trans hf hrv
  have hrd : rDepths (reverseStepD client nspace cur.1 cur.2.2
      (forwardStepD client nspace cur.1 cur.2.2 { st with queueD := rest })) =
      rDepths st ++ R.map Prod.snd := by
    unfold rDepths
    rw [hr, List.map_append]
  have hqd : qDepths (reverseStepD client nspace cur.1 cur.2.2
      (forwardStepD client nspace cur.1 cur.2.2 { st with queueD := rest })) =
      (rest.map fun x => x.2.2) ++ (Q.map fun x => x.2.2) := by
    unfold qDepths
    rw [hq2, List.map_append]
  have hqd0 : qDepths st = cur.2.2 :: rest.map (fun x => x.2.2) := by
    unfold qDepths
    rw [hq, List.map_cons]
  have h2 : (cur.2.2 :: rest.map (fun x => x.2.2)).Pairwise
      (fun a b => a ≤ b) := by
    rw [← hqd0]
    exact h.2.1
  have h3 := h.2.2 cur.2.2 (by rw [hqd0]; rfl)
  rw [hqd0] at h3
  have hds_ge : ∀ d ∈ rest.map (fun x => x.2.2), cur.2.2 ≤ d :=
    (List.pairwise_cons.mp h2).1
  have hds_pw := (List.pairwise_cons.mp h2).2
  have hRc : ∀ x ∈ R.map Prod.snd, x = cur.2.2 + 1 := by
    intro x hx
    obtain ⟨y, hy, rfl⟩ := List.mem_map.mp hx
    exact hdR y hy
  have hQc : ∀ x ∈ Q.map (fun x => x.2.2), x = cur.2.2 + 1 := by
    intro x hx
    obtain ⟨y, hy, rfl⟩ := List.mem_map.mp hx
    exact hdQ y hy
  refine ⟨?_, ?_, ?_⟩
  · rw [hrd, List.pairwise_append]
    refine ⟨h.1, pairwise_of_const hRc, ?_⟩
    intro a ha b hb
    rw [hRc b hb]
    exact h3.2 a ha
  · rw [hqd, List.pairwise_append]
    refine ⟨hds_pw, pairwise_of_const hQc, ?_⟩
    intro a ha b hb
    rw [hQc b hb]
    exact h3.1 a (List.mem_cons_of_mem cur.2.2 ha)
  · intro d1 hd1
    rw [hqd] at hd1
    rw [hqd, hrd]
    cases hds : rest.map (fun x => x.2.2) with
    | cons e ds2 =>
        rw [hds] at hd1
        have hd1e : e = d1 := by simpa using hd1
        have hd0e : cur.2.2 ≤ e :=
          hds_ge e (by rw [hds]; exact List.mem_cons_self e ds2)
        constructor
        · intro d hd
          rcases List.mem_append.mp hd with hL | hR2
          · have hb := h3.1 d (List.mem_cons_of_mem cur.2.2
              (by rw [hds]; exact hL))
            omega
          · have hb := hQc d hR2
            omega
        · intro d hd
          rcases List.mem_append.mp hd with hL | hR2
          · have hb := h3.2 d hL
            omega
          · have hb := hRc d hR2
            omega
    | nil =>
        rw [hds] at hd1
        simp only [List.nil_append] at hd1
        have hd1m : d1 ∈ Q.map (fun x => x.2.2) := by
          cases hQd : Q.map (fun x => x.2.2) with
          | nil =>
              rw [hQd] at hd1
              cases hd1
          | cons q0 qs =>
              rw [hQd] at hd1
              have hq0 : q0 = d1 := by simpa using hd1
              rw [← hq0]
              exact List.mem_cons_self q0 qs
        have hd1c : d1 = cur.2.2 + 1 := hQc d1 hd1m
        constructor
        · intro d hd
          rcases List.mem_append.mp hd with hL | hR2
          · cases hL
          · have hb := hQc d hR2
            omega
        · intro d hd
          rcases List.mem_append.mp hd with hL | hR2
          · have hb := h3.2 d hL
            omega
          · have hb := hRc d hR2
            omega

theorem OrdInv_loop (client : Cluster) (nspace : String) :
    ∀ (fuel : Nat) (st : DiscStateD), OrdInv st →
      OrdInv (discoverLoopD client nspace fuel st) := by
  intro fuel
  induction fuel with
  | zero => intro st h; exact h
  | succ n ih =>
      intro st h
      unfold discoverLoopD
      cases hq : st.queueD with
      | nil => exact h
      | cons cur rest => exact ih _ (OrdInv_step client nspace st cur rest hq h)

/-- C7: for every primary resource, source-cluster state and fuel bound,
the list Discover returns carries each `(resource, namespace, name)` key at
most once, never carries the primary's own key, and is in BFS order: the
ghost-depth run DiscoverD erases to it, and the depths at which the refs
are emitted never decrease — each node's matched edges are appended before
any deeper node's. -/
theorem claim_C7_discover_bfs (client : Cluster) (gvr : GVR)
    (name nspace : String) (fuel : Nat) (res : List ResourceRef)
    (hok : Discover client gvr name nspace fuel = .ok res) :
    (res.map keyOf).Nodup ∧
    (⟨gvr.resource, name, nspace⟩ : RefKey) ∉ res.map keyOf ∧
    ∃ resD : List (ResourceRef × Nat),
      DiscoverD client gvr name nspace fuel = .ok resD ∧
      resD.map Prod.fst = res ∧
      (resD.map Prod.snd).Pairwise (fun a b => a ≤ b) := by
  unfold Discover at hok
  cases hget : client.getObj gvr nspace name with
  | error e =>
      rw [hget] at hok
      simp at hok
  | ok primaryObj =>
      rw [hget] at hok
      dsimp only at hok
      have hres : res = (discoverLoop client nspace fuel
          ⟨[⟨gvr.resource, name, nspace⟩], [],
           [(primaryObj, ⟨gvr, "", name, nspace, false⟩)]⟩).result :=
        (Except.ok.inj hok).symm
      have hinv := DInv_loop client nspace ⟨gvr.resource, name, nspace⟩ fuel
        ⟨[⟨gvr.resource, name, nspace⟩], [],
         [(primaryObj, ⟨gvr, "", name, nspace, false⟩)]⟩
        ⟨fun r hr => absurd hr (List.not_mem_nil r), List.nodup_nil,
         List.mem_singleton.mpr rfl,
         fun hmem => absurd hmem (List.not_mem_nil _)⟩
      refine ⟨?_, ?_, ?_⟩
      · rw [hres]
        exact hinv.2.1
      · rw [hres]
        exact hinv.2.2.2
      · refine ⟨(discoverLoopD client nspace fuel
            ⟨[⟨gvr.resource, name, nspace⟩], [],
             [(primaryObj, ⟨gvr, "", name, nspace, false⟩, 0)]⟩).resultD,
            ?_, ?_, ?_⟩
        · unfold DiscoverD
          rw [hget]
        · have h := discoverLoopD_erase client nspace fuel
            ⟨[⟨gvr.resource, name, nspace⟩], [],
             [(primaryObj, ⟨gvr, "", name, nspace, false⟩, 0)]⟩
          rw [hres]
          have h2 : ((discoverLoopD client nspace fuel
              ⟨[⟨gvr.resource, name, nspace⟩], [],
               [(primaryObj, ⟨gvr, "", name, nspace, false⟩,
                 0)]⟩).resultD).map Prod.fst =
              (eraseD (discoverLoopD client nspace fuel
                ⟨[⟨gvr.resource, name, nspace⟩], [],
                 [(primaryObj, ⟨gvr, "", name, nspace, false⟩,
                   0)]⟩)).result := rfl
          rw [h2, h]
          rfl
        · have hinitOrd : OrdInv
              ⟨[⟨gvr.resource, name, nspace⟩], [],
               [(primaryObj, ⟨gvr, "", name, nspace, false⟩, 0)]⟩ := by
            refine ⟨List.Pairwise.nil, ?_, ?_⟩
            · simp [qDepths]
            · intro d0 hd0
              simp [qDepths] at hd0
              constructor
              · intro d hd
                simp [qDepths] at hd
                omega
              · intro d hd
                simp [rDepths] at hd
          have hOrd := OrdInv_loop client nspace fuel
            ⟨[⟨gvr.resource, name, nspace⟩], [],
             [(primaryObj, ⟨gvr, "", name, nspace, false⟩, 0)]⟩ hinitOrd
          exact hOrd.1

/-- C7 witness: a Deployment mounting one ConfigMap in an otherwise empty
cluster; Discover finds exactly the ConfigMap. -/
theorem claim_C7_witness :
    Discover
      ⟨fun _ _ nm =>
        if nm = "web" then
          .ok [("kind", Value.vstr "Deployment"),
            ("metadata", Value.vmap [("name", Value.vstr "web")]),
            ("spec", Value.vmap [("template", Value.vmap [("spec",
              Value.vmap [("volumes", Value.varr [Value.vmap [("configMap",
                Value.vmap [("name", Value.vstr "cm1")])]])])])])]
        else if nm = "cm1" then
          .ok [("metadata", Value.vmap [("name", Value.vstr "cm1")])]
        else .error "nf",
       fun _ _ => .error "no list"⟩
      ⟨"apps", "v1", "deployments"⟩ "web" "ns-a" 3 =
      .ok [⟨⟨"", "v1", "configmaps"⟩, "", "cm1", "ns-a", false⟩] ∧
    (([⟨⟨"", "v1", "configmaps"⟩, "", "cm1", "ns-a",
        false⟩] : List ResourceRef).map keyOf).Nodup ∧
    (⟨"deployments", "web", "ns-a"⟩ : RefKey) ∉
      ([⟨⟨"", "v1", "configmaps"⟩, "", "cm1", "ns-a",
        false⟩] : List ResourceRef).map keyOf ∧
    ∃ resD : List (ResourceRef × Nat),
      DiscoverD
        ⟨fun _ _ nm =>
          if nm = "web" then
            .ok [("kind", Value.vstr "Deployment"),
              ("metadata", Value.vmap [("name", Value.vstr "web")]),
              ("spec", Value.vmap [("template", Value.vmap [("spec",
                Value.vmap [("volumes", Value.varr [Value.vmap [("configMap",
                  Value.vmap [("name", Value.vstr "cm1")])]])])])])]
          else if nm = "cm1" then
            .ok [("metadata", Value.vmap [("name", Value.vstr "cm1")])]
          else .error "nf",
         fun _ _ => .error "no list"⟩
        ⟨"apps", "v1", "deployments"⟩ "web" "ns-a" 3 = .ok resD ∧
      resD.map Prod.fst =
        [⟨⟨"", "v1", "configmaps"⟩, "", "cm1", "ns-a", false⟩] ∧
      (resD.map Prod.snd).Pairwise (fun a b => a ≤ b) :=
  ⟨rfl, claim_C7_discover_bfs _ ⟨"apps", "v1", "deployments"⟩ "web" "ns-a" 3
    [⟨⟨"", "v1", "configmaps"⟩, "", "cm1", "ns-a", false⟩] rfl⟩
end KubeCopy
